import Mathlib

/-!
# emu-ex-plus-alpha: file picker, virtual keyboard, input translation and video layer

A shallow embedding of

* `imagine/src/gui/FSPicker.cc` (directory listing worker, its restart logic, the path
  title),
* `EmuFramework/src/vcontrols/VControllerKeyboard.cc` (key table builder, input and
  selection),
* `2600.emu/src/main/input.cc` (key translation and handling),
* `EmuFramework/src/EmuVideoLayer.cc` (the pixel rectangle of integer-only zoom),
* `Swan.emu/src/main/EmuMenuViews.cc` (the user name input),

followed by the properties proved about them.
-/

set_option linter.unusedVariables false

/-! ## Standard library algorithms used by the sources -/

namespace Std_

/-- The algorithm of `std::lexicographical_compare(first1, last1, first2, last2, comp)`:
walk both ranges in step, answer at the first position where `comp` tells the
elements apart, otherwise the shorter range is the smaller one. -/
def lexicographical_compare {α : Type} (comp : α → α → Bool) : List α → List α → Bool
  | [], [] => false
  | [], _ :: _ => true
  | _ :: _, [] => false
  | a :: as, b :: bs =>
    if comp a b then true
    else if comp b a then false
    else lexicographical_compare comp as bs

/-- One insertion step of the sort: `x` goes in front of the first element it is
less than. -/
def sortInsert {α : Type} (less : α → α → Bool) (x : α) : List α → List α
  | [] => [x]
  | y :: ys => if less x y then x :: y :: ys else y :: sortInsert less x ys

/-- The call `std::sort(first, last, less)`. The C++ library fixes its contract (the
range is rearranged into an order in which no element is `less` than one before it)
and not the algorithm; the embedding realises it as an insertion sort. -/
def sort {α : Type} (less : α → α → Bool) : List α → List α
  | [] => []
  | x :: xs => sortInsert less x (sort less xs)

end Std_

/-! ## imagine: FSPicker -/

namespace FS

/-- The `FS::file_type` enumeration (that of `std::filesystem`). -/
inductive file_type where
  | none | not_found | regular | directory | symlink | block | character | fifo
  | socket | unknown
  deriving DecidableEq, Repr

/-- An `FS::directory_entry` as the listing callback reads it: `path()`, `name()`
and `type()`. -/
structure directory_entry where
  path : String
  name : String
  type : file_type
  deriving DecidableEq, Repr

/-- The record `FS::RootPathInfo`: display name of the root and the number of leading
characters of a path it stands for. -/
structure RootPathInfo where
  name : String
  length : Nat
  deriving DecidableEq, Repr

end FS

namespace IG

/-- Modelled from the spec: `IG::stringNoCaseLexCompare` of `imagine/util/string.h`,
which is not among the sources; the "case-insensitive lexicographic comparison" of two
strings, that is `std::lexicographical_compare` on the characters with the letters
folded to lower case. -/
def stringNoCaseLexCompare (s1 s2 : String) : Bool :=
  Std_.lexicographical_compare (fun c1 c2 => decide (c1.toLower < c2.toLower)) s1.data s2.data

/-- The test `name.starts_with(c)` of `std::string_view`. -/
def starts_with (s : String) (c : Char) : Bool :=
  match s.data with
  | [] => false
  | d :: _ => d == c

/-- The picker modes, `FSPicker::Mode`. -/
inductive Mode where
  | FILE | FILE_IN_DIR | DIR
  deriving DecidableEq, Repr

/-- Which select handler `listDirectory` has attached to a file entry's menu item. -/
inductive OnSelect where
  | unset
  /-- The handler that asserts `!isSingleDirectoryMode()` and enters the directory. -/
  | enterDir
  /-- The handler that passes the entry's path to `onSelectPath_`. -/
  | selectPath
  deriving DecidableEq, Repr

/-- An element of `FSPicker::dir`: the path, and of the menu item `text` its string, its
`IS_DIR_FLAG` flag bit and its select handler. -/
structure FileEntry where
  path : String
  name : String
  dirFlag : Bool
  onSelect : OnSelect
  deriving DecidableEq, Repr

/-- The test `FileEntry::isDir()`: the `IS_DIR_FLAG` bit of the item's flags. -/
def FileEntry.isDir (e : FileEntry) : Bool := e.dirFlag

/-- What `forEachInDirectoryUri` meets in a directory: the entries in the order they are
read, and whether reading then fails with a `std::system_error` (a directory that
cannot be opened has no entries and fails). -/
structure DirStream where
  entries : List FS.directory_entry
  fails : Bool

/-- The callback a `dirListEvent` carries. -/
inductive DirListCallback where
  | unset
  /-- Set on a fresh start: hand the list to the table view. -/
  | showList
  /-- Set on a deferred start: `startDirectoryListThread(root.path)`. -/
  | restart
  deriving DecidableEq, Repr

/-- Modelled from the spec: the `WorkThread` of `imagine/thread`, which is not among the
sources; "a single cancellable worker thread per file-system listing request": whether
it is working, whether it has been told to stop, and the path argument its work
function was started with. -/
structure WorkThread where
  working : Bool
  stopRequested : Bool
  path : String
  deriving DecidableEq, Repr

/-- The main-thread event `dirListEvent`: its callback and whether a notification is
pending. -/
structure CustomEvent where
  callback : DirListCallback
  pending : Bool
  deriving DecidableEq, Repr

/-- The members of `FSPicker` that the listing code reads and writes. `tableName` is the
name of the file table view and `itemsShown` tells whether its items delegate returns
`dir.size()` (rather than nothing). -/
structure FSPicker where
  mode_ : Mode
  showHiddenFiles_ : Bool
  filter : Option (FS.directory_entry → Bool)
  dir : List FileEntry
  rootPath : String
  rootInfo : FS.RootPathInfo
  msgText : String
  highlightFirstDirEntry : Bool
  dirListThread : WorkThread
  dirListEvent : CustomEvent
  tableName : String
  itemsShown : Bool

/-- Host functions of the application context that `setPath` calls. -/
structure ApplicationContext where
  isUri : String → Bool
  fileUriDisplayName : String → String
  decodeUri : String → String

/-- The setter `FSPicker::setShowHiddenFiles`. -/
def FSPicker.setShowHiddenFiles (p : FSPicker) (on_ : Bool) : FSPicker :=
  { p with showHiddenFiles_ := on_ }

/-- The test `FSPicker::isSingleDirectoryMode`. -/
def FSPicker.isSingleDirectoryMode (p : FSPicker) : Bool :=
  p.mode_ == Mode.FILE_IN_DIR

/-- The element `listDirectory` appends for an entry it accepts: the `emplace_back` of
the entry's path and name, with `IS_DIR_FLAG` set for a directory. -/
def FileEntry.ofEntry (entry : FS.directory_entry) : FileEntry :=
  { path := entry.path, name := entry.name,
    dirFlag := entry.type == FS.file_type.directory, onSelect := OnSelect.unset }

/-- The callback `listDirectory` passes to `forEachInDirectoryUri`, on the list `dir`
built so far; `stop` is the value of the stop flag when the callback tests it. The
second component is the callback's return value (`false` ends the iteration). -/
def FSPicker.listEntry (p : FSPicker) (stop : Bool) (dir : List FileEntry)
    (entry : FS.directory_entry) : List FileEntry × Bool :=
  if stop then (dir, false)
  else
    let isDir := entry.type == FS.file_type.directory
    let wrongType :=
      if p.mode_ == Mode.DIR then !isDir
      else if p.mode_ == Mode.FILE_IN_DIR then isDir
      else false
    if wrongType then (dir, true)
    else if !p.showHiddenFiles_ && starts_with entry.name '.' then (dir, true)
    else if (match p.filter with | some f => !f entry | none => false) then (dir, true)
    else (dir ++ [FileEntry.ofEntry entry], true)

/-- The iteration of `forEachInDirectoryUri` with the callback of `listDirectory`: the
entries are visited in order until the callback returns `false`; `stop i` is the stop
flag as the `i`-th callback run sees it. -/
def FSPicker.forEachEntry (p : FSPicker) (stop : Nat → Bool) :
    Nat → List FS.directory_entry → List FileEntry → List FileEntry × Bool
  | _, [], dir => (dir, true)
  | i, entry :: rest, dir =>
    let r := p.listEntry (stop i) dir entry
    if r.2 then FSPicker.forEachEntry p stop (i + 1) rest r.1 else (r.1, false)

/-- The comparison `listDirectory` hands to `std::sort`. -/
def fileEntryLess (e1 e2 : FileEntry) : Bool :=
  if e1.isDir && !e2.isDir then true
  else if !e1.isDir && e2.isDir then false
  else stringNoCaseLexCompare e1.path e2.path

/-- The loop of `listDirectory` that gives every entry its select handler. -/
def setOnSelect (d : FileEntry) : FileEntry :=
  if d.isDir then { d with onSelect := OnSelect.enterDir }
  else { d with onSelect := OnSelect.selectPath }

/-- Whether the call of `listDirectory` ends in its `catch(std::system_error &)`
block: the iteration was not cut short by a stop and the directory stream fails. -/
def FSPicker.catchesSystemError (p : FSPicker) (src : DirStream) (stop : Nat → Bool) : Bool :=
  (p.forEachEntry stop 0 src.entries p.dir).2 && src.fails

/-- The function `FSPicker::listDirectory(path, stop)`, on the directory stream `src`
that `path` yields. -/
def FSPicker.listDirectory (p : FSPicker) (src : DirStream) (stop : Nat → Bool) : FSPicker :=
  let listed := p.forEachEntry stop 0 src.entries p.dir
  if listed.2 && src.fails then
    { p with
      dir := listed.1
      msgText := "Can't open directory:\n" ++
        (if p.mode_ == Mode.FILE_IN_DIR then "" else "\nPick a path from the top bar") }
  else
    let sorted := Std_.sort fileEntryLess listed.1
    if sorted.length != 0 then
      { p with dir := sorted.map setOnSelect, msgText := "" }
    else
      { p with dir := sorted, msgText := "Empty Directory" }

/-- The claim's words for the entries a listing keeps: an entry that passes the type
filter of the mode, the hidden-file filter and the user filter function (when one is
set). Used only to state the listing's result; `listEntry` is the code. -/
def specAccepted (p : FSPicker) (entry : FS.directory_entry) : Bool :=
  (match p.mode_ with
    | Mode.DIR => entry.type == FS.file_type.directory
    | Mode.FILE_IN_DIR => entry.type != FS.file_type.directory
    | Mode.FILE => true)
  && (p.showHiddenFiles_ || !starts_with entry.name '.')
  && (match p.filter with
    | some f => f entry
    | none => true)

/-- The function `FSPicker::startDirectoryListThread(path)`. With the worker busy it only
requests a stop and replaces the event callback; otherwise it clears the list, resets the
items delegate, arms the show-list callback, cancels a pending event and starts the
worker on `path`. -/
def FSPicker.startDirectoryListThread (p : FSPicker) (path : String) : FSPicker :=
  if p.dirListThread.working then
    { p with
      dirListThread := { p.dirListThread with stopRequested := true }
      dirListEvent := { p.dirListEvent with callback := DirListCallback.restart } }
  else
    { p with
      dir := []
      itemsShown := false
      dirListEvent := { callback := DirListCallback.showList, pending := false }
      dirListThread := { working := true, stopRequested := false, path := path } }

/-- The function `FSPicker::setEmptyPath`: the worker is stopped (`WorkThread::stop`
returns once the thread has ended), the event is cancelled, root and list are cleared. -/
def FSPicker.setEmptyPath (p : FSPicker) : FSPicker :=
  { p with
    dirListThread := { p.dirListThread with working := false, stopRequested := true }
    dirListEvent := { p.dirListEvent with pending := false }
    rootPath := ""
    rootInfo := { name := "", length := 0 }
    dir := []
    msgText := "No folder is set"
    tableName := if p.mode_ == Mode.FILE_IN_DIR then "" else "Select File Location" }

/-- The function `FSPicker::setPath(path, rootInfo, e)`; `keyEvent` is `e.keyEvent()`. The
closing call of the host delegate `onChangePath_` is outside the embedding. -/
def FSPicker.setPath (ctx : ApplicationContext) (p : FSPicker) (path : String)
    (rootInfo : FS.RootPathInfo) (keyEvent : Bool) : FSPicker :=
  if path.length == 0 then p.setEmptyPath
  else
    let p1 := { p with highlightFirstDirEntry := keyEvent }
    let p2 := p1.startDirectoryListThread path
    let p3 := { p2 with rootPath := path }
    let pathLen := path.length
    -- verify root info
    let rootInfo1 : FS.RootPathInfo :=
      if rootInfo.length != 0 && decide (rootInfo.length > pathLen)
      then { rootInfo with length := 0 } else rootInfo
    -- if the path is a URI and no root info is provided, root at the URI itself
    let isUri := ctx.isUri path
    let rootInfo2 : FS.RootPathInfo :=
      if rootInfo1.length == 0 && isUri
      then { name := ctx.fileUriDisplayName path, length := path.length } else rootInfo1
    let p4 : FSPicker :=
      if rootInfo2.length != 0 then { p3 with rootInfo := rootInfo2 }
      else { p3 with rootInfo := { name := "", length := 0 } }
    let rootedPath : String :=
      if rootInfo2.length != 0 then
        (if pathLen > rootInfo2.length then rootInfo2.name ++ path.drop rootInfo2.length
         else rootInfo2.name)
      else p3.rootPath
    let rootedPath1 := if isUri then ctx.decodeUri rootedPath else rootedPath
    { p4 with tableName := rootedPath1 }

/-- The work function that `startDirectoryListThread` gives the worker, run to its
end: list the directory of the path the worker was started with (`fsys` is the file
system, `stop` the stop flag as the callback runs see it), then, unless the thread is
being quit (`ctx.stop.isQuitting()`, raised when the thread is torn down and not by a
stop request), report the work as finished and notify `dirListEvent`. -/
def FSPicker.workerRun (p : FSPicker) (fsys : String → DirStream) (stop : Nat → Bool)
    (quitting : Bool) : FSPicker :=
  let p1 := p.listDirectory (fsys p.dirListThread.path) stop
  if quitting then p1
  else
    { p1 with
      dirListThread := { p1.dirListThread with working := false }
      dirListEvent := { p1.dirListEvent with pending := true } }

/-- The main thread handles a notified `dirListEvent` by running its callback: the
restart callback calls `startDirectoryListThread(root.path)`, the show-list callback
hands the list to the table view. -/
def FSPicker.dirListEventFired (p : FSPicker) : FSPicker :=
  if p.dirListEvent.pending then
    let p1 := { p with dirListEvent := { p.dirListEvent with pending := false } }
    match p1.dirListEvent.callback with
    | DirListCallback.restart => p1.startDirectoryListThread p1.rootPath
    | DirListCallback.showList => { p1 with itemsShown := true }
    | DirListCallback.unset => p1
  else p

/-- A request made through `setPath`: the path, the root info and whether the input
event is a key event. -/
structure PathRequest where
  path : String
  rootInfo : FS.RootPathInfo
  keyEvent : Bool

/-- A run of `setPath` calls, one per request, in order. -/
def FSPicker.setPaths (ctx : ApplicationContext) (p : FSPicker) (reqs : List PathRequest) :
    FSPicker :=
  reqs.foldl (fun q r => q.setPath ctx r.path r.rootInfo r.keyEvent) p

/-- What `pushFileLocationsView` asks of the build and of the application context:
`Config::envIsLinux`, `hasSystemPathPicker()`, `hasSystemDocumentPicker()` and the
descriptions of `rootFileLocations()`. -/
structure LocationsHost where
  envIsLinux : Bool
  hasSystemPathPicker : Bool
  hasSystemDocumentPicker : Bool
  rootFileLocations : List String

/-- The function `FSPicker::pushFileLocationsView(e)`: the names of the items of the view
it pushes, in order, or `none` when it returns without pushing a view. -/
def FSPicker.pushFileLocationsView (host : LocationsHost) (p : FSPicker) :
    Option (List String) :=
  if p.isSingleDirectoryMode then none
  else
    let items0 := if host.hasSystemPathPicker then ["Browse For Folder"] else []
    let items1 :=
      if p.mode_ != Mode.DIR && host.hasSystemDocumentPicker
      then items0 ++ ["Browse For File"] else items0
    let items2 := items1 ++ host.rootFileLocations
    let items3 := if host.envIsLinux then items2 ++ ["Root Filesystem"] else items2
    some (items3 ++ ["Custom Path"])

end IG

/-! ## EmuFramework: VControllerKeyboard -/

namespace EmuEx

/-- The number of columns of the key table, `VKEY_COLS`. -/
def VKEY_COLS : Nat := 20

/-- The number of rows of the key table, `KEY_ROWS`. -/
def KEY_ROWS : Nat := 4

/-- The keyboard modes, `VControllerKbMode`. -/
inductive VControllerKbMode where
  | LAYOUT_1 | LAYOUT_2
  deriving DecidableEq, Repr

/-- The two key codes of class `VController` that the keyboard code names. Their values
are declared in `VController.hh`, which is not among the sources, so they are
parameters. -/
structure VController where
  TOGGLE_KEYBOARD : Nat
  CHANGE_KEYBOARD_MODE : Nat

/-- A key map `KbMap`: an array of 40 key codes. -/
abbrev KbMap : Type := Fin 40 → Nat

/-- The read `*mapPtr` with `mapPtr = &map[i]`. -/
def KbMap.read (map : KbMap) (i : Nat) : Nat :=
  if h : i < 40 then map ⟨i, h⟩ else 0

/-- An `IG::WindowRect`: the corners `(x, y)` and `(x2, y2)`. -/
structure WindowRect where
  x : Int
  y : Int
  x2 : Int
  y2 : Int
  deriving DecidableEq, Repr

/-- The members of `VControllerKeyboard` outside drawing. The key table `table`, 4 rows of
20 key codes, is kept row after row as the code's pointer walks see it: `table[r][c]` is
element `r * VKEY_COLS + c`. -/
structure VControllerKeyboard where
  table : List Nat
  mode_ : VControllerKbMode
  selected : WindowRect
  shiftRect : WindowRect
  bound : WindowRect
  keyXSize : Int
  keyYSize : Int

/-- The address `&table[row][col]` as an offset from `&table[0][0]`. -/
def cell (row col : Nat) : Nat := row * VKEY_COLS + col

/-- The read `table[row][col]`. -/
def VControllerKeyboard.tableAt (kb : VControllerKeyboard) (row col : Nat) : Nat :=
  kb.table.getD (cell row col) 0

/-- The loop of `applyMap` that runs `n` times
`tablePtr[0] = *mapPtr; tablePtr[1] = *mapPtr; tablePtr += 2; mapPtr++;`
and yields the table and the two pointers after it. -/
def fillPairs (map : KbMap) : Nat → List Nat → Nat → Nat → List Nat × Nat × Nat
  | 0, table, tablePtr, mapPtr => (table, tablePtr, mapPtr)
  | n + 1, table, tablePtr, mapPtr =>
    fillPairs map n
      ((table.set tablePtr (map.read mapPtr)).set (tablePtr + 1) (map.read mapPtr))
      (tablePtr + 2) (mapPtr + 1)

/-- The loop of `applyMap` that runs `n` times `*tablePtr++ = *mapPtr;` and yields the
table and the table pointer after it. -/
def fillSame (map : KbMap) : Nat → List Nat → Nat → Nat → List Nat × Nat
  | 0, table, tablePtr, _ => (table, tablePtr)
  | n + 1, table, tablePtr, mapPtr =>
    fillSame map n (table.set tablePtr (map.read mapPtr)) (tablePtr + 1) mapPtr

/-- The function `VControllerKeyboard::applyMap(map)`. -/
def VControllerKeyboard.applyMap (vc : VController) (kb : VControllerKeyboard) (map : KbMap) :
    VControllerKeyboard :=
  let table0 : List Nat := List.replicate (KEY_ROWS * VKEY_COLS) 0
  -- 1st row
  let row1 := fillPairs map 10 table0 (cell 0 0) 0
  -- 2nd row
  let row2 :=
    if kb.mode_ == VControllerKbMode.LAYOUT_1 then fillPairs map 9 row1.1 (cell 1 1) 10
    else fillPairs map 10 row1.1 (cell 1 0) 10
  -- 3rd row
  let mapPtr3 := 20
  let table3a :=
    ((row2.1.set (cell 2 2) (map.read mapPtr3)).set (cell 2 1) (map.read mapPtr3)).set
      (cell 2 0) (map.read mapPtr3)
  let row3 := fillPairs map 7 table3a (cell 2 3) (mapPtr3 + 1)
  let table3b :=
    ((row3.1.set (cell 2 19) (map.read row3.2.2)).set (cell 2 18) (map.read row3.2.2)).set
      (cell 2 17) (map.read row3.2.2)
  -- 4th row
  let table4a :=
    ((table3b.set (cell 3 2) vc.TOGGLE_KEYBOARD).set (cell 3 1) vc.TOGGLE_KEYBOARD).set
      (cell 3 0) vc.TOGGLE_KEYBOARD
  let table4b :=
    ((table4a.set (cell 3 5) vc.CHANGE_KEYBOARD_MODE).set (cell 3 4)
      vc.CHANGE_KEYBOARD_MODE).set (cell 3 3) vc.CHANGE_KEYBOARD_MODE
  let mapPtr4 := 33
  let row4 := fillSame map 8 table4b (cell 3 6) mapPtr4
  let mapPtr4a := mapPtr4 + 4
  let table4c :=
    ((row4.1.set (cell 3 16) (map.read mapPtr4a)).set (cell 3 15) (map.read mapPtr4a)).set
      (cell 3 14) (map.read mapPtr4a)
  let mapPtr4b := mapPtr4a + 2
  let table4d :=
    ((table4c.set (cell 3 19) (map.read mapPtr4b)).set (cell 3 18) (map.read mapPtr4b)).set
      (cell 3 17) (map.read mapPtr4b)
  { kb with table := table4d }

/-- Modelled from the spec: the test `bound.overlaps(c)` of imagine's rectangle type, which
is not among the sources; the point lies within the keyboard bounds, borders included. -/
def WindowRect.overlaps (r : WindowRect) (cx cy : Int) : Bool :=
  decide (r.x ≤ cx ∧ cx ≤ r.x2 ∧ r.y ≤ cy ∧ cy ≤ r.y2)

/-- The function `VControllerKeyboard::getInput(c)` for the point `(cx, cy)`; `/` on `int`
is the division that rounds towards zero. -/
def VControllerKeyboard.getInput (kb : VControllerKeyboard) (cx cy : Int) : Int :=
  if !kb.bound.overlaps cx cy then -1
  else
    let relX := cx - kb.bound.x
    let relY := cy - kb.bound.y
    let row := min (relY.tdiv kb.keyYSize) 3
    let col := min (relX.tdiv kb.keyXSize) 19
    let idx := col + (row * VKEY_COLS)
    idx

/-- The function `VControllerKeyboard::translateInput(idx)`: the read `table[0][idx]`.
The result is `none` where `assumeExpr(idx < VKEY_COLS * KEY_ROWS)` fails and where the
read falls in front of the table. -/
def VControllerKeyboard.translateInput (kb : VControllerKeyboard) (idx : Int) : Option Nat :=
  if idx < VKEY_COLS * KEY_ROWS then
    (if 0 ≤ idx then some (kb.table.getD idx.toNat 0) else none)
  else none

/-- The read `table[y][x]` with `int` indices; `none` for a row outside 0..3 or a column
outside 0..19, where the read leaves the row of the table. -/
def VControllerKeyboard.tableRead (kb : VControllerKeyboard) (y x : Int) : Option Nat :=
  if 0 ≤ y ∧ y < KEY_ROWS ∧ 0 ≤ x ∧ x < VKEY_COLS then some (kb.tableAt y.toNat x.toNat)
  else none

/-- The function `VControllerKeyboard::currentKey(x, y)`. -/
def VControllerKeyboard.currentKey (kb : VControllerKeyboard) (x y : Int) : Option Nat :=
  kb.tableRead y x

/-- The first loop of `extendKeySelection`, with `n` rounds left:
`if(table[selected.y][selected.x - 1] == key) selected.x--; else break;`. -/
def VControllerKeyboard.extendLeft (kb : VControllerKeyboard) (y : Int) (key : Nat) :
    Nat → Int → Option Int
  | 0, x => some x
  | n + 1, x =>
    match kb.tableRead y (x - 1) with
    | none => none
    | some k => if k == key then VControllerKeyboard.extendLeft kb y key n (x - 1) else some x

/-- The second loop of `extendKeySelection`, with `n` rounds left:
`if(table[selected.y][selected.x2 + 1] == key) selected.x2++; else break;`. -/
def VControllerKeyboard.extendRight (kb : VControllerKeyboard) (y : Int) (key : Nat) :
    Nat → Int → Option Int
  | 0, x2 => some x2
  | n + 1, x2 =>
    match kb.tableRead y (x2 + 1) with
    | none => none
    | some k => if k == key then VControllerKeyboard.extendRight kb y key n (x2 + 1) else some x2

/-- The function `VControllerKeyboard::extendKeySelection(selected)`. The loop counts
`iotaCount(selected.x)` and `iotaCount((VKEY_COLS - 1) - selected.x2)` are fixed when
the loops start. The result is `none` when a read leaves the table. -/
def VControllerKeyboard.extendKeySelection (kb : VControllerKeyboard) (selected : WindowRect) :
    Option WindowRect :=
  match kb.currentKey selected.x selected.y with
  | none => none
  | some key =>
    match kb.extendLeft selected.y key selected.x.toNat selected.x with
    | none => none
    | some x =>
      match kb.extendRight selected.y key (((VKEY_COLS : Int) - 1) - selected.x2).toNat
          selected.x2 with
      | none => none
      | some x2 => some { selected with x := x, x2 := x2 }

/-- The function `VControllerKeyboard::selectKey(x, y)`, of two `unsigned`. -/
def VControllerKeyboard.selectKey (kb : VControllerKeyboard) (x y : Nat) : Option WindowRect :=
  if x ≥ VKEY_COLS ∨ y ≥ KEY_ROWS then some { x := -1, y := -1, x2 := -1, y2 := -1 }
  else kb.extendKeySelection { x := (x : Int), y := (y : Int), x2 := (x : Int), y2 := (y : Int) }

/-- Modelled from the spec: `IG::wrapMinMax(v, min, max)` of imagine's math utilities,
which is not among the sources; it wraps `v` into `min .. max - 1`. -/
def wrapMinMax (v min max : Int) : Int := min + (v - min) % (max - min)

/-- The function `VControllerKeyboard::selectKeyRel(x, y)`; `fuel` bounds the depth of its
recursion over blank keys. The result is `none` when the fuel runs out or a read leaves
the table. -/
def VControllerKeyboard.selectKeyRel (kb : VControllerKeyboard) :
    Nat → Int → Int → Option VControllerKeyboard
  | 0, _, _ => none
  | fuel + 1, x, y =>
    let sel0 := kb.selected
    let sel1 : WindowRect :=
      if x > 0 then
        let x2 := wrapMinMax (sel0.x2 + x) 0 (VKEY_COLS : Int)
        { sel0 with x2 := x2, x := x2 }
      else if x < 0 then
        let x1 := wrapMinMax (sel0.x + x) 0 (VKEY_COLS : Int)
        { sel0 with x := x1, x2 := x1 }
      else sel0
    let sel2 : WindowRect :=
      if y ≠ 0 then
        let y2 := wrapMinMax (sel1.y2 + y) 0 (KEY_ROWS : Int)
        { sel1 with y := y2, y2 := y2, x2 := sel1.x }
      else sel1
    match kb.extendKeySelection sel2 with
    | none => none
    | some sel3 =>
      let kb3 := { kb with selected := sel3 }
      match kb3.currentKey sel3.x sel3.y with
      | none => none
      | some key =>
        if key == 0 then
          -- skipping blank key index
          VControllerKeyboard.selectKeyRel kb3 fuel x y
        else some kb3

/-- The tests of `Input::KeyEvent` that `keyInput` makes. The event type belongs to
imagine, so the results of its tests are fields: `pushedConfirm` is
`e.pushed(Input::DefaultKey::CONFIRM)` and `pushedDirection` is
`e.pushed(Input::DefaultKey::DIRECTION)`. -/
structure KeyEvent where
  pushedConfirm : Bool
  pushedDirection : Bool
  isDefaultConfirmButton : Bool
  pushed : Bool
  repeated : Bool
  isDefaultLeftButton : Bool
  isDefaultRightButton : Bool
  isDefaultUpButton : Bool
  isDefaultDownButton : Bool
  deriving DecidableEq, Repr

/-- The calls `keyInput` makes on the controller `v` and its system:
`v.toggleKeyboard()`, `v.resetInput()` and `v.system().handleInputAction` with a key
code that is pushed or released. -/
inductive VControllerCall where
  | toggleKeyboard
  | resetInput
  | handleInputAction (key : Nat) (pushed : Bool)
  deriving DecidableEq, Repr

/-- The function `VControllerKeyboard::unselectKey`. -/
def VControllerKeyboard.unselectKey (kb : VControllerKeyboard) : VControllerKeyboard :=
  { kb with selected := { x := -1, y := -1, x2 := -1, y2 := -1 } }

/-- The function `VControllerKeyboard::setMode(sys, r, mode)`; `keyboardMap` is
`sys.vControllerKeyboardMap`. The call of `updateImg` changes the sprite only. -/
def VControllerKeyboard.setMode (vc : VController) (keyboardMap : VControllerKbMode → KbMap)
    (kb : VControllerKeyboard) (mode : VControllerKbMode) : VControllerKeyboard :=
  ({ kb with mode_ := mode } : VControllerKeyboard).applyMap vc (keyboardMap mode)

/-- The function `VControllerKeyboard::cycleMode(sys, r)`. -/
def VControllerKeyboard.cycleMode (vc : VController) (keyboardMap : VControllerKbMode → KbMap)
    (kb : VControllerKeyboard) : VControllerKeyboard :=
  kb.setMode vc keyboardMap
    (if kb.mode_ == VControllerKbMode.LAYOUT_1 then VControllerKbMode.LAYOUT_2
     else VControllerKbMode.LAYOUT_1)

/-- The function `VControllerKeyboard::keyInput(v, r, e)`: the keyboard afterwards, the
calls made on the controller, and the returned `bool`; `fuel` bounds the recursion of
`selectKeyRel`. The result is `none` when a read leaves the table or the fuel runs out. -/
def VControllerKeyboard.keyInput (vc : VController) (keyboardMap : VControllerKbMode → KbMap)
    (fuel : Nat) (kb : VControllerKeyboard) (e : KeyEvent) :
    Option (VControllerKeyboard × List VControllerCall × Bool) :=
  if kb.selected.x = -1 then
    if e.pushedConfirm || e.pushedDirection then
      match kb.selectKey 0 3 with
      | none => none
      | some sel => some ({ kb with selected := sel }, [], true)
    else some (kb, [], false)
  else if e.isDefaultConfirmButton then
    match kb.currentKey kb.selected.x kb.selected.y with
    | none => none
    | some key =>
      if key = vc.TOGGLE_KEYBOARD then
        if !e.pushed || e.repeated then some (kb, [], false)
        else some (kb.unselectKey, [VControllerCall.toggleKeyboard], true)
      else if key = vc.CHANGE_KEYBOARD_MODE then
        if !e.pushed || e.repeated then some (kb, [], false)
        else some (kb.cycleMode vc keyboardMap, [VControllerCall.resetInput], true)
      else if e.pushed then some (kb, [VControllerCall.handleInputAction key true], true)
      else some (kb, [VControllerCall.handleInputAction key false], true)
  else if !e.pushed then some (kb, [], false)
  else if e.isDefaultLeftButton then
    (kb.selectKeyRel fuel (-1) 0).map fun kb2 => (kb2, [], true)
  else if e.isDefaultRightButton then
    (kb.selectKeyRel fuel 1 0).map fun kb2 => (kb2, [], true)
  else if e.isDefaultUpButton then
    (kb.selectKeyRel fuel 0 (-1)).map fun kb2 => (kb2, [], true)
  else if e.isDefaultDownButton then
    (kb.selectKeyRel fuel 0 1).map fun kb2 => (kb2, [], true)
  else some (kb, [], false)

/-- A blank key starts at column `c` of row `y`: the cell holds 0 and is the first of its
row or follows a cell that does not hold 0. Used only to state properties of the table. -/
def VControllerKeyboard.blankEdge (kb : VControllerKeyboard) (y c : Int) : Prop :=
  kb.tableRead y c = some 0 ∧ (c = 0 ∨ ∃ k, kb.tableRead y (c - 1) = some k ∧ k ≠ 0)

/-- The layout of the key table in the claims' words, cell by cell along the four rows
(cell `i` is column `i % 20` of row `i / 20`). Used only to state what `applyMap`
builds; `applyMap` is the code. -/
def specKeyLayout (vc : VController) (mode : VControllerKbMode) (map : KbMap) (i : Nat) : Nat :=
  if i < 20 then map.read (i / 2)
  else if i < 40 then
    (match mode with
      | VControllerKbMode.LAYOUT_1 =>
        if i = 20 ∨ i = 39 then 0 else map.read (10 + (i - 21) / 2)
      | VControllerKbMode.LAYOUT_2 => map.read (10 + (i - 20) / 2))
  else if i < 43 then map.read 20
  else if i < 57 then map.read (21 + (i - 43) / 2)
  else if i < 60 then map.read 28
  else if i < 63 then vc.TOGGLE_KEYBOARD
  else if i < 66 then vc.CHANGE_KEYBOARD_MODE
  else if i < 74 then map.read 33
  else if i < 77 then map.read 37
  else map.read 39

end EmuEx

/-! ## 2600.emu: input translation -/

namespace A2600

/-- The key codes of the anonymous enum of `input.cc`, counted from
`Controls::systemKeyMapStart`. That constant is declared in `EmuInput.hh`, which is not
among the sources, so it is the parameter `start` of every code. -/
def vcsKeyIdxUp (start : Nat) : Nat := start
def vcsKeyIdxRight (start : Nat) : Nat := vcsKeyIdxUp start + 1
def vcsKeyIdxDown (start : Nat) : Nat := vcsKeyIdxRight start + 1
def vcsKeyIdxLeft (start : Nat) : Nat := vcsKeyIdxDown start + 1
def vcsKeyIdxLeftUp (start : Nat) : Nat := vcsKeyIdxLeft start + 1
def vcsKeyIdxRightUp (start : Nat) : Nat := vcsKeyIdxLeftUp start + 1
def vcsKeyIdxRightDown (start : Nat) : Nat := vcsKeyIdxRightUp start + 1
def vcsKeyIdxLeftDown (start : Nat) : Nat := vcsKeyIdxRightDown start + 1
def vcsKeyIdxJSBtn (start : Nat) : Nat := vcsKeyIdxLeftDown start + 1
def vcsKeyIdxJSBtnTurbo (start : Nat) : Nat := vcsKeyIdxJSBtn start + 1
def vcsKeyIdxJSBtnAlt (start : Nat) : Nat := vcsKeyIdxJSBtnTurbo start + 1
def vcsKeyIdxJSBtnAltTurbo (start : Nat) : Nat := vcsKeyIdxJSBtnAlt start + 1
def vcsKeyIdxUp2 (start : Nat) : Nat := vcsKeyIdxJSBtnAltTurbo start + 1
def vcsKeyIdxRight2 (start : Nat) : Nat := vcsKeyIdxUp2 start + 1
def vcsKeyIdxDown2 (start : Nat) : Nat := vcsKeyIdxRight2 start + 1
def vcsKeyIdxLeft2 (start : Nat) : Nat := vcsKeyIdxDown2 start + 1
def vcsKeyIdxLeftUp2 (start : Nat) : Nat := vcsKeyIdxLeft2 start + 1
def vcsKeyIdxRightUp2 (start : Nat) : Nat := vcsKeyIdxLeftUp2 start + 1
def vcsKeyIdxRightDown2 (start : Nat) : Nat := vcsKeyIdxRightUp2 start + 1
def vcsKeyIdxLeftDown2 (start : Nat) : Nat := vcsKeyIdxRightDown2 start + 1
def vcsKeyIdxJSBtn2 (start : Nat) : Nat := vcsKeyIdxLeftDown2 start + 1
def vcsKeyIdxJSBtnTurbo2 (start : Nat) : Nat := vcsKeyIdxJSBtn2 start + 1
def vcsKeyIdxJSBtnAlt2 (start : Nat) : Nat := vcsKeyIdxJSBtnTurbo2 start + 1
def vcsKeyIdxJSBtnAltTurbo2 (start : Nat) : Nat := vcsKeyIdxJSBtnAlt2 start + 1
def vcsKeyIdxSelect (start : Nat) : Nat := vcsKeyIdxJSBtnAltTurbo2 start + 1
def vcsKeyIdxReset (start : Nat) : Nat := vcsKeyIdxSelect start + 1
def vcsKeyIdxP1Diff (start : Nat) : Nat := vcsKeyIdxReset start + 1
def vcsKeyIdxP2Diff (start : Nat) : Nat := vcsKeyIdxP1Diff start + 1
def vcsKeyIdxColorBW (start : Nat) : Nat := vcsKeyIdxP2Diff start + 1
def vcsKeyIdxKeyboard1Base (start : Nat) : Nat := vcsKeyIdxColorBW start + 1
def vcsKeyIdxKeyboard2Base (start : Nat) : Nat := vcsKeyIdxKeyboard1Base start + 12

/-- The values of Stella's `Event::Type` that `input.cc` names. The enumeration belongs
to the emulator core, so its values are parameters. -/
structure Event where
  LeftJoystickUp : Nat
  LeftJoystickDown : Nat
  LeftJoystickLeft : Nat
  LeftJoystickRight : Nat
  LeftJoystickFire : Nat
  LeftJoystickFire5 : Nat
  RightJoystickUp : Nat
  RightJoystickDown : Nat
  RightJoystickLeft : Nat
  RightJoystickRight : Nat
  RightJoystickFire : Nat
  RightJoystickFire5 : Nat
  LeftPaddleAFire : Nat
  LeftPaddleBFire : Nat
  LeftPaddleAIncrease : Nat
  LeftPaddleBIncrease : Nat
  LeftPaddleADecrease : Nat
  LeftPaddleBDecrease : Nat
  ConsoleSelect : Nat
  ConsoleReset : Nat
  ConsoleLeftDiffA : Nat
  ConsoleLeftDiffB : Nat
  ConsoleRightDiffA : Nat
  ConsoleRightDiffB : Nat
  ConsoleColor : Nat
  ConsoleBlackWhite : Nat
  Combo1 : Nat
  Combo2 : Nat
  Combo3 : Nat
  LeftKeyboard1 : Nat
  RightKeyboard1 : Nat
  RightKeyboardPound : Nat

/-- The states of a key, `Input::Action`. -/
inductive Action where
  | UNUSED | RELEASED | PUSHED | MOVED | MOVED_RELATIVE | EXIT_VIEW | ENTER_VIEW
  | SCROLL_UP | SCROLL_DOWN | CANCELED
  deriving DecidableEq, Repr

/-- An `InputAction`: the key code (an `unsigned`), the key state and the turbo flag of
its meta state. -/
structure InputAction where
  key : Nat
  state : Action
  turbo : Bool
  deriving DecidableEq, Repr

/-- The setter `InputAction::setTurboFlag`. -/
def InputAction.setTurboFlag (a : InputAction) (val : Bool) : InputAction :=
  { a with turbo := val }

/-- The members of `A2600System` that the input code reads and writes: the three pairs of
joystick event maps, the three console switches and the event values of the core's event
handler. -/
structure A2600System where
  jsFireMap : Nat × Nat
  jsLeftMap : Nat × Nat
  jsRightMap : Nat × Nat
  p1DiffB : Bool
  p2DiffB : Bool
  vcsColor : Bool
  ev : Nat → Int

/-- The conversion of a value to `unsigned`. -/
def toUnsigned (n : Nat) : Nat := n % 2 ^ 32

/-- The function `isJoystickButton(input)`. -/
def isJoystickButton (start : Nat) (input : Nat) : Bool :=
  if input = vcsKeyIdxJSBtnTurbo start then true
  else if input = vcsKeyIdxJSBtn start then true
  else if input = vcsKeyIdxJSBtnAltTurbo start then true
  else if input = vcsKeyIdxJSBtnAlt start then true
  else if input = vcsKeyIdxJSBtnTurbo2 start then true
  else if input = vcsKeyIdxJSBtn2 start then true
  else if input = vcsKeyIdxJSBtnAltTurbo2 start then true
  else if input = vcsKeyIdxJSBtnAlt2 start then true
  else false

/-- The lambda of `translateInputAction` that computes the new key code by a `switch`
on the key `k`: the value it returns as an `unsigned`, paired with whether it has called
`action.setTurboFlag(true)` on the way (a turbo case sets the flag and falls through to
the case of its button). The result is `none` where the lambda runs into
`bug_unreachable("invalid key")`. -/
def A2600System.translateKey (E : Event) (start : Nat) (sys : A2600System) (k : Nat) :
    Option (Nat × Bool) :=
  if k = vcsKeyIdxUp start then some (toUnsigned E.LeftJoystickUp, false)
  else if k = vcsKeyIdxRight start then some (toUnsigned sys.jsRightMap.1, false)
  else if k = vcsKeyIdxDown start then some (toUnsigned E.LeftJoystickDown, false)
  else if k = vcsKeyIdxLeft start then some (toUnsigned sys.jsLeftMap.1, false)
  else if k = vcsKeyIdxLeftUp start then
    some (toUnsigned (E.LeftJoystickLeft ||| (E.LeftJoystickUp <<< 8)), false)
  else if k = vcsKeyIdxRightUp start then
    some (toUnsigned (E.LeftJoystickRight ||| (E.LeftJoystickUp <<< 8)), false)
  else if k = vcsKeyIdxRightDown start then
    some (toUnsigned (E.LeftJoystickRight ||| (E.LeftJoystickDown <<< 8)), false)
  else if k = vcsKeyIdxLeftDown start then
    some (toUnsigned (E.LeftJoystickLeft ||| (E.LeftJoystickDown <<< 8)), false)
  else if k = vcsKeyIdxJSBtnTurbo start then some (toUnsigned sys.jsFireMap.1, true)
  else if k = vcsKeyIdxJSBtn start then some (toUnsigned sys.jsFireMap.1, false)
  else if k = vcsKeyIdxJSBtnAltTurbo start then some (toUnsigned E.LeftJoystickFire5, true)
  else if k = vcsKeyIdxJSBtnAlt start then some (toUnsigned E.LeftJoystickFire5, false)
  else if k = vcsKeyIdxUp2 start then some (toUnsigned E.RightJoystickUp, false)
  else if k = vcsKeyIdxRight2 start then some (toUnsigned sys.jsRightMap.2, false)
  else if k = vcsKeyIdxDown2 start then some (toUnsigned E.RightJoystickDown, false)
  else if k = vcsKeyIdxLeft2 start then some (toUnsigned sys.jsLeftMap.2, false)
  else if k = vcsKeyIdxLeftUp2 start then
    some (toUnsigned (E.RightJoystickLeft ||| (E.RightJoystickUp <<< 8)), false)
  else if k = vcsKeyIdxRightUp2 start then
    some (toUnsigned (E.RightJoystickRight ||| (E.RightJoystickUp <<< 8)), false)
  else if k = vcsKeyIdxRightDown2 start then
    some (toUnsigned (E.RightJoystickRight ||| (E.RightJoystickDown <<< 8)), false)
  else if k = vcsKeyIdxLeftDown2 start then
    some (toUnsigned (E.RightJoystickLeft ||| (E.RightJoystickDown <<< 8)), false)
  else if k = vcsKeyIdxJSBtnTurbo2 start then some (toUnsigned sys.jsFireMap.2, true)
  else if k = vcsKeyIdxJSBtn2 start then some (toUnsigned sys.jsFireMap.2, false)
  else if k = vcsKeyIdxJSBtnAltTurbo2 start then some (toUnsigned E.RightJoystickFire5, true)
  else if k = vcsKeyIdxJSBtnAlt2 start then some (toUnsigned E.RightJoystickFire5, false)
  else if k = vcsKeyIdxSelect start then some (toUnsigned E.ConsoleSelect, false)
  else if k = vcsKeyIdxP1Diff start then some (toUnsigned E.Combo1, false)
  else if k = vcsKeyIdxP2Diff start then some (toUnsigned E.Combo2, false)
  else if k = vcsKeyIdxColorBW start then some (toUnsigned E.Combo3, false)
  else if k = vcsKeyIdxReset start then some (toUnsigned E.ConsoleReset, false)
  else if vcsKeyIdxKeyboard1Base start ≤ k ∧ k ≤ vcsKeyIdxKeyboard1Base start + 11 then
    some (toUnsigned (E.LeftKeyboard1 + (k - vcsKeyIdxKeyboard1Base start)), false)
  else if vcsKeyIdxKeyboard2Base start ≤ k ∧ k ≤ vcsKeyIdxKeyboard2Base start + 11 then
    some (toUnsigned (E.RightKeyboard1 + (k - vcsKeyIdxKeyboard2Base start)), false)
  else none

/-- The function `A2600System::translateInputAction(action)`: the turbo flag is cleared
unless the key is a joystick button, then the key is replaced by what the lambda
computes; `none` where the lambda runs into `bug_unreachable("invalid key")`. -/
def A2600System.translateInputAction (E : Event) (start : Nat) (sys : A2600System)
    (action : InputAction) : Option InputAction :=
  let action1 := if !isJoystickButton start action.key then action.setTurboFlag false else action
  match sys.translateKey E start action1.key with
  | none => none
  | some (key, turboSet) =>
    let action2 := if turboSet then action1.setTurboFlag true else action1
    some { action2 with key := key }

/-- The types of a controller, `Controller::Type`, as far as `input.cc` names them; the
remaining values of the core's enumeration are `other n`. -/
inductive ControllerType where
  | Unknown | Joystick | Paddles | Genesis | Keyboard
  | other (n : Nat)
  deriving DecidableEq, Repr

/-- The call `ev.set(type, value)` on the event values. -/
def eventSet (ev : Nat → Int) (type : Nat) (value : Int) : Nat → Int :=
  fun t => if t = type then value else ev t

/-- The conversion of a `bool` to the `Int32` value of an event. -/
def boolValue (b : Bool) : Int := if b then 1 else 0

/-- The function `A2600System::clearInputBuffers`: `ev.clear()` zeroes every event, then
the six console switch events are set from the three switches. -/
def A2600System.clearInputBuffers (E : Event) (sys : A2600System) : A2600System :=
  let ev0 : Nat → Int := fun _ => 0
  let ev1 := eventSet ev0 E.ConsoleLeftDiffB (boolValue sys.p1DiffB)
  let ev2 := eventSet ev1 E.ConsoleLeftDiffA (boolValue (!sys.p1DiffB))
  let ev3 := eventSet ev2 E.ConsoleRightDiffB (boolValue sys.p2DiffB)
  let ev4 := eventSet ev3 E.ConsoleRightDiffA (boolValue (!sys.p2DiffB))
  let ev5 := eventSet ev4 E.ConsoleColor (boolValue sys.vcsColor)
  let ev6 := eventSet ev5 E.ConsoleBlackWhite (boolValue (!sys.vcsColor))
  { sys with ev := ev6 }

/-- The function `A2600System::updateJoytickMapping(app, type)`. -/
def A2600System.updateJoytickMapping (E : Event) (sys : A2600System) (type : ControllerType) :
    A2600System :=
  if type = ControllerType.Paddles then
    { sys with
      jsFireMap := (E.LeftPaddleAFire, E.LeftPaddleBFire)
      jsLeftMap := (E.LeftPaddleAIncrease, E.LeftPaddleBIncrease)
      jsRightMap := (E.LeftPaddleADecrease, E.LeftPaddleBDecrease) }
  else
    { sys with
      jsFireMap := (E.LeftJoystickFire, E.RightJoystickFire)
      jsLeftMap := (E.LeftJoystickLeft, E.RightJoystickLeft)
      jsRightMap := (E.LeftJoystickRight, E.RightJoystickRight) }

/-- The function `A2600System::handleInputAction(app, a)`, without the messages it posts
to the application. The cases of the `switch` on `event1` are tried in the order they are
written. -/
def A2600System.handleInputAction (E : Event) (sys : A2600System) (a : InputAction) :
    A2600System :=
  let event1 := a.key &&& 0xFF
  let isPushed := a.state == Action.PUSHED
  if event1 = E.Combo1 then
    if !isPushed then sys
    else
      let p1DiffB := xor sys.p1DiffB true
      { sys with
        p1DiffB := p1DiffB
        ev := eventSet (eventSet sys.ev E.ConsoleLeftDiffB (boolValue p1DiffB))
          E.ConsoleLeftDiffA (boolValue (!p1DiffB)) }
  else if event1 = E.Combo2 then
    if !isPushed then sys
    else
      let p2DiffB := xor sys.p2DiffB true
      { sys with
        p2DiffB := p2DiffB
        ev := eventSet (eventSet sys.ev E.ConsoleRightDiffB (boolValue p2DiffB))
          E.ConsoleRightDiffA (boolValue (!p2DiffB)) }
  else if event1 = E.Combo3 then
    if !isPushed then sys
    else
      let vcsColor := xor sys.vcsColor true
      { sys with
        vcsColor := vcsColor
        ev := eventSet (eventSet sys.ev E.ConsoleColor (boolValue vcsColor))
          E.ConsoleBlackWhite (boolValue (!vcsColor)) }
  else if E.LeftKeyboard1 ≤ event1 ∧ event1 ≤ E.RightKeyboardPound then
    { sys with ev := eventSet sys.ev event1 (boolValue isPushed) }
  else
    let ev1 := eventSet sys.ev event1 (boolValue isPushed)
    let event2 := a.key >>> 8
    -- extra event for diagonals
    if event2 ≠ 0 then { sys with ev := eventSet ev1 event2 (boolValue isPushed) }
    else { sys with ev := ev1 }

/-- The four turbo keys, each with its non-turbo button. -/
def turboKeys (start : Nat) : List (Nat × Nat) :=
  [(vcsKeyIdxJSBtnTurbo start, vcsKeyIdxJSBtn start),
   (vcsKeyIdxJSBtnAltTurbo start, vcsKeyIdxJSBtnAlt start),
   (vcsKeyIdxJSBtnTurbo2 start, vcsKeyIdxJSBtn2 start),
   (vcsKeyIdxJSBtnAltTurbo2 start, vcsKeyIdxJSBtnAlt2 start)]

/-- The eight diagonal keys, each with the horizontal and the vertical joystick event
that `translateInputAction` packs for it. -/
def diagonalKeys (E : Event) (start : Nat) : List (Nat × Nat × Nat) :=
  [(vcsKeyIdxLeftUp start, E.LeftJoystickLeft, E.LeftJoystickUp),
   (vcsKeyIdxRightUp start, E.LeftJoystickRight, E.LeftJoystickUp),
   (vcsKeyIdxRightDown start, E.LeftJoystickRight, E.LeftJoystickDown),
   (vcsKeyIdxLeftDown start, E.LeftJoystickLeft, E.LeftJoystickDown),
   (vcsKeyIdxLeftUp2 start, E.RightJoystickLeft, E.RightJoystickUp),
   (vcsKeyIdxRightUp2 start, E.RightJoystickRight, E.RightJoystickUp),
   (vcsKeyIdxRightDown2 start, E.RightJoystickRight, E.RightJoystickDown),
   (vcsKeyIdxLeftDown2 start, E.RightJoystickLeft, E.RightJoystickDown)]

/-- The joystick keys that are not diagonals, each with the one event
`translateInputAction` gives it. -/
def plainJoystickKeys (E : Event) (start : Nat) (sys : A2600System) : List (Nat × Nat) :=
  [(vcsKeyIdxUp start, E.LeftJoystickUp),
   (vcsKeyIdxRight start, sys.jsRightMap.1),
   (vcsKeyIdxDown start, E.LeftJoystickDown),
   (vcsKeyIdxLeft start, sys.jsLeftMap.1),
   (vcsKeyIdxJSBtn start, sys.jsFireMap.1),
   (vcsKeyIdxJSBtnTurbo start, sys.jsFireMap.1),
   (vcsKeyIdxJSBtnAlt start, E.LeftJoystickFire5),
   (vcsKeyIdxJSBtnAltTurbo start, E.LeftJoystickFire5),
   (vcsKeyIdxUp2 start, E.RightJoystickUp),
   (vcsKeyIdxRight2 start, sys.jsRightMap.2),
   (vcsKeyIdxDown2 start, E.RightJoystickDown),
   (vcsKeyIdxLeft2 start, sys.jsLeftMap.2),
   (vcsKeyIdxJSBtn2 start, sys.jsFireMap.2),
   (vcsKeyIdxJSBtnTurbo2 start, sys.jsFireMap.2),
   (vcsKeyIdxJSBtnAlt2 start, E.RightJoystickFire5),
   (vcsKeyIdxJSBtnAltTurbo2 start, E.RightJoystickFire5)]

/-- The six console switch events that `clearInputBuffers` sets. -/
def Event.switchEvents (E : Event) : List Nat :=
  [E.ConsoleLeftDiffB, E.ConsoleLeftDiffA, E.ConsoleRightDiffB, E.ConsoleRightDiffA,
   E.ConsoleColor, E.ConsoleBlackWhite]

/-- The event codes that the `switch` of `translateInputAction` names or reads from the
joystick maps of the system, the keyboard codes apart. -/
def translatedCodes (E : Event) (sys : A2600System) : List Nat :=
  [E.LeftJoystickUp, E.LeftJoystickDown, E.LeftJoystickLeft, E.LeftJoystickRight,
   E.LeftJoystickFire5, E.RightJoystickUp, E.RightJoystickDown, E.RightJoystickLeft,
   E.RightJoystickRight, E.RightJoystickFire5, E.ConsoleSelect, E.ConsoleReset,
   E.Combo1, E.Combo2, E.Combo3,
   sys.jsFireMap.1, sys.jsFireMap.2, sys.jsLeftMap.1, sys.jsLeftMap.2,
   sys.jsRightMap.1, sys.jsRightMap.2]

/-- What the input code takes for granted of the event enumeration, here a parameter:
the six console switch events are six different codes, and every code that
`translateInputAction` can return (the codes of `translatedCodes` and the twelve
keyboard codes from `LeftKeyboard1` and from `RightKeyboard1` on) is below 256 and is
no console switch event. -/
def Event.SwitchesApart (E : Event) (sys : A2600System) : Prop :=
  E.switchEvents.Nodup ∧
  (∀ c ∈ translatedCodes E sys, c < 256 ∧ c ∉ E.switchEvents) ∧
  (∀ i, i < 12 →
    (E.LeftKeyboard1 + i < 256 ∧ E.LeftKeyboard1 + i ∉ E.switchEvents) ∧
    (E.RightKeyboard1 + i < 256 ∧ E.RightKeyboard1 + i ∉ E.switchEvents))

instance (E : Event) (sys : A2600System) : Decidable (E.SwitchesApart sys) := by
  unfold Event.SwitchesApart
  infer_instance

/-- The console switch events are in step with the switches: each switch's `B` (or
colour) event holds the switch and its `A` (or black-and-white) event the negation. -/
def A2600System.switchesInStep (E : Event) (sys : A2600System) : Prop :=
  sys.ev E.ConsoleLeftDiffB = boolValue sys.p1DiffB ∧
  sys.ev E.ConsoleLeftDiffA = boolValue (!sys.p1DiffB) ∧
  sys.ev E.ConsoleRightDiffB = boolValue sys.p2DiffB ∧
  sys.ev E.ConsoleRightDiffA = boolValue (!sys.p2DiffB) ∧
  sys.ev E.ConsoleColor = boolValue sys.vcsColor ∧
  sys.ev E.ConsoleBlackWhite = boolValue (!sys.vcsColor)

/-- One input action on its way through the system: `translateInputAction`, then
`handleInputAction` on the translated action. An invalid key does not get past
`translateInputAction` (`bug_unreachable`) and leaves the system as it is. -/
def A2600System.inputAction (E : Event) (start : Nat) (sys : A2600System) (a : InputAction) :
    A2600System :=
  match sys.translateInputAction E start a with
  | some r => sys.handleInputAction E r
  | none => sys

/-- A sequence of input actions, handled one after the other. -/
def A2600System.inputActions (E : Event) (start : Nat) (sys : A2600System)
    (actions : List InputAction) : A2600System :=
  actions.foldl (fun s a => s.inputAction E start a) sys

/-- An event code that takes the `default` branch of the `switch` of
`handleInputAction` as its own low byte: non-zero, below 256, none of the three combo
events and outside the keyboard range. -/
def Event.isPlain (E : Event) (e : Nat) : Bool :=
  decide (e ≠ 0 ∧ e < 256 ∧ e ≠ E.Combo1 ∧ e ≠ E.Combo2 ∧ e ≠ E.Combo3 ∧
    ¬ (E.LeftKeyboard1 ≤ e ∧ e ≤ E.RightKeyboardPound))

end A2600

/-! ## EmuFramework: EmuVideoLayer -/

namespace EmuEx

/-- A `float` as far as `EmuVideoLayer::place` needs one: the quotient of two `int`,
taken exactly (the rounding of `float` is left out), with the results a division by
zero has. -/
inductive FloatValue where
  | nan
  | negInf
  | finite (q : ℚ)
  | posInf

/-- The quotient `float(a) / float(b)` of two `int`. -/
def floatDiv (a b : Int) : FloatValue :=
  if b = 0 then
    (if a > 0 then FloatValue.posInf else if a < 0 then FloatValue.negInf else FloatValue.nan)
  else FloatValue.finite ((a : ℚ) / (b : ℚ))

/-- The comparison `a > b` of two `float`; it is false when one of them is a NaN. -/
def FloatValue.gt : FloatValue → FloatValue → Bool
  | FloatValue.finite p, FloatValue.finite q => decide (p > q)
  | FloatValue.posInf, FloatValue.finite _ => true
  | FloatValue.posInf, FloatValue.negInf => true
  | FloatValue.finite _, FloatValue.negInf => true
  | _, _ => false

/-- The comparison `a >= c` of a `float` with a constant. -/
def FloatValue.geConst : FloatValue → ℚ → Bool
  | FloatValue.finite p, c => decide (p ≥ c)
  | FloatValue.posInf, _ => true
  | _, _ => false

/-- The comparison `a < c` of a `float` with a constant. -/
def FloatValue.ltConst : FloatValue → ℚ → Bool
  | FloatValue.finite p, c => decide (p < c)
  | FloatValue.negInf, _ => true
  | _, _ => false

/-- A pair of `int`, imagine's `WP`. -/
structure WP where
  x : Int
  y : Int
  deriving DecidableEq, Repr

/-- The two zoom values of `EmuOptions.hh` that select integer-only scaling; the header
is not among the sources, so they are parameters. -/
structure ImageZoomOptions where
  optionImageZoomIntegerOnly : Nat
  optionImageZoomIntegerOnlyY : Nat

/-- What `place` asks of the system: `hasContent()` and `multiresVideoBaseSize()`. -/
structure EmuSystem where
  hasContent : Bool
  multiresVideoBaseSize : WP

/-- The members of `EmuVideoLayer` that the pixel part of `place` uses: the zoom option,
whether the rotation is sideways (`isSideways(rotation)`), the size of the video
(`video.size()`) and the pixel rectangle `gameRect_`. -/
structure EmuVideoLayer where
  zoom_ : Nat
  sideways : Bool
  videoSize : WP
  gameRect_ : WindowRect

/-- The content size `place` works with: `video.size()`, with the two sizes swapped when
the rotation is sideways. -/
def EmuVideoLayer.contentSize (layer : EmuVideoLayer) : WP :=
  if layer.sideways then { x := layer.videoSize.y, y := layer.videoSize.x }
  else layer.videoSize

/-- The part of `EmuVideoLayer::place` that computes the video rectangle in pixel
coordinates, up to the call of `gameRect_.setPos`, which moves the rectangle and keeps
its size; `displayXSize` and `displayYSize` are `displayRect.xSize()` and
`displayRect.ySize()`. The `/` on `int` rounds towards zero; the result is `none` where
it divides by zero. -/
def EmuVideoLayer.placePixelRect (opt : ImageZoomOptions) (layer : EmuVideoLayer)
    (displayXSize displayYSize : Int) (sys : EmuSystem) : Option EmuVideoLayer :=
  if sys.hasContent then
    let viewportAspect := floatDiv displayXSize displayYSize
    let zoom := layer.zoom_
    let contentSize := layer.contentSize
    -- compute the video rectangle in pixel coordinates
    if (zoom == opt.optionImageZoomIntegerOnly || zoom == opt.optionImageZoomIntegerOnlyY)
        && contentSize.x != 0 then
      let gameX0 := contentSize.x
      let gameY0 := contentSize.y
      -- halve pixel sizes if image has mixed low/high-res content
      let multiresVideoBaseSize := sys.multiresVideoBaseSize
      let gameX1 :=
        if multiresVideoBaseSize.x != 0 && decide (gameX0 > multiresVideoBaseSize.x)
        then gameX0.tdiv 2 else gameX0
      let gameY1 :=
        if multiresVideoBaseSize.y != 0 && decide (gameY0 > multiresVideoBaseSize.y)
        then gameY0.tdiv 2 else gameY0
      let gameAR1 := floatDiv gameX1 gameY1
      -- avoid overly wide images or tall images
      let adjusted : Int × Int × FloatValue :=
        if gameAR1.geConst 2 then (gameX1, gameY1 * 2, floatDiv gameX1 (gameY1 * 2))
        else if gameAR1.ltConst (4 / 5) then (gameX1 * 2, gameY1, floatDiv (gameX1 * 2) gameY1)
        else (gameX1, gameY1, gameAR1)
      let gameX := adjusted.1
      let gameY := adjusted.2.1
      let gameAR := adjusted.2.2
      let scaleFactor : Option Int :=
        if gameAR.gt viewportAspect then
          (if gameX = 0 then none else some (max 1 (displayXSize.tdiv gameX)))
        else
          (if gameY = 0 then none else some (max 1 (displayYSize.tdiv gameY)))
      match scaleFactor with
      | none => none
      | some k =>
        some { layer with
          gameRect_ := { x := 0, y := 0, x2 := gameX * k, y2 := gameY * k } }
    else some layer
  else some layer

/-- The claim's words for the adjusted content size: the content width and height, each
halved when it exceeds a non-zero multires base size, then with the height doubled when
`gameX / gameY >= 2` or the width doubled when `gameX / gameY < 0.8`. Used only to state
what `place` computes. -/
def specGameSize (content base : WP) : Int × Int :=
  let gameX := if base.x ≠ 0 ∧ content.x > base.x then content.x / 2 else content.x
  let gameY := if base.y ≠ 0 ∧ content.y > base.y then content.y / 2 else content.y
  if (gameX : ℚ) / (gameY : ℚ) ≥ 2 then (gameX, gameY * 2)
  else if (gameX : ℚ) / (gameY : ℚ) < 4 / 5 then (gameX * 2, gameY)
  else (gameX, gameY)

end EmuEx

/-! ## Swan.emu: the user name input -/

namespace Swan

/-- The part of `WsSystem` the name handler uses: the stored user name and its capacity,
`userName.max_size()`. -/
structure WsSystem where
  userName : String
  userNameMaxSize : Nat
  deriving DecidableEq, Repr

/-- The state `CustomSystemOptionView` lets the name handler reach: the system, the
second text of the menu item `name`, and the message last posted with
`app.postErrorMessage`, if any. -/
structure CustomSystemOptionView where
  system : WsSystem
  nameSecond : String
  errorMessage : Option String
  deriving DecidableEq, Repr

/-- The handler that the menu item `name` gives the input view, called with the entered
string; the result pairs the new state with the returned `bool`. -/
def CustomSystemOptionView.onNameInput (v : CustomSystemOptionView) (str : String) :
    CustomSystemOptionView × Bool :=
  if str.length > v.system.userNameMaxSize then
    ({ v with errorMessage := some "Name is too long" }, false)
  else
    ({ v with system := { v.system with userName := str }, nameSecond := str }, true)

end Swan

/-! ## Concrete inputs -/

namespace IG

/-- A picker in mode `FILE` with hidden files off, no user filter, an empty list and an
idle worker. -/
def demoPicker : FSPicker :=
  { mode_ := Mode.FILE, showHiddenFiles_ := false, filter := none, dir := [],
    rootPath := "/r", rootInfo := { name := "", length := 0 }, msgText := "",
    highlightFirstDirEntry := false,
    dirListThread := { working := false, stopRequested := false, path := "" },
    dirListEvent := { callback := DirListCallback.unset, pending := false },
    tableName := "", itemsShown := false }

/-- A directory with two sub-directories, two plain files and a hidden file. -/
def demoDir : DirStream :=
  { entries :=
      [{ path := "/r/b.txt", name := "b.txt", type := FS.file_type.regular },
       { path := "/r/.h", name := ".h", type := FS.file_type.regular },
       { path := "/r/Zed", name := "Zed", type := FS.file_type.directory },
       { path := "/r/A.txt", name := "A.txt", type := FS.file_type.regular },
       { path := "/r/abc", name := "abc", type := FS.file_type.directory }],
    fails := false }

/-- A picker whose worker is busy listing `/r`, with one entry listed so far. -/
def busyPicker : FSPicker :=
  { demoPicker with
    dir := [{ path := "/r/abc", name := "abc", dirFlag := true, onSelect := OnSelect.unset }]
    dirListThread := { working := true, stopRequested := false, path := "/r" }
    dirListEvent := { callback := DirListCallback.showList, pending := false } }

/-- An application context without URIs. -/
def demoContext : ApplicationContext :=
  { isUri := fun _ => false, fileUriDisplayName := fun s => s, decodeUri := fun s => s }

/-- A file system in which every path holds the entries of `demoDir`. -/
def demoFileSystem : String → DirStream := fun _ => demoDir

/-- The stop flag of a listing that is never asked to stop. -/
def neverStop : Nat → Bool := fun _ => false

end IG

namespace EmuEx

/-- Sample values for the two special key codes. -/
def demoVController : VController :=
  { TOGGLE_KEYBOARD := 65536, CHANGE_KEYBOARD_MODE := 65537 }

/-- A key map whose entry `i` is `100 + i`. -/
def demoMap : KbMap := fun i => 100 + i.val

/-- A key map that differs from `demoMap` in the entries 29 to 32, 34 to 36 and 38. -/
def demoMapAlt : KbMap := fun i =>
  if (29 ≤ i.val ∧ i.val ≤ 32) ∨ (34 ≤ i.val ∧ i.val ≤ 36) ∨ i.val = 38
  then 7 else 100 + i.val

/-- A key map whose entries 13 to 39 are blank. -/
def sparseMap : KbMap := fun i => if i.val < 13 then 100 + i.val else 0

/-- A keyboard in the given mode with a table of leftovers and nothing selected. -/
def demoKeyboard (mode : VControllerKbMode) : VControllerKeyboard :=
  { table := List.replicate 80 9, mode_ := mode,
    selected := { x := -1, y := -1, x2 := -1, y2 := -1 },
    shiftRect := { x := -1, y := -1, x2 := -1, y2 := -1 },
    bound := { x := 0, y := 0, x2 := 200, y2 := 40 },
    keyXSize := 10, keyYSize := 10 }

/-- A keyboard whose first row starts with the keys 1, 2, 1, each two columns wide. -/
def mixedKeyboard : VControllerKeyboard :=
  { demoKeyboard VControllerKbMode.LAYOUT_2 with
    table := [1, 1, 2, 2, 1, 1] ++ List.replicate 74 0 }

end EmuEx

namespace IG

/-- A picker in single-directory mode with an empty list. -/
def singleDirPicker : FSPicker := { demoPicker with mode_ := Mode.FILE_IN_DIR }

/-- A Linux host without system pickers and with one root location. -/
def demoHost : LocationsHost :=
  { envIsLinux := true, hasSystemPathPicker := false, hasSystemDocumentPicker := false,
    rootFileLocations := ["Storage"] }

end IG

namespace EmuEx

/-- A pushed confirm key. -/
def confirmKeyEvent : KeyEvent :=
  { pushedConfirm := true, pushedDirection := false, isDefaultConfirmButton := true,
    pushed := true, repeated := false, isDefaultLeftButton := false,
    isDefaultRightButton := false, isDefaultUpButton := false, isDefaultDownButton := false }

/-- A released confirm key. -/
def releaseKeyEvent : KeyEvent :=
  { confirmKeyEvent with pushedConfirm := false, pushed := false }

/-- Sample zoom values for integer-only scaling. -/
def demoZoomOptions : ImageZoomOptions :=
  { optionImageZoomIntegerOnly := 255, optionImageZoomIntegerOnlyY := 254 }

/-- A system with content and a multires base size of 256 by 224. -/
def demoEmuSystem : EmuSystem :=
  { hasContent := true, multiresVideoBaseSize := { x := 256, y := 224 } }

/-- A video layer in integer-only zoom showing a video of 512 by 224 pixels. -/
def demoVideoLayer : EmuVideoLayer :=
  { zoom_ := 255, sideways := false, videoSize := { x := 512, y := 224 },
    gameRect_ := { x := 0, y := 0, x2 := 0, y2 := 0 } }

end EmuEx

namespace Swan

/-- An option view of a system whose user name holds up to 16 characters. -/
def demoView : CustomSystemOptionView :=
  { system := { userName := "Ann", userNameMaxSize := 16 },
    nameSecond := "Ann", errorMessage := none }

end Swan

namespace A2600

/-- Sample values for the event codes, all different and below 256. -/
def demoEvent : Event :=
  { ConsoleColor := 1, ConsoleBlackWhite := 2, ConsoleLeftDiffA := 5, ConsoleLeftDiffB := 6,
    ConsoleRightDiffA := 8, ConsoleRightDiffB := 9, ConsoleSelect := 11, ConsoleReset := 12,
    LeftJoystickUp := 13, LeftJoystickDown := 14, LeftJoystickLeft := 15,
    LeftJoystickRight := 16, LeftJoystickFire := 17, LeftJoystickFire5 := 18,
    RightJoystickUp := 20, RightJoystickDown := 21, RightJoystickLeft := 22,
    RightJoystickRight := 23, RightJoystickFire := 24, RightJoystickFire5 := 25,
    LeftPaddleAFire := 30, LeftPaddleBFire := 31, LeftPaddleAIncrease := 32,
    LeftPaddleBIncrease := 33, LeftPaddleADecrease := 34, LeftPaddleBDecrease := 35,
    LeftKeyboard1 := 50, RightKeyboard1 := 62, RightKeyboardPound := 73,
    Combo1 := 100, Combo2 := 101, Combo3 := 102 }

/-- A sample value for `Controls::systemKeyMapStart`. -/
def demoStart : Nat := 1

/-- A system with the joystick maps of a joystick controller, the switches
`p1DiffB = true`, `p2DiffB = false`, `vcsColor = true` and all events at zero. -/
def demoSystem : A2600System :=
  { jsFireMap := (17, 24), jsLeftMap := (15, 22), jsRightMap := (16, 23),
    p1DiffB := true, p2DiffB := false, vcsColor := true, ev := fun _ => 0 }

end A2600

/-! ## Lemmas: comparison and sorting -/

namespace Std_

theorem lexicographical_compare_asymm {α β : Type} [LinearOrder β] (key : α → β)
    (comp : α → α → Bool) (hc : ∀ a b, comp a b = true ↔ key a < key b) :
    ∀ s t : List α,
      lexicographical_compare comp s t = true → lexicographical_compare comp t s = false := by
  intro s
  induction s with
  | nil => intro t; cases t <;> simp [lexicographical_compare]
  | cons a s ih =>
    intro t
    cases t with
    | nil => simp [lexicographical_compare]
    | cons b t =>
      simp only [lexicographical_compare, hc]
      by_cases hab : key a < key b
      · simp [hab, not_lt_of_lt hab]
      · by_cases hba : key b < key a
        · simp [hab, hba]
        · simpa [hab, hba] using ih t

theorem lexicographical_compare_trans {α β : Type} [LinearOrder β] (key : α → β)
    (comp : α → α → Bool) (hc : ∀ a b, comp a b = true ↔ key a < key b) :
    ∀ s t u : List α,
      lexicographical_compare comp s t = true → lexicographical_compare comp t u = true →
      lexicographical_compare comp s u = true := by
  intro s
  induction s with
  | nil =>
    intro t u
    cases t <;> cases u <;> simp [lexicographical_compare]
  | cons a s ih =>
    intro t u
    cases t with
    | nil => simp [lexicographical_compare]
    | cons b t =>
      cases u with
      | nil =>
        simp only [lexicographical_compare]
        intro _ h
        exact h
      | cons c u =>
        simp only [lexicographical_compare, hc]
        intro h1 h2
        rcases lt_trichotomy (key a) (key b) with hab | hab | hab
        · rcases lt_trichotomy (key b) (key c) with hbc | hbc | hbc
          · simp [lt_trans hab hbc]
          · simp [hbc ▸ hab]
          · simp [hbc, not_lt_of_lt hbc] at h2
        · simp only [hab, lt_irrefl, if_false] at h1
          rw [hab]
          rcases lt_trichotomy (key b) (key c) with hbc | hbc | hbc
          · simp [hbc]
          · simp only [hbc, lt_irrefl, if_false] at h2 ⊢
            exact ih t u h1 h2
          · simp [hbc, not_lt_of_lt hbc] at h2
        · simp [hab, not_lt_of_lt hab] at h1

theorem mem_sortInsert {α : Type} (less : α → α → Bool) (x y : α) (l : List α) :
    y ∈ sortInsert less x l ↔ y = x ∨ y ∈ l := by
  induction l with
  | nil => simp [sortInsert]
  | cons z l ih =>
    simp only [sortInsert]
    split_ifs
    · simp
    · simp only [List.mem_cons, ih]
      tauto

theorem sortInsert_perm {α : Type} (less : α → α → Bool) (x : α) (l : List α) :
    List.Perm (sortInsert less x l) (x :: l) := by
  induction l with
  | nil => simp [sortInsert]
  | cons z l ih =>
    simp only [sortInsert]
    split_ifs
    · exact List.Perm.refl _
    · exact (List.Perm.cons z ih).trans (List.Perm.swap x z l)

theorem sort_perm {α : Type} (less : α → α → Bool) (l : List α) :
    List.Perm (sort less l) l := by
  induction l with
  | nil => simp [sort]
  | cons x l ih =>
    simp only [sort]
    exact (sortInsert_perm less x _).trans (List.Perm.cons x ih)

theorem sortInsert_sorted {α : Type} (less : α → α → Bool)
    (asymm : ∀ a b, less a b = true → less b a = false)
    (trans : ∀ a b c, less a b = true → less b c = true → less a c = true)
    (x : α) (l : List α) (h : l.Pairwise (fun a b => less b a = false)) :
    (sortInsert less x l).Pairwise (fun a b => less b a = false) := by
  induction l with
  | nil => simp [sortInsert]
  | cons z l ih =>
    simp only [sortInsert]
    rw [List.pairwise_cons] at h
    split_ifs with hxz
    · refine List.Pairwise.cons ?_ (List.Pairwise.cons h.1 h.2)
      intro b hb
      rcases List.mem_cons.1 hb with rfl | hb
      · exact asymm _ _ hxz
      · by_contra hbx
        have hbx2 : less b x = true := by simpa using hbx
        have := trans b x z hbx2 hxz
        rw [h.1 b hb] at this
        exact Bool.false_ne_true this
    · refine List.Pairwise.cons ?_ (ih h.2)
      intro b hb
      rcases (mem_sortInsert less x b l).1 hb with rfl | hb
      · simpa using hxz
      · exact h.1 b hb

theorem sort_sorted {α : Type} (less : α → α → Bool)
    (asymm : ∀ a b, less a b = true → less b a = false)
    (trans : ∀ a b c, less a b = true → less b c = true → less a c = true)
    (l : List α) : (sort less l).Pairwise (fun a b => less b a = false) := by
  induction l with
  | nil => simp [sort]
  | cons x l ih => exact sortInsert_sorted less asymm trans x _ ih

end Std_

namespace IG

theorem stringNoCaseLexCompare_asymm (s t : String)
    (h : stringNoCaseLexCompare s t = true) : stringNoCaseLexCompare t s = false := by
  unfold stringNoCaseLexCompare at *
  exact Std_.lexicographical_compare_asymm (fun c : Char => c.toLower) _
    (fun a b => by simp) s.data t.data h

theorem stringNoCaseLexCompare_trans (s t u : String)
    (h1 : stringNoCaseLexCompare s t = true) (h2 : stringNoCaseLexCompare t u = true) :
    stringNoCaseLexCompare s u = true := by
  unfold stringNoCaseLexCompare at *
  exact Std_.lexicographical_compare_trans (fun c : Char => c.toLower) _
    (fun a b => by simp) s.data t.data u.data h1 h2

theorem fileEntryLess_asymm (a b : FileEntry) (h : fileEntryLess a b = true) :
    fileEntryLess b a = false := by
  unfold fileEntryLess at *
  cases ha : a.isDir <;> cases hb : b.isDir <;> simp [ha, hb] at h ⊢
  · exact stringNoCaseLexCompare_asymm _ _ h
  · exact stringNoCaseLexCompare_asymm _ _ h

theorem fileEntryLess_trans (a b c : FileEntry) (h1 : fileEntryLess a b = true)
    (h2 : fileEntryLess b c = true) : fileEntryLess a c = true := by
  unfold fileEntryLess at *
  cases ha : a.isDir <;> cases hb : b.isDir <;> cases hc : c.isDir <;>
    simp [ha, hb, hc] at h1 h2 ⊢
  · exact stringNoCaseLexCompare_trans _ _ _ h1 h2
  · exact stringNoCaseLexCompare_trans _ _ _ h1 h2

end IG

/-! ## Lemmas: the directory listing -/

namespace IG

theorem listEntry_noStop (p : FSPicker) (dir : List FileEntry) (entry : FS.directory_entry) :
    p.listEntry false dir entry =
      (if specAccepted p entry then dir ++ [FileEntry.ofEntry entry] else dir, true) := by
  unfold FSPicker.listEntry specAccepted
  rcases hf : p.filter with _ | f
  · by_cases ht : entry.type = FS.file_type.directory <;>
      cases hm : p.mode_ <;> cases hs : p.showHiddenFiles_ <;>
      cases hn : starts_with entry.name '.' <;> simp [hm, hs, ht, hn]
  · cases hfe : f entry <;>
      by_cases ht : entry.type = FS.file_type.directory <;>
      cases hm : p.mode_ <;> cases hs : p.showHiddenFiles_ <;>
      cases hn : starts_with entry.name '.' <;> simp [hm, hs, ht, hn, hfe]

theorem listEntry_cases (p : FSPicker) (stop : Bool) (dir : List FileEntry)
    (entry : FS.directory_entry) :
    (p.listEntry stop dir entry).1 = dir ∨
      ((p.listEntry stop dir entry).1 = dir ++ [FileEntry.ofEntry entry] ∧
        specAccepted p entry = true) := by
  cases stop with
  | true => left; simp [FSPicker.listEntry]
  | false =>
    rw [listEntry_noStop]
    by_cases h : specAccepted p entry = true
    · right; simp [h]
    · left; simp [h]

theorem forEachEntry_noStop (p : FSPicker) (stop : Nat → Bool) (hstop : ∀ i, stop i = false) :
    ∀ (entries : List FS.directory_entry) (i : Nat) (dir : List FileEntry),
      p.forEachEntry stop i entries dir =
        (dir ++ (entries.filter (specAccepted p)).map FileEntry.ofEntry, true) := by
  intro entries
  induction entries with
  | nil => intro i dir; simp [FSPicker.forEachEntry]
  | cons entry rest ih =>
    intro i dir
    simp only [FSPicker.forEachEntry, hstop, listEntry_noStop, if_true]
    by_cases h : specAccepted p entry = true
    · simp [h, List.filter_cons, ih]
    · simp [h, List.filter_cons, ih]

theorem mem_forEachEntry (p : FSPicker) (stop : Nat → Bool) :
    ∀ (entries : List FS.directory_entry) (i : Nat) (dir : List FileEntry) (e : FileEntry),
      e ∈ (p.forEachEntry stop i entries dir).1 →
        e ∈ dir ∨ ∃ entry ∈ entries, specAccepted p entry = true ∧ e = FileEntry.ofEntry entry := by
  intro entries
  induction entries with
  | nil => intro i dir e h; left; simpa [FSPicker.forEachEntry] using h
  | cons entry rest ih =>
    intro i dir e h
    simp only [FSPicker.forEachEntry] at h
    have hstep : e ∈ (p.listEntry (stop i) dir entry).1 →
        e ∈ dir ∨ ∃ en ∈ entry :: rest, specAccepted p en = true ∧ e = FileEntry.ofEntry en := by
      intro hmem
      rcases listEntry_cases p (stop i) dir entry with h1 | ⟨h1, hacc⟩
      · left; rwa [h1] at hmem
      · rw [h1, List.mem_append, List.mem_singleton] at hmem
        rcases hmem with hmem | hmem
        · exact Or.inl hmem
        · exact Or.inr ⟨entry, List.mem_cons_self _ _, hacc, hmem⟩
    split_ifs at h
    · rcases ih _ _ e h with h' | ⟨en, hen, hacc, he⟩
      · exact hstep h'
      · exact Or.inr ⟨en, List.mem_cons_of_mem _ hen, hacc, he⟩
    · exact hstep h

theorem listDirectory_dir_ok (p : FSPicker) (src : DirStream) (stop : Nat → Bool)
    (h : p.catchesSystemError src stop = false) :
    (p.listDirectory src stop).dir =
      (Std_.sort fileEntryLess (p.forEachEntry stop 0 src.entries p.dir).1).map setOnSelect := by
  unfold FSPicker.catchesSystemError at h
  unfold FSPicker.listDirectory
  simp only [h, Bool.false_eq_true, if_false]
  split_ifs with hlen
  · rfl
  · have : Std_.sort fileEntryLess (p.forEachEntry stop 0 src.entries p.dir).1 = [] := by
      simpa using hlen
    simp [this]

theorem listDirectory_dir_caught (p : FSPicker) (src : DirStream) (stop : Nat → Bool)
    (h : p.catchesSystemError src stop = true) :
    (p.listDirectory src stop).dir = (p.forEachEntry stop 0 src.entries p.dir).1 := by
  unfold FSPicker.catchesSystemError at h
  unfold FSPicker.listDirectory
  simp [h]

theorem setOnSelect_isDir (d : FileEntry) : (setOnSelect d).isDir = d.isDir := by
  unfold setOnSelect; split_ifs <;> rfl

theorem setOnSelect_path (d : FileEntry) : (setOnSelect d).path = d.path := by
  unfold setOnSelect; split_ifs <;> rfl

theorem setOnSelect_name (d : FileEntry) : (setOnSelect d).name = d.name := by
  unfold setOnSelect; split_ifs <;> rfl

/-- Every element of the list after `listDirectory` stems from an element of the list
before the call or from an accepted entry of the directory, with path, name and
directory flag unchanged. -/
theorem mem_listDirectory (p : FSPicker) (src : DirStream) (stop : Nat → Bool) (e : FileEntry)
    (he : e ∈ (p.listDirectory src stop).dir) :
    (∃ e0 ∈ p.dir, e = e0 ∨ e = setOnSelect e0) ∨
      ∃ entry ∈ src.entries, specAccepted p entry = true ∧
        (e = FileEntry.ofEntry entry ∨ e = setOnSelect (FileEntry.ofEntry entry)) := by
  cases hc : p.catchesSystemError src stop with
  | true =>
    rw [listDirectory_dir_caught p src stop hc] at he
    rcases mem_forEachEntry p stop _ _ _ e he with h | ⟨en, hen, hacc, h⟩
    · exact Or.inl ⟨e, h, Or.inl rfl⟩
    · exact Or.inr ⟨en, hen, hacc, Or.inl h⟩
  | false =>
    rw [listDirectory_dir_ok p src stop hc, List.mem_map] at he
    obtain ⟨d, hd, rfl⟩ := he
    have hd' := (Std_.sort_perm fileEntryLess _).mem_iff.1 hd
    rcases mem_forEachEntry p stop _ _ _ d hd' with h | ⟨en, hen, hacc, h⟩
    · exact Or.inl ⟨d, h, Or.inr rfl⟩
    · exact Or.inr ⟨en, hen, hacc, Or.inr (by rw [h])⟩

/-- With no stop request, every accepted entry of the directory is in the list after
`listDirectory`, with or without its select handler. -/
theorem listDirectory_keeps (p : FSPicker) (src : DirStream) (stop : Nat → Bool)
    (hstop : ∀ i, stop i = false) (entry : FS.directory_entry) (hmem : entry ∈ src.entries)
    (hacc : specAccepted p entry = true) :
    ∃ e ∈ (p.listDirectory src stop).dir,
      e.path = entry.path ∧ e.name = entry.name ∧
        e.isDir = (entry.type == FS.file_type.directory) := by
  have hin : FileEntry.ofEntry entry ∈ (p.forEachEntry stop 0 src.entries p.dir).1 := by
    rw [forEachEntry_noStop p stop hstop]
    simp only [List.mem_append, List.mem_map, List.mem_filter]
    exact Or.inr ⟨entry, ⟨hmem, hacc⟩, rfl⟩
  cases hc : p.catchesSystemError src stop with
  | true =>
    rw [listDirectory_dir_caught p src stop hc]
    exact ⟨_, hin, rfl, rfl, rfl⟩
  | false =>
    rw [listDirectory_dir_ok p src stop hc]
    refine ⟨setOnSelect (FileEntry.ofEntry entry), ?_, ?_, ?_, ?_⟩
    · exact List.mem_map.2 ⟨_, (Std_.sort_perm fileEntryLess _).mem_iff.2 hin, rfl⟩
    · rw [setOnSelect_path]; rfl
    · rw [setOnSelect_name]; rfl
    · rw [setOnSelect_isDir]; rfl

end IG

/-! ## FSPicker: the claims about `listDirectory` -/

namespace IG

/-- Claim C1: when `listDirectory` ends without catching a system error, the list is
sorted: no directory entry stands after a non-directory entry, and for neighbouring
entries of the same kind the later path does not compare less than the earlier path
under the case-insensitive lexicographic comparison. -/
theorem listDirectory_sorted (p : FSPicker) (src : DirStream) (stop : Nat → Bool)
    (h : p.catchesSystemError src stop = false) :
    (p.listDirectory src stop).dir.Pairwise (fun a b => b.isDir = true → a.isDir = true) ∧
    (p.listDirectory src stop).dir.Chain'
      (fun a b => a.isDir = b.isDir → stringNoCaseLexCompare b.path a.path = false) := by
  rw [listDirectory_dir_ok p src stop h]
  have hs := Std_.sort_sorted fileEntryLess fileEntryLess_asymm fileEntryLess_trans
    (p.forEachEntry stop 0 src.entries p.dir).1
  constructor
  · rw [List.pairwise_map]
    refine hs.imp ?_
    intro a b hba hb
    rw [setOnSelect_isDir] at hb ⊢
    unfold fileEntryLess at hba
    cases ha : a.isDir
    · simp [ha, hb] at hba
    · rfl
  · apply List.Pairwise.chain'
    rw [List.pairwise_map]
    refine hs.imp ?_
    intro a b hba hk
    rw [setOnSelect_isDir, setOnSelect_isDir] at hk
    rw [setOnSelect_path, setOnSelect_path]
    unfold fileEntryLess at hba
    cases ha : a.isDir <;> simp [ha, ← hk] at hba <;> exact hba

/-- Claim C1, at a concrete directory. -/
theorem listDirectory_sorted_witness :
    demoPicker.catchesSystemError demoDir neverStop = false ∧
    ((demoPicker.listDirectory demoDir neverStop).dir.Pairwise
        (fun a b => b.isDir = true → a.isDir = true) ∧
      (demoPicker.listDirectory demoDir neverStop).dir.Chain'
        (fun a b => a.isDir = b.isDir → stringNoCaseLexCompare b.path a.path = false)) :=
  ⟨by decide, listDirectory_sorted demoPicker demoDir neverStop (by decide)⟩

/-- Claim C2: `listDirectory` filters by type according to the mode. In `Mode::DIR`
every entry of the list that was not in it before the call is a directory, in
`Mode::FILE_IN_DIR` none is, and in any other mode an entry of the directory that passes
the hidden-file filter and the user filter is listed whatever its type (the listing not
being stopped). -/
theorem listDirectory_type_filter (p : FSPicker) (src : DirStream) (stop : Nat → Bool) :
    (p.mode_ = Mode.DIR → ∀ e ∈ (p.listDirectory src stop).dir,
        e.isDir = true ∨ ∃ e0 ∈ p.dir, e = e0 ∨ e = setOnSelect e0) ∧
    (p.mode_ = Mode.FILE_IN_DIR → ∀ e ∈ (p.listDirectory src stop).dir,
        e.isDir = false ∨ ∃ e0 ∈ p.dir, e = e0 ∨ e = setOnSelect e0) ∧
    (p.mode_ ≠ Mode.DIR → p.mode_ ≠ Mode.FILE_IN_DIR → (∀ i, stop i = false) →
      ∀ entry ∈ src.entries,
        (p.showHiddenFiles_ = true ∨ starts_with entry.name '.' = false) →
        (∀ f, p.filter = some f → f entry = true) →
        ∃ e ∈ (p.listDirectory src stop).dir,
          e.path = entry.path ∧ e.name = entry.name ∧
            e.isDir = (entry.type == FS.file_type.directory)) := by
  refine ⟨?_, ?_, ?_⟩
  · intro hm e he
    rcases mem_listDirectory p src stop e he with hold | ⟨en, -, hacc, hnew⟩
    · exact Or.inr hold
    · left
      have ht : (en.type == FS.file_type.directory) = true := by
        unfold specAccepted at hacc
        simp only [hm, Bool.and_eq_true] at hacc
        exact hacc.1.1
      rcases hnew with rfl | rfl
      · exact ht
      · rw [setOnSelect_isDir]; exact ht
  · intro hm e he
    rcases mem_listDirectory p src stop e he with hold | ⟨en, -, hacc, hnew⟩
    · exact Or.inr hold
    · left
      have ht : (en.type == FS.file_type.directory) = false := by
        unfold specAccepted at hacc
        simp only [hm, Bool.and_eq_true] at hacc
        simpa using hacc.1.1
      rcases hnew with rfl | rfl
      · exact ht
      · rw [setOnSelect_isDir]; exact ht
  · intro h1 h2 hstop entry hmem hhid hfil
    apply listDirectory_keeps p src stop hstop entry hmem
    unfold specAccepted
    have hmode : p.mode_ = Mode.FILE := by
      cases hm : p.mode_ <;> simp_all
    rw [hmode]
    rcases hf : p.filter with _ | f
    · rcases hhid with hh | hh <;> simp [hh]
    · have := hfil f hf
      rcases hhid with hh | hh <;> simp [hh, this]

/-- Claim C2, at a concrete directory, once for each kind of mode. -/
theorem listDirectory_type_filter_witness :
    (∀ e ∈ (({ demoPicker with mode_ := Mode.DIR }).listDirectory demoDir neverStop).dir,
        e.isDir = true ∨
          ∃ e0 ∈ ({ demoPicker with mode_ := Mode.DIR }).dir, e = e0 ∨ e = setOnSelect e0) ∧
    (∀ e ∈ (({ demoPicker with mode_ := Mode.FILE_IN_DIR }).listDirectory demoDir neverStop).dir,
        e.isDir = false ∨
          ∃ e0 ∈ ({ demoPicker with mode_ := Mode.FILE_IN_DIR }).dir,
            e = e0 ∨ e = setOnSelect e0) ∧
    (∃ e ∈ (demoPicker.listDirectory demoDir neverStop).dir,
        e.path = "/r/Zed" ∧ e.name = "Zed" ∧
          e.isDir = (FS.file_type.directory == FS.file_type.directory)) :=
  ⟨(listDirectory_type_filter { demoPicker with mode_ := Mode.DIR } demoDir neverStop).1 rfl,
   (listDirectory_type_filter { demoPicker with mode_ := Mode.FILE_IN_DIR } demoDir
      neverStop).2.1 rfl,
   (listDirectory_type_filter demoPicker demoDir neverStop).2.2 (by decide) (by decide)
      (fun _ => rfl) { path := "/r/Zed", name := "Zed", type := FS.file_type.directory }
      (by decide) (by decide) (fun f hf => by cases hf)⟩

/-- Claim C3: `listDirectory` filters hidden entries. After `setShowHiddenFiles(false)`
no entry of the list that was not in it before the call has a name starting with `.`;
after `setShowHiddenFiles(true)` an entry of the directory that passes the type filter of
the mode and the user filter is listed whether or not its name starts with `.` (the
listing not being stopped). -/
theorem listDirectory_hidden_filter (p : FSPicker) (src : DirStream) (stop : Nat → Bool) :
    (∀ e ∈ ((p.setShowHiddenFiles false).listDirectory src stop).dir,
        starts_with e.name '.' = false ∨ ∃ e0 ∈ p.dir, e = e0 ∨ e = setOnSelect e0) ∧
    ((∀ i, stop i = false) →
      ∀ entry ∈ src.entries,
        (p.mode_ = Mode.DIR → entry.type = FS.file_type.directory) →
        (p.mode_ = Mode.FILE_IN_DIR → entry.type ≠ FS.file_type.directory) →
        (∀ f, p.filter = some f → f entry = true) →
        ∃ e ∈ ((p.setShowHiddenFiles true).listDirectory src stop).dir,
          e.path = entry.path ∧ e.name = entry.name ∧
            e.isDir = (entry.type == FS.file_type.directory)) := by
  refine ⟨?_, ?_⟩
  · intro e he
    rcases mem_listDirectory _ src stop e he with hold | ⟨en, -, hacc, hnew⟩
    · exact Or.inr hold
    · left
      have hn : starts_with en.name '.' = false := by
        unfold specAccepted at hacc
        simp only [FSPicker.setShowHiddenFiles, Bool.and_eq_true, Bool.false_or] at hacc
        simpa using hacc.1.2
      rcases hnew with rfl | rfl
      · exact hn
      · rw [setOnSelect_name]; exact hn
  · intro hstop entry hmem hdir hfile hfil
    apply listDirectory_keeps _ src stop hstop entry hmem
    unfold specAccepted
    simp only [FSPicker.setShowHiddenFiles, Bool.true_or, Bool.and_true, Bool.and_eq_true]
    constructor
    · cases hm : p.mode_
      · rfl
      · simpa using hfile hm
      · simpa using hdir hm
    · rcases hf : p.filter with _ | f
      · rfl
      · exact hfil f hf

/-- Claim C3, at a concrete directory with a hidden file. -/
theorem listDirectory_hidden_filter_witness :
    (∀ e ∈ ((demoPicker.setShowHiddenFiles false).listDirectory demoDir neverStop).dir,
        starts_with e.name '.' = false ∨ ∃ e0 ∈ demoPicker.dir, e = e0 ∨ e = setOnSelect e0) ∧
    (∃ e ∈ ((demoPicker.setShowHiddenFiles true).listDirectory demoDir neverStop).dir,
        e.path = "/r/.h" ∧ e.name = ".h" ∧
          e.isDir = (FS.file_type.regular == FS.file_type.directory)) :=
  ⟨(listDirectory_hidden_filter demoPicker demoDir neverStop).1,
   (listDirectory_hidden_filter demoPicker demoDir neverStop).2 (fun _ => rfl)
      { path := "/r/.h", name := ".h", type := FS.file_type.regular }
      (by decide) (by decide) (by decide) (fun f hf => by cases hf)⟩

/-- Claim C4: a listing that runs to the end without a stop request and without an
error, from an empty list, leaves in `dir` a permutation of the accepted entries of the
directory (those passing the type filter, the hidden-file filter and the user filter),
each with its select handler: none is dropped and none is duplicated. -/
theorem listDirectory_perm_accepted (p : FSPicker) (src : DirStream) (stop : Nat → Bool)
    (hstop : ∀ i, stop i = false) (herr : src.fails = false) (hdir : p.dir = []) :
    List.Perm (p.listDirectory src stop).dir
      ((src.entries.filter (specAccepted p)).map
        (fun entry => setOnSelect (FileEntry.ofEntry entry))) := by
  have hc : p.catchesSystemError src stop = false := by
    unfold FSPicker.catchesSystemError
    simp [herr]
  rw [listDirectory_dir_ok p src stop hc, forEachEntry_noStop p stop hstop, hdir]
  simp only [List.nil_append]
  have h := (Std_.sort_perm fileEntryLess
    ((src.entries.filter (specAccepted p)).map FileEntry.ofEntry)).map setOnSelect
  simpa [List.map_map] using h

/-- Claim C4, at a concrete directory. -/
theorem listDirectory_perm_accepted_witness :
    (∀ i, neverStop i = false) ∧ demoDir.fails = false ∧ demoPicker.dir = [] ∧
    List.Perm (demoPicker.listDirectory demoDir neverStop).dir
      ((demoDir.entries.filter (specAccepted demoPicker)).map
        (fun entry => setOnSelect (FileEntry.ofEntry entry))) :=
  ⟨fun _ => rfl, rfl, rfl,
   listDirectory_perm_accepted demoPicker demoDir neverStop (fun _ => rfl) rfl rfl⟩

end IG

/-! ## FSPicker: deferring a request while the worker is busy -/

namespace IG

theorem listDirectory_thread (p : FSPicker) (src : DirStream) (stop : Nat → Bool) :
    (p.listDirectory src stop).dirListThread = p.dirListThread ∧
    (p.listDirectory src stop).dirListEvent = p.dirListEvent ∧
    (p.listDirectory src stop).rootPath = p.rootPath := by
  unfold FSPicker.listDirectory
  simp only
  split_ifs <;> exact ⟨rfl, rfl, rfl⟩

theorem startDirectoryListThread_busy (p : FSPicker) (path : String)
    (hw : p.dirListThread.working = true) :
    p.startDirectoryListThread path =
      { p with
        dirListThread := { p.dirListThread with stopRequested := true }
        dirListEvent := { p.dirListEvent with callback := DirListCallback.restart } } := by
  unfold FSPicker.startDirectoryListThread
  simp [hw]

theorem setPath_busy (ctx : ApplicationContext) (p : FSPicker) (r : PathRequest)
    (hw : p.dirListThread.working = true) (hne : r.path.length ≠ 0) :
    (p.setPath ctx r.path r.rootInfo r.keyEvent).dirListThread =
        { p.dirListThread with stopRequested := true } ∧
    (p.setPath ctx r.path r.rootInfo r.keyEvent).dir = p.dir ∧
    (p.setPath ctx r.path r.rootInfo r.keyEvent).dirListEvent =
        { p.dirListEvent with callback := DirListCallback.restart } ∧
    (p.setPath ctx r.path r.rootInfo r.keyEvent).rootPath = r.path := by
  unfold FSPicker.setPath
  have hne' : (r.path.length == 0) = false := by simpa using hne
  simp only [hne', Bool.false_eq_true, if_false]
  rw [startDirectoryListThread_busy _ _ (by exact hw)]
  refine ⟨?_, ?_, ?_, ?_⟩ <;> (split_ifs <;> rfl)

theorem setPaths_busy (ctx : ApplicationContext) (p : FSPicker) (reqs : List PathRequest)
    (hw : p.dirListThread.working = true) (hne : ∀ r ∈ reqs, r.path.length ≠ 0) :
    (p.setPaths ctx reqs).dirListThread.working = true ∧
    (p.setPaths ctx reqs).dirListThread.path = p.dirListThread.path ∧
    (p.setPaths ctx reqs).dir = p.dir ∧
    ∀ last ∈ reqs.getLast?,
      (p.setPaths ctx reqs).dirListThread.stopRequested = true ∧
      (p.setPaths ctx reqs).dirListEvent.callback = DirListCallback.restart ∧
      (p.setPaths ctx reqs).rootPath = last.path := by
  induction reqs using List.reverseRecOn with
  | nil => simp [FSPicker.setPaths, hw]
  | append_singleton init r ih =>
    have hinit := ih (fun x hx => hne x (List.mem_append_left _ hx))
    have hr : r.path.length ≠ 0 := hne r (by simp)
    have hstep : p.setPaths ctx (init ++ [r]) =
        (p.setPaths ctx init).setPath ctx r.path r.rootInfo r.keyEvent := by
      simp [FSPicker.setPaths, List.foldl_append]
    obtain ⟨h1, h2, h3, h4⟩ := setPath_busy ctx (p.setPaths ctx init) r hinit.1 hr
    rw [hstep]
    refine ⟨?_, ?_, ?_, ?_⟩
    · rw [h1]; exact hinit.1
    · rw [h1]; exact hinit.2.1
    · rw [h2]; exact hinit.2.2.1
    · intro last hlast
      have : last = r := by simpa using hlast.symm
      subst this
      refine ⟨by rw [h1], by rw [h3], h4⟩

theorem restart_after_stop (q : FSPicker) (fsys : String → DirStream) (stop : Nat → Bool)
    (hcb : q.dirListEvent.callback = DirListCallback.restart) :
    ((q.workerRun fsys stop false).dirListEventFired).dirListThread =
        { working := true, stopRequested := false, path := q.rootPath } ∧
    ((q.workerRun fsys stop false).dirListEventFired).dir = [] ∧
    ((q.workerRun fsys stop false).dirListEventFired).dirListEvent =
        { callback := DirListCallback.showList, pending := false } := by
  obtain ⟨h1, h2, h3⟩ := listDirectory_thread q (fsys q.dirListThread.path) stop
  unfold FSPicker.dirListEventFired FSPicker.workerRun FSPicker.startDirectoryListThread
  simp [h2, h3, hcb]

/-- Claim C5, as amended: while the worker is working, `startDirectoryListThread`, and
`setPath` with a non-empty path, start no listing: the worker keeps working on the path
it was started with and is told to stop, the entry list is left as it is and the event
callback becomes the restart callback. After any run of `setPath` requests with non-empty
paths made while the worker is working, the worker's end (not a quit) and the event it
notifies start a listing of the last requested path, from an empty list. -/
theorem latest_request_wins (ctx : ApplicationContext) (p : FSPicker)
    (reqs : List PathRequest) (hw : p.dirListThread.working = true)
    (hne : ∀ r ∈ reqs, r.path.length ≠ 0) :
    (∀ path,
      (p.startDirectoryListThread path).dirListThread =
          { p.dirListThread with stopRequested := true } ∧
      (p.startDirectoryListThread path).dir = p.dir ∧
      (p.startDirectoryListThread path).dirListEvent.callback = DirListCallback.restart) ∧
    ((p.setPaths ctx reqs).dirListThread.working = true ∧
      (p.setPaths ctx reqs).dirListThread.path = p.dirListThread.path ∧
      (p.setPaths ctx reqs).dir = p.dir) ∧
    ∀ last ∈ reqs.getLast?,
      (p.setPaths ctx reqs).dirListThread.stopRequested = true ∧
      (p.setPaths ctx reqs).dirListEvent.callback = DirListCallback.restart ∧
      ∀ (fsys : String → DirStream) (stop : Nat → Bool),
        (((p.setPaths ctx reqs).workerRun fsys stop false).dirListEventFired).dirListThread =
            { working := true, stopRequested := false, path := last.path } ∧
        (((p.setPaths ctx reqs).workerRun fsys stop false).dirListEventFired).dir = [] ∧
        (((p.setPaths ctx reqs).workerRun fsys stop false).dirListEventFired).dirListEvent =
            { callback := DirListCallback.showList, pending := false } := by
  obtain ⟨h1, h2, h3, h4⟩ := setPaths_busy ctx p reqs hw hne
  refine ⟨?_, ⟨h1, h2, h3⟩, ?_⟩
  · intro path
    rw [startDirectoryListThread_busy p path hw]
    exact ⟨rfl, rfl, rfl⟩
  · intro last hlast
    obtain ⟨h5, h6, h7⟩ := h4 last hlast
    refine ⟨h5, h6, ?_⟩
    intro fsys stop
    have := restart_after_stop (p.setPaths ctx reqs) fsys stop h6
    rw [h7] at this
    exact this

/-- Claim C5, amended, on a busy picker and the requests `/a`, `/b`, `/c`: the listing
that starts after the worker's end is a listing of `/c`. -/
theorem latest_request_wins_witness :
    busyPicker.dirListThread.working = true ∧
    (((busyPicker.setPaths demoContext
        [⟨"/a", ⟨"", 0⟩, false⟩, ⟨"/b", ⟨"", 0⟩, false⟩, ⟨"/c", ⟨"", 0⟩, false⟩]).workerRun
          demoFileSystem neverStop false).dirListEventFired).dirListThread =
      { working := true, stopRequested := false, path := "/c" } :=
  ⟨rfl,
   ((latest_request_wins demoContext busyPicker
      [⟨"/a", ⟨"", 0⟩, false⟩, ⟨"/b", ⟨"", 0⟩, false⟩, ⟨"/c", ⟨"", 0⟩, false⟩] rfl
      (by decide)).2.2 ⟨"/c", ⟨"", 0⟩, false⟩ (by simp)).2.2 demoFileSystem neverStop |>.1⟩

/-- Claim C5 as stated fails for `setPath` with the empty path: called while the worker
is working it clears the entry list, leaves the callback as it was and stops the worker
for good, so the worker's end starts no listing. -/
theorem setPath_empty_while_working :
    busyPicker.dirListThread.working = true ∧
    (busyPicker.setPath demoContext "" ⟨"", 0⟩ false).dir ≠ busyPicker.dir ∧
    (busyPicker.setPath demoContext "" ⟨"", 0⟩ false).dirListEvent.callback ≠
      DirListCallback.restart ∧
    ((busyPicker.setPath demoContext "" ⟨"", 0⟩ false).dirListEventFired).dirListThread.working
      = false := by
  decide

end IG

/-! ## Lemmas: the key table that `applyMap` builds -/

namespace EmuEx

theorem getD_set (l : List Nat) (i j a : Nat) :
    (l.set i a).getD j 0 = if i = j ∧ j < l.length then a else l.getD j 0 := by
  simp only [List.getD_eq_getElem?_getD, List.getElem?_set]
  by_cases hij : i = j
  · subst hij
    by_cases hl : i < l.length
    · simp [hl]
    · simp [hl, List.getElem?_eq_none (Nat.le_of_not_lt hl)]
  · simp [hij]

theorem getD_replicate_zero (n i : Nat) : (List.replicate n 0).getD i 0 = 0 := by
  simp only [List.getD_eq_getElem?_getD, List.getElem?_replicate]
  split_ifs <;> rfl

theorem fillPairs_length (map : KbMap) :
    ∀ (n : Nat) (t : List Nat) (tp mp : Nat), (fillPairs map n t tp mp).1.length = t.length := by
  intro n
  induction n with
  | zero => intro t tp mp; rfl
  | succ n ih => intro t tp mp; simp [fillPairs, ih]

theorem fillPairs_mapPtr (map : KbMap) :
    ∀ (n : Nat) (t : List Nat) (tp mp : Nat), (fillPairs map n t tp mp).2.2 = mp + n := by
  intro n
  induction n with
  | zero => intro t tp mp; rfl
  | succ n ih => intro t tp mp; simp only [fillPairs, ih]; omega

theorem getD_fillPairs (map : KbMap) :
    ∀ (n : Nat) (t : List Nat) (tp mp i : Nat),
      (fillPairs map n t tp mp).1.getD i 0 =
        if tp ≤ i ∧ i < tp + 2 * n ∧ i < t.length then map.read (mp + (i - tp) / 2)
        else t.getD i 0 := by
  intro n
  induction n with
  | zero => intro t tp mp i; simp only [fillPairs]; rw [if_neg (by omega)]
  | succ n ih =>
    intro t tp mp i
    simp only [fillPairs, ih, getD_set, List.length_set]
    split_ifs <;> first | rfl | omega | (congr 1; omega)

theorem fillSame_length (map : KbMap) :
    ∀ (n : Nat) (t : List Nat) (tp mp : Nat), (fillSame map n t tp mp).1.length = t.length := by
  intro n
  induction n with
  | zero => intro t tp mp; rfl
  | succ n ih => intro t tp mp; simp [fillSame, ih]

theorem getD_fillSame (map : KbMap) :
    ∀ (n : Nat) (t : List Nat) (tp mp i : Nat),
      (fillSame map n t tp mp).1.getD i 0 =
        if tp ≤ i ∧ i < tp + n ∧ i < t.length then map.read mp else t.getD i 0 := by
  intro n
  induction n with
  | zero => intro t tp mp i; simp only [fillSame]; rw [if_neg (by omega)]
  | succ n ih =>
    intro t tp mp i
    simp only [fillSame, ih, getD_set, List.length_set]
    split_ifs <;> first | rfl | omega

theorem applyMap_table_length (vc : VController) (kb : VControllerKeyboard) (map : KbMap) :
    (kb.applyMap vc map).table.length = 80 := by
  simp only [VControllerKeyboard.applyMap]
  cases hm : kb.mode_ <;>
    simp only [beq_iff_eq, reduceCtorEq, if_false, if_true] <;>
    simp only [List.length_set, fillSame_length, fillPairs_length, List.length_replicate,
      KEY_ROWS, VKEY_COLS]

set_option maxHeartbeats 4000000 in
/-- The table `applyMap` builds is the layout of the claims, in every cell. -/
theorem getD_applyMap (vc : VController) (kb : VControllerKeyboard) (map : KbMap)
    (i : Nat) (hi : i < 80) :
    (kb.applyMap vc map).table.getD i 0 = specKeyLayout vc kb.mode_ map i := by
  simp only [VControllerKeyboard.applyMap, specKeyLayout]
  cases hm : kb.mode_ <;>
    simp only [hm, beq_iff_eq, reduceCtorEq, if_false, if_true] <;>
    simp only [fillPairs_mapPtr, cell, VKEY_COLS, KEY_ROWS, Nat.reduceMul, Nat.reduceAdd] <;>
    simp only [getD_set, List.length_set, fillSame_length, fillPairs_length,
      List.length_replicate] <;>
    simp only [getD_fillSame, List.length_set, fillSame_length, fillPairs_length,
      List.length_replicate] <;>
    simp only [getD_set, List.length_set, fillSame_length, fillPairs_length,
      List.length_replicate] <;>
    simp only [getD_fillPairs, List.length_set, fillSame_length, fillPairs_length,
      List.length_replicate] <;>
    simp only [getD_set, List.length_set, fillSame_length, fillPairs_length,
      List.length_replicate] <;>
    simp only [getD_fillPairs, List.length_set, fillSame_length, fillPairs_length,
      List.length_replicate, getD_replicate_zero] <;>
    interval_cases i <;> simp

theorem tableAt_applyMap (vc : VController) (kb : VControllerKeyboard) (map : KbMap)
    (r c : Nat) (hr : r < 4) (hc : c < 20) :
    (kb.applyMap vc map).tableAt r c = specKeyLayout vc kb.mode_ map (r * 20 + c) := by
  unfold VControllerKeyboard.tableAt cell VKEY_COLS
  exact getD_applyMap vc kb map (r * 20 + c) (by omega)

theorem read_congr (map map2 : KbMap) (k : Nat) (hk : k < 40)
    (h : map2 ⟨k, hk⟩ = map ⟨k, hk⟩) : map2.read k = map.read k := by
  unfold KbMap.read
  simp [hk, h]

/-- Two key maps that give the same layout give the same table. -/
theorem applyMap_table_congr (vc : VController) (kb : VControllerKeyboard) (map map2 : KbMap)
    (h : ∀ i, i < 80 → specKeyLayout vc kb.mode_ map2 i = specKeyLayout vc kb.mode_ map i) :
    (kb.applyMap vc map2).table = (kb.applyMap vc map).table := by
  apply List.ext_getElem?
  intro i
  by_cases hi : i < 80
  · have h1 := getD_applyMap vc kb map i hi
    have h2 := getD_applyMap vc kb map2 i hi
    rw [List.getD_eq_getElem?_getD] at h1 h2
    have l1 : i < (kb.applyMap vc map).table.length := by
      rw [applyMap_table_length]; exact hi
    have l2 : i < (kb.applyMap vc map2).table.length := by
      rw [applyMap_table_length]; exact hi
    rw [List.getElem?_eq_getElem l1] at h1 ⊢
    rw [List.getElem?_eq_getElem l2] at h2 ⊢
    simp only [Option.getD_some] at h1 h2
    rw [h1, h2, h i hi]
  · rw [List.getElem?_eq_none (by rw [applyMap_table_length]; omega),
      List.getElem?_eq_none (by rw [applyMap_table_length]; omega)]

theorem read_congr_of (P : Nat → Prop) (map map2 : KbMap)
    (h : ∀ k : Fin 40, P k.val → map2 k = map k) (k : Nat) (hk : k < 40) (hp : P k) :
    map2.read k = map.read k :=
  read_congr map map2 k hk (h ⟨k, hk⟩ hp)

end EmuEx

/-! ## VControllerKeyboard: the claims about `applyMap` -/

namespace EmuEx

/-- Claim C6: first row. For every key map, in both modes and whatever the keyboard held
before, `table[0][c] = map[c / 2]` for every column `c` from 0 to 19. -/
theorem applyMap_row0 (vc : VController) (kb : VControllerKeyboard) (map : KbMap) (c : Nat)
    (hc : c < 20) : (kb.applyMap vc map).tableAt 0 c = map.read (c / 2) := by
  rw [tableAt_applyMap vc kb map 0 c (by omega) hc]
  unfold specKeyLayout
  rw [if_pos (by omega)]
  congr 1
  omega

/-- Claim C6, at column 5 of a sample keyboard. -/
theorem applyMap_row0_witness :
    5 < 20 ∧
    ((demoKeyboard VControllerKbMode.LAYOUT_1).applyMap demoVController demoMap).tableAt 0 5 =
      demoMap.read (5 / 2) :=
  ⟨by decide,
   applyMap_row0 demoVController (demoKeyboard VControllerKbMode.LAYOUT_1) demoMap 5
     (by decide)⟩

/-- Claim C7: second row. In `LAYOUT_1` the row is staggered: `table[1][0]` and
`table[1][19]` are 0, `table[1][c] = map[10 + (c - 1) / 2]` for `c` from 1 to 18, and the
table does not depend on `map[19]`. In the other mode `table[1][c] = map[10 + c / 2]` for
every `c` from 0 to 19. -/
theorem applyMap_row1 (vc : VController) (kb : VControllerKeyboard) (map : KbMap) :
    (kb.mode_ = VControllerKbMode.LAYOUT_1 →
      (kb.applyMap vc map).tableAt 1 0 = 0 ∧
      (kb.applyMap vc map).tableAt 1 19 = 0 ∧
      (∀ c, 1 ≤ c → c ≤ 18 → (kb.applyMap vc map).tableAt 1 c = map.read (10 + (c - 1) / 2)) ∧
      (∀ map2 : KbMap, (∀ k : Fin 40, k.val ≠ 19 → map2 k = map k) →
        (kb.applyMap vc map2).table = (kb.applyMap vc map).table)) ∧
    (kb.mode_ ≠ VControllerKbMode.LAYOUT_1 →
      ∀ c, c < 20 → (kb.applyMap vc map).tableAt 1 c = map.read (10 + c / 2)) := by
  constructor
  · intro hm
    refine ⟨?_, ?_, ?_, ?_⟩
    · rw [tableAt_applyMap vc kb map 1 0 (by omega) (by omega), hm]
      simp [specKeyLayout]
    · rw [tableAt_applyMap vc kb map 1 19 (by omega) (by omega), hm]
      simp [specKeyLayout]
    · intro c h1 h2
      rw [tableAt_applyMap vc kb map 1 c (by omega) (by omega), hm]
      simp only [specKeyLayout]
      simp (disch := omega) only [if_neg, if_pos]
      congr 1
      omega
    · intro map2 h
      apply applyMap_table_congr
      intro i hi
      rw [hm]
      simp only [specKeyLayout]
      repeat' split
      all_goals
        first
        | (apply read_congr_of (fun k => k ≠ 19) map map2 h <;> omega)
        | rfl
  · intro hm c hc
    have hm2 : kb.mode_ = VControllerKbMode.LAYOUT_2 := by
      cases h : kb.mode_
      · exact absurd h hm
      · rfl
    rw [tableAt_applyMap vc kb map 1 c (by omega) hc, hm2]
    simp only [specKeyLayout]
    simp (disch := omega) only [if_neg, if_pos]
    congr 1
    omega

/-- Claim C7, on sample keyboards: column 7 of the staggered row and column 7 of the
row of ten keys. -/
theorem applyMap_row1_witness :
    ((demoKeyboard VControllerKbMode.LAYOUT_1).applyMap demoVController demoMap).tableAt 1 7 =
      demoMap.read (10 + (7 - 1) / 2) ∧
    ((demoKeyboard VControllerKbMode.LAYOUT_2).applyMap demoVController demoMap).tableAt 1 7 =
      demoMap.read (10 + 7 / 2) :=
  ⟨((applyMap_row1 demoVController (demoKeyboard VControllerKbMode.LAYOUT_1) demoMap).1
      rfl).2.2.1 7 (by decide) (by decide),
   (applyMap_row1 demoVController (demoKeyboard VControllerKbMode.LAYOUT_2) demoMap).2
      (by decide) 7 (by decide)⟩

/-- Claim C8: third row. For every key map and both modes, columns 0 to 2 hold `map[20]`,
columns 17 to 19 hold `map[28]`, and every column `c` from 3 to 16 holds
`map[21 + (c - 3) / 2]`. -/
theorem applyMap_row2 (vc : VController) (kb : VControllerKeyboard) (map : KbMap) (c : Nat) :
    (c ≤ 2 → (kb.applyMap vc map).tableAt 2 c = map.read 20) ∧
    (17 ≤ c → c ≤ 19 → (kb.applyMap vc map).tableAt 2 c = map.read 28) ∧
    (3 ≤ c → c ≤ 16 → (kb.applyMap vc map).tableAt 2 c = map.read (21 + (c - 3) / 2)) := by
  refine ⟨?_, ?_, ?_⟩
  · intro h
    rw [tableAt_applyMap vc kb map 2 c (by omega) (by omega)]
    simp only [specKeyLayout]
    simp (disch := omega) only [if_neg, if_pos]
  · intro h1 h2
    rw [tableAt_applyMap vc kb map 2 c (by omega) (by omega)]
    simp only [specKeyLayout]
    simp (disch := omega) only [if_neg, if_pos]
  · intro h1 h2
    rw [tableAt_applyMap vc kb map 2 c (by omega) (by omega)]
    simp only [specKeyLayout]
    simp (disch := omega) only [if_neg, if_pos]
    congr 1
    omega

/-- Claim C8, at columns 1, 18 and 9 of a sample keyboard. -/
theorem applyMap_row2_witness :
    ((demoKeyboard VControllerKbMode.LAYOUT_1).applyMap demoVController demoMap).tableAt 2 1 =
      demoMap.read 20 ∧
    ((demoKeyboard VControllerKbMode.LAYOUT_1).applyMap demoVController demoMap).tableAt 2 18 =
      demoMap.read 28 ∧
    ((demoKeyboard VControllerKbMode.LAYOUT_1).applyMap demoVController demoMap).tableAt 2 9 =
      demoMap.read (21 + (9 - 3) / 2) :=
  ⟨(applyMap_row2 demoVController (demoKeyboard VControllerKbMode.LAYOUT_1) demoMap 1).1
      (by decide),
   (applyMap_row2 demoVController (demoKeyboard VControllerKbMode.LAYOUT_1) demoMap 18).2.1
      (by decide) (by decide),
   (applyMap_row2 demoVController (demoKeyboard VControllerKbMode.LAYOUT_1) demoMap 9).2.2
      (by decide) (by decide)⟩

/-- Claim C9: fourth row. For every key map and both modes, columns 0 to 2 hold
`TOGGLE_KEYBOARD`, columns 3 to 5 hold `CHANGE_KEYBOARD_MODE`, columns 6 to 13 hold
`map[33]`, columns 14 to 16 hold `map[37]` and columns 17 to 19 hold `map[39]`; and two
key maps that differ only in the entries 29 to 32, 34 to 36 and 38 give the same table. -/
theorem applyMap_row3 (vc : VController) (kb : VControllerKeyboard) (map : KbMap) :
    (∀ c, c ≤ 2 → (kb.applyMap vc map).tableAt 3 c = vc.TOGGLE_KEYBOARD) ∧
    (∀ c, 3 ≤ c → c ≤ 5 → (kb.applyMap vc map).tableAt 3 c = vc.CHANGE_KEYBOARD_MODE) ∧
    (∀ c, 6 ≤ c → c ≤ 13 → (kb.applyMap vc map).tableAt 3 c = map.read 33) ∧
    (∀ c, 14 ≤ c → c ≤ 16 → (kb.applyMap vc map).tableAt 3 c = map.read 37) ∧
    (∀ c, 17 ≤ c → c ≤ 19 → (kb.applyMap vc map).tableAt 3 c = map.read 39) ∧
    (∀ map2 : KbMap,
      (∀ k : Fin 40,
        ¬ ((29 ≤ k.val ∧ k.val ≤ 32) ∨ (34 ≤ k.val ∧ k.val ≤ 36) ∨ k.val = 38) →
          map2 k = map k) →
      (kb.applyMap vc map2).table = (kb.applyMap vc map).table) := by
  refine ⟨?_, ?_, ?_, ?_, ?_, ?_⟩
  · intro c h
    rw [tableAt_applyMap vc kb map 3 c (by omega) (by omega)]
    simp only [specKeyLayout]
    simp (disch := omega) only [if_neg, if_pos]
  · intro c h1 h2
    rw [tableAt_applyMap vc kb map 3 c (by omega) (by omega)]
    simp only [specKeyLayout]
    simp (disch := omega) only [if_neg, if_pos]
  · intro c h1 h2
    rw [tableAt_applyMap vc kb map 3 c (by omega) (by omega)]
    simp only [specKeyLayout]
    simp (disch := omega) only [if_neg, if_pos]
  · intro c h1 h2
    rw [tableAt_applyMap vc kb map 3 c (by omega) (by omega)]
    simp only [specKeyLayout]
    simp (disch := omega) only [if_neg, if_pos]
  · intro c h1 h2
    rw [tableAt_applyMap vc kb map 3 c (by omega) (by omega)]
    simp only [specKeyLayout]
    simp (disch := omega) only [if_neg, if_pos]
  · intro map2 h
    apply applyMap_table_congr
    intro i hi
    simp only [specKeyLayout]
    repeat' split
    all_goals
      first
      | (apply read_congr_of
          (fun k => ¬ ((29 ≤ k ∧ k ≤ 32) ∨ (34 ≤ k ∧ k ≤ 36) ∨ k = 38)) map map2 h <;> omega)
      | rfl

/-- Claim C9, on a sample keyboard: the two special keys at columns 1 and 4, and the same
table from a key map that differs in all the unused entries. -/
theorem applyMap_row3_witness :
    ((demoKeyboard VControllerKbMode.LAYOUT_2).applyMap demoVController demoMap).tableAt 3 1 =
      demoVController.TOGGLE_KEYBOARD ∧
    ((demoKeyboard VControllerKbMode.LAYOUT_2).applyMap demoVController demoMap).tableAt 3 4 =
      demoVController.CHANGE_KEYBOARD_MODE ∧
    ((demoKeyboard VControllerKbMode.LAYOUT_2).applyMap demoVController demoMap).tableAt 3 10 =
      demoMap.read 33 ∧
    ((demoKeyboard VControllerKbMode.LAYOUT_2).applyMap demoVController demoMapAlt).table =
      ((demoKeyboard VControllerKbMode.LAYOUT_2).applyMap demoVController demoMap).table :=
  ⟨(applyMap_row3 demoVController (demoKeyboard VControllerKbMode.LAYOUT_2) demoMap).1 1
      (by decide),
   (applyMap_row3 demoVController (demoKeyboard VControllerKbMode.LAYOUT_2) demoMap).2.1 4
      (by decide) (by decide),
   (applyMap_row3 demoVController (demoKeyboard VControllerKbMode.LAYOUT_2) demoMap).2.2.1 10
      (by decide) (by decide),
   (applyMap_row3 demoVController (demoKeyboard VControllerKbMode.LAYOUT_2)
      demoMap).2.2.2.2.2 demoMapAlt (fun k hk => if_neg hk)⟩

end EmuEx

/-! ## Lemmas: the 2600 key codes -/

namespace A2600

theorem vcsKeyIdxUp_eq (start : Nat) : vcsKeyIdxUp start = start := rfl

theorem vcsKeyIdxRight_eq (start : Nat) : vcsKeyIdxRight start = start + 1 := by
  unfold vcsKeyIdxRight
  rw [vcsKeyIdxUp_eq]

theorem vcsKeyIdxDown_eq (start : Nat) : vcsKeyIdxDown start = start + 2 := by
  unfold vcsKeyIdxDown
  rw [vcsKeyIdxRight_eq]

theorem vcsKeyIdxLeft_eq (start : Nat) : vcsKeyIdxLeft start = start + 3 := by
  unfold vcsKeyIdxLeft
  rw [vcsKeyIdxDown_eq]

theorem vcsKeyIdxLeftUp_eq (start : Nat) : vcsKeyIdxLeftUp start = start + 4 := by
  unfold vcsKeyIdxLeftUp
  rw [vcsKeyIdxLeft_eq]

theorem vcsKeyIdxRightUp_eq (start : Nat) : vcsKeyIdxRightUp start = start + 5 := by
  unfold vcsKeyIdxRightUp
  rw [vcsKeyIdxLeftUp_eq]

theorem vcsKeyIdxRightDown_eq (start : Nat) : vcsKeyIdxRightDown start = start + 6 := by
  unfold vcsKeyIdxRightDown
  rw [vcsKeyIdxRightUp_eq]

theorem vcsKeyIdxLeftDown_eq (start : Nat) : vcsKeyIdxLeftDown start = start + 7 := by
  unfold vcsKeyIdxLeftDown
  rw [vcsKeyIdxRightDown_eq]

theorem vcsKeyIdxJSBtn_eq (start : Nat) : vcsKeyIdxJSBtn start = start + 8 := by
  unfold vcsKeyIdxJSBtn
  rw [vcsKeyIdxLeftDown_eq]

theorem vcsKeyIdxJSBtnTurbo_eq (start : Nat) : vcsKeyIdxJSBtnTurbo start = start + 9 := by
  unfold vcsKeyIdxJSBtnTurbo
  rw [vcsKeyIdxJSBtn_eq]

theorem vcsKeyIdxJSBtnAlt_eq (start : Nat) : vcsKeyIdxJSBtnAlt start = start + 10 := by
  unfold vcsKeyIdxJSBtnAlt
  rw [vcsKeyIdxJSBtnTurbo_eq]

theorem vcsKeyIdxJSBtnAltTurbo_eq (start : Nat) : vcsKeyIdxJSBtnAltTurbo start = start + 11 := by
  unfold vcsKeyIdxJSBtnAltTurbo
  rw [vcsKeyIdxJSBtnAlt_eq]

theorem vcsKeyIdxUp2_eq (start : Nat) : vcsKeyIdxUp2 start = start + 12 := by
  unfold vcsKeyIdxUp2
  rw [vcsKeyIdxJSBtnAltTurbo_eq]

theorem vcsKeyIdxRight2_eq (start : Nat) : vcsKeyIdxRight2 start = start + 13 := by
  unfold vcsKeyIdxRight2
  rw [vcsKeyIdxUp2_eq]

theorem vcsKeyIdxDown2_eq (start : Nat) : vcsKeyIdxDown2 start = start + 14 := by
  unfold vcsKeyIdxDown2
  rw [vcsKeyIdxRight2_eq]

theorem vcsKeyIdxLeft2_eq (start : Nat) : vcsKeyIdxLeft2 start = start + 15 := by
  unfold vcsKeyIdxLeft2
  rw [vcsKeyIdxDown2_eq]

theorem vcsKeyIdxLeftUp2_eq (start : Nat) : vcsKeyIdxLeftUp2 start = start + 16 := by
  unfold vcsKeyIdxLeftUp2
  rw [vcsKeyIdxLeft2_eq]

theorem vcsKeyIdxRightUp2_eq (start : Nat) : vcsKeyIdxRightUp2 start = start + 17 := by
  unfold vcsKeyIdxRightUp2
  rw [vcsKeyIdxLeftUp2_eq]

theorem vcsKeyIdxRightDown2_eq (start : Nat) : vcsKeyIdxRightDown2 start = start + 18 := by
  unfold vcsKeyIdxRightDown2
  rw [vcsKeyIdxRightUp2_eq]

theorem vcsKeyIdxLeftDown2_eq (start : Nat) : vcsKeyIdxLeftDown2 start = start + 19 := by
  unfold vcsKeyIdxLeftDown2
  rw [vcsKeyIdxRightDown2_eq]

theorem vcsKeyIdxJSBtn2_eq (start : Nat) : vcsKeyIdxJSBtn2 start = start + 20 := by
  unfold vcsKeyIdxJSBtn2
  rw [vcsKeyIdxLeftDown2_eq]

theorem vcsKeyIdxJSBtnTurbo2_eq (start : Nat) : vcsKeyIdxJSBtnTurbo2 start = start + 21 := by
  unfold vcsKeyIdxJSBtnTurbo2
  rw [vcsKeyIdxJSBtn2_eq]

theorem vcsKeyIdxJSBtnAlt2_eq (start : Nat) : vcsKeyIdxJSBtnAlt2 start = start + 22 := by
  unfold vcsKeyIdxJSBtnAlt2
  rw [vcsKeyIdxJSBtnTurbo2_eq]

theorem vcsKeyIdxJSBtnAltTurbo2_eq (start : Nat) : vcsKeyIdxJSBtnAltTurbo2 start = start + 23 := by
  unfold vcsKeyIdxJSBtnAltTurbo2
  rw [vcsKeyIdxJSBtnAlt2_eq]

theorem vcsKeyIdxSelect_eq (start : Nat) : vcsKeyIdxSelect start = start + 24 := by
  unfold vcsKeyIdxSelect
  rw [vcsKeyIdxJSBtnAltTurbo2_eq]

theorem vcsKeyIdxReset_eq (start : Nat) : vcsKeyIdxReset start = start + 25 := by
  unfold vcsKeyIdxReset
  rw [vcsKeyIdxSelect_eq]

theorem vcsKeyIdxP1Diff_eq (start : Nat) : vcsKeyIdxP1Diff start = start + 26 := by
  unfold vcsKeyIdxP1Diff
  rw [vcsKeyIdxReset_eq]

theorem vcsKeyIdxP2Diff_eq (start : Nat) : vcsKeyIdxP2Diff start = start + 27 := by
  unfold vcsKeyIdxP2Diff
  rw [vcsKeyIdxP1Diff_eq]

theorem vcsKeyIdxColorBW_eq (start : Nat) : vcsKeyIdxColorBW start = start + 28 := by
  unfold vcsKeyIdxColorBW
  rw [vcsKeyIdxP2Diff_eq]

theorem vcsKeyIdxKeyboard1Base_eq (start : Nat) : vcsKeyIdxKeyboard1Base start = start + 29 := by
  unfold vcsKeyIdxKeyboard1Base
  rw [vcsKeyIdxColorBW_eq]

theorem vcsKeyIdxKeyboard2Base_eq (start : Nat) : vcsKeyIdxKeyboard2Base start = start + 41 := by
  unfold vcsKeyIdxKeyboard2Base
  rw [vcsKeyIdxKeyboard1Base_eq]


theorem translateKey_isSome (E : Event) (start : Nat) (sys : A2600System) (k : Nat) :
    (sys.translateKey E start k).isSome = true ↔ (start ≤ k ∧ k ≤ start + 52) := by
  unfold A2600System.translateKey
  rw [vcsKeyIdxUp_eq, vcsKeyIdxRight_eq, vcsKeyIdxDown_eq, vcsKeyIdxLeft_eq, vcsKeyIdxLeftUp_eq,
    vcsKeyIdxRightUp_eq, vcsKeyIdxRightDown_eq, vcsKeyIdxLeftDown_eq, vcsKeyIdxJSBtn_eq,
    vcsKeyIdxJSBtnTurbo_eq, vcsKeyIdxJSBtnAlt_eq, vcsKeyIdxJSBtnAltTurbo_eq, vcsKeyIdxUp2_eq,
    vcsKeyIdxRight2_eq, vcsKeyIdxDown2_eq, vcsKeyIdxLeft2_eq, vcsKeyIdxLeftUp2_eq,
    vcsKeyIdxRightUp2_eq, vcsKeyIdxRightDown2_eq, vcsKeyIdxLeftDown2_eq, vcsKeyIdxJSBtn2_eq,
    vcsKeyIdxJSBtnTurbo2_eq, vcsKeyIdxJSBtnAlt2_eq, vcsKeyIdxJSBtnAltTurbo2_eq,
    vcsKeyIdxSelect_eq, vcsKeyIdxReset_eq, vcsKeyIdxP1Diff_eq, vcsKeyIdxP2Diff_eq,
    vcsKeyIdxColorBW_eq, vcsKeyIdxKeyboard1Base_eq, vcsKeyIdxKeyboard2Base_eq]
  by_cases h : start ≤ k ∧ k ≤ start + 52
  · obtain ⟨n, rfl⟩ := Nat.exists_eq_add_of_le h.1
    have hn : n ≤ 52 := by omega
    interval_cases n <;> simp
  · have hk : k < start ∨ start + 52 < k := by omega
    rw [if_neg (show ¬ (k = start) by omega)]
    rw [if_neg (show ¬ (k = start + 1) by omega)]
    rw [if_neg (show ¬ (k = start + 2) by omega)]
    rw [if_neg (show ¬ (k = start + 3) by omega)]
    rw [if_neg (show ¬ (k = start + 4) by omega)]
    rw [if_neg (show ¬ (k = start + 5) by omega)]
    rw [if_neg (show ¬ (k = start + 6) by omega)]
    rw [if_neg (show ¬ (k = start + 7) by omega)]
    rw [if_neg (show ¬ (k = start + 9) by omega)]
    rw [if_neg (show ¬ (k = start + 8) by omega)]
    rw [if_neg (show ¬ (k = start + 11) by omega)]
    rw [if_neg (show ¬ (k = start + 10) by omega)]
    rw [if_neg (show ¬ (k = start + 12) by omega)]
    rw [if_neg (show ¬ (k = start + 13) by omega)]
    rw [if_neg (show ¬ (k = start + 14) by omega)]
    rw [if_neg (show ¬ (k = start + 15) by omega)]
    rw [if_neg (show ¬ (k = start + 16) by omega)]
    rw [if_neg (show ¬ (k = start + 17) by omega)]
    rw [if_neg (show ¬ (k = start + 18) by omega)]
    rw [if_neg (show ¬ (k = start + 19) by omega)]
    rw [if_neg (show ¬ (k = start + 21) by omega)]
    rw [if_neg (show ¬ (k = start + 20) by omega)]
    rw [if_neg (show ¬ (k = start + 23) by omega)]
    rw [if_neg (show ¬ (k = start + 22) by omega)]
    rw [if_neg (show ¬ (k = start + 24) by omega)]
    rw [if_neg (show ¬ (k = start + 26) by omega)]
    rw [if_neg (show ¬ (k = start + 27) by omega)]
    rw [if_neg (show ¬ (k = start + 28) by omega)]
    rw [if_neg (show ¬ (k = start + 25) by omega)]
    rw [if_neg (show ¬ (start + 29 ≤ k ∧ k ≤ start + 29 + 11) by omega)]
    rw [if_neg (show ¬ (start + 41 ≤ k ∧ k ≤ start + 41 + 11) by omega)]
    simp [h]

theorem translateInputAction_isSome (E : Event) (start : Nat) (sys : A2600System)
    (action : InputAction) :
    (sys.translateInputAction E start action).isSome =
      (sys.translateKey E start action.key).isSome := by
  have hk : (if (!isJoystickButton start action.key) = true then action.setTurboFlag false
      else action).key = action.key := by
    split_ifs <;> rfl
  unfold A2600System.translateInputAction
  simp only [hk]
  cases sys.translateKey E start action.key with
  | none => rfl
  | some r => rfl

end A2600

/-! ## 2600.emu: the claim about the keys `translateInputAction` accepts -/

namespace A2600

/-- Claim C10: `translateInputAction` returns an action exactly for the keys `k` with
`vcsKeyIdxUp <= k <= vcsKeyIdxKeyboard2Base + 11`, for every other key it reaches
`bug_unreachable("invalid key")`, and that range holds 53 key codes (its last code is
`vcsKeyIdxUp + 52`). -/
theorem translateInputAction_defined (E : Event) (start : Nat) (sys : A2600System)
    (action : InputAction) :
    ((sys.translateInputAction E start action).isSome = true ↔
      (vcsKeyIdxUp start ≤ action.key ∧ action.key ≤ vcsKeyIdxKeyboard2Base start + 11)) ∧
    (sys.translateInputAction E start action = none ↔
      ¬ (vcsKeyIdxUp start ≤ action.key ∧ action.key ≤ vcsKeyIdxKeyboard2Base start + 11)) ∧
    vcsKeyIdxKeyboard2Base start + 11 = vcsKeyIdxUp start + 52 := by
  have h1 : (sys.translateInputAction E start action).isSome = true ↔
      (vcsKeyIdxUp start ≤ action.key ∧ action.key ≤ vcsKeyIdxKeyboard2Base start + 11) := by
    rw [translateInputAction_isSome, translateKey_isSome, vcsKeyIdxUp_eq,
      vcsKeyIdxKeyboard2Base_eq]
  refine ⟨h1, ?_, ?_⟩
  · rw [← h1]
    cases sys.translateInputAction E start action <;> simp
  · rw [vcsKeyIdxUp_eq, vcsKeyIdxKeyboard2Base_eq]

end A2600

/-! ## Lemmas: translated keys and handled actions -/
namespace A2600

theorem translateKey_shift (E : Event) (start : Nat) (sys : A2600System) (n : Nat) :
    sys.translateKey E start (start + n) = sys.translateKey E 0 n := by
  unfold A2600System.translateKey
  rw [vcsKeyIdxUp_eq, vcsKeyIdxRight_eq, vcsKeyIdxDown_eq, vcsKeyIdxLeft_eq, vcsKeyIdxLeftUp_eq,
    vcsKeyIdxRightUp_eq, vcsKeyIdxRightDown_eq, vcsKeyIdxLeftDown_eq, vcsKeyIdxJSBtn_eq,
    vcsKeyIdxJSBtnTurbo_eq, vcsKeyIdxJSBtnAlt_eq, vcsKeyIdxJSBtnAltTurbo_eq, vcsKeyIdxUp2_eq,
    vcsKeyIdxRight2_eq, vcsKeyIdxDown2_eq, vcsKeyIdxLeft2_eq, vcsKeyIdxLeftUp2_eq,
    vcsKeyIdxRightUp2_eq, vcsKeyIdxRightDown2_eq, vcsKeyIdxLeftDown2_eq, vcsKeyIdxJSBtn2_eq,
    vcsKeyIdxJSBtnTurbo2_eq, vcsKeyIdxJSBtnAlt2_eq, vcsKeyIdxJSBtnAltTurbo2_eq,
    vcsKeyIdxSelect_eq, vcsKeyIdxReset_eq, vcsKeyIdxP1Diff_eq, vcsKeyIdxP2Diff_eq,
    vcsKeyIdxColorBW_eq, vcsKeyIdxKeyboard1Base_eq, vcsKeyIdxKeyboard2Base_eq]
  rw [vcsKeyIdxUp_eq, vcsKeyIdxRight_eq, vcsKeyIdxDown_eq, vcsKeyIdxLeft_eq, vcsKeyIdxLeftUp_eq,
    vcsKeyIdxRightUp_eq, vcsKeyIdxRightDown_eq, vcsKeyIdxLeftDown_eq, vcsKeyIdxJSBtn_eq,
    vcsKeyIdxJSBtnTurbo_eq, vcsKeyIdxJSBtnAlt_eq, vcsKeyIdxJSBtnAltTurbo_eq, vcsKeyIdxUp2_eq,
    vcsKeyIdxRight2_eq, vcsKeyIdxDown2_eq, vcsKeyIdxLeft2_eq, vcsKeyIdxLeftUp2_eq,
    vcsKeyIdxRightUp2_eq, vcsKeyIdxRightDown2_eq, vcsKeyIdxLeftDown2_eq, vcsKeyIdxJSBtn2_eq,
    vcsKeyIdxJSBtnTurbo2_eq, vcsKeyIdxJSBtnAlt2_eq, vcsKeyIdxJSBtnAltTurbo2_eq,
    vcsKeyIdxSelect_eq, vcsKeyIdxReset_eq, vcsKeyIdxP1Diff_eq, vcsKeyIdxP2Diff_eq,
    vcsKeyIdxColorBW_eq, vcsKeyIdxKeyboard1Base_eq, vcsKeyIdxKeyboard2Base_eq]
  simp only [Nat.zero_add, Nat.add_left_cancel_iff, Nat.add_le_add_iff_left, Nat.add_assoc,
    Nat.add_sub_add_left, Nat.add_right_eq_self]


end A2600

namespace A2600

theorem isJoystickButton_shift (start n : Nat) :
    isJoystickButton start (start + n) = isJoystickButton 0 n := by
  unfold isJoystickButton
  rw [vcsKeyIdxJSBtn_eq, vcsKeyIdxJSBtnTurbo_eq, vcsKeyIdxJSBtnAlt_eq, vcsKeyIdxJSBtnAltTurbo_eq,
    vcsKeyIdxJSBtn2_eq, vcsKeyIdxJSBtnTurbo2_eq, vcsKeyIdxJSBtnAlt2_eq,
    vcsKeyIdxJSBtnAltTurbo2_eq]
  rw [vcsKeyIdxJSBtn_eq, vcsKeyIdxJSBtnTurbo_eq, vcsKeyIdxJSBtnAlt_eq, vcsKeyIdxJSBtnAltTurbo_eq,
    vcsKeyIdxJSBtn2_eq, vcsKeyIdxJSBtnTurbo2_eq, vcsKeyIdxJSBtnAlt2_eq,
    vcsKeyIdxJSBtnAltTurbo2_eq]
  simp only [Nat.zero_add, Nat.add_left_cancel_iff]

/-- The result of `translateInputAction` on the key `start + n`, from the `switch` at
offset `n`. -/
theorem translateInputAction_shift (E : Event) (start : Nat) (sys : A2600System)
    (a : InputAction) (n : Nat) (h : a.key = start + n) :
    sys.translateInputAction E start a =
      match sys.translateKey E 0 n with
      | none => none
      | some (key, turboSet) =>
        some { key := key, state := a.state,
               turbo := turboSet || (isJoystickButton 0 n && a.turbo) } := by
  have hk : (if (!isJoystickButton start a.key) = true then a.setTurboFlag false
      else a).key = a.key := by
    split_ifs <;> rfl
  unfold A2600System.translateInputAction
  simp only [hk]
  rw [h, translateKey_shift, isJoystickButton_shift]
  cases sys.translateKey E 0 n with
  | none => rfl
  | some r =>
    obtain ⟨key, ts⟩ := r
    cases hj : isJoystickButton 0 n <;> cases ts <;>
      simp [InputAction.setTurboFlag]

end A2600

namespace A2600

/-- Claim C11: the turbo flag of `translateInputAction`. For each of the four turbo keys
the returned action has the turbo flag set and the event code that the key's non-turbo
button gets, a non-turbo joystick button returns the turbo flag of the input action
unchanged, and every other valid key returns an action with the flag cleared. -/
theorem translateInputAction_turbo (E : Event) (start : Nat) (sys : A2600System)
    (a : InputAction) :
    (∀ p ∈ turboKeys start, a.key = p.1 →
      ∃ r, sys.translateInputAction E start a = some r ∧ r.turbo = true ∧
        ∀ b : InputAction, b.key = p.2 →
          ∃ rb, sys.translateInputAction E start b = some rb ∧ rb.key = r.key ∧
            rb.turbo = b.turbo) ∧
    (vcsKeyIdxUp start ≤ a.key ∧ a.key ≤ vcsKeyIdxKeyboard2Base start + 11 →
      isJoystickButton start a.key = false →
      ∃ r, sys.translateInputAction E start a = some r ∧ r.turbo = false) := by
  constructor
  · intro p hp hk
    simp only [turboKeys, List.mem_cons, List.mem_singleton, List.not_mem_nil, or_false] at hp
    rcases hp with rfl | rfl | rfl | rfl
    · rw [vcsKeyIdxJSBtnTurbo_eq] at hk
      rw [translateInputAction_shift E start sys a 9 hk]
      refine ⟨_, rfl, rfl, ?_⟩
      intro b hb
      rw [vcsKeyIdxJSBtn_eq] at hb
      rw [translateInputAction_shift E start sys b 8 hb]
      exact ⟨_, rfl, rfl, rfl⟩
    · rw [vcsKeyIdxJSBtnAltTurbo_eq] at hk
      rw [translateInputAction_shift E start sys a 11 hk]
      refine ⟨_, rfl, rfl, ?_⟩
      intro b hb
      rw [vcsKeyIdxJSBtnAlt_eq] at hb
      rw [translateInputAction_shift E start sys b 10 hb]
      exact ⟨_, rfl, rfl, rfl⟩
    · rw [vcsKeyIdxJSBtnTurbo2_eq] at hk
      rw [translateInputAction_shift E start sys a 21 hk]
      refine ⟨_, rfl, rfl, ?_⟩
      intro b hb
      rw [vcsKeyIdxJSBtn2_eq] at hb
      rw [translateInputAction_shift E start sys b 20 hb]
      exact ⟨_, rfl, rfl, rfl⟩
    · rw [vcsKeyIdxJSBtnAltTurbo2_eq] at hk
      rw [translateInputAction_shift E start sys a 23 hk]
      refine ⟨_, rfl, rfl, ?_⟩
      intro b hb
      rw [vcsKeyIdxJSBtnAlt2_eq] at hb
      rw [translateInputAction_shift E start sys b 22 hb]
      exact ⟨_, rfl, rfl, rfl⟩
  · intro hr hj
    rw [vcsKeyIdxUp_eq, vcsKeyIdxKeyboard2Base_eq] at hr
    obtain ⟨n, hn⟩ := Nat.exists_eq_add_of_le hr.1
    have hn52 : n ≤ 52 := by omega
    rw [hn, isJoystickButton_shift] at hj
    rw [translateInputAction_shift E start sys a n hn]
    interval_cases n <;>
      first
      | exact absurd hj (by decide)
      | exact ⟨_, rfl, rfl⟩

/-- Claim C11, on sample values: the turbo key of the first button with the flag off,
and the select key with the flag on. -/
theorem translateInputAction_turbo_witness :
    (∃ r, demoSystem.translateInputAction demoEvent demoStart
        { key := vcsKeyIdxJSBtnTurbo demoStart, state := Action.PUSHED, turbo := false } =
          some r ∧ r.turbo = true ∧
        ∀ b : InputAction, b.key = vcsKeyIdxJSBtn demoStart →
          ∃ rb, demoSystem.translateInputAction demoEvent demoStart b = some rb ∧
            rb.key = r.key ∧ rb.turbo = b.turbo) ∧
    (∃ r, demoSystem.translateInputAction demoEvent demoStart
        { key := vcsKeyIdxSelect demoStart, state := Action.PUSHED, turbo := true } =
          some r ∧ r.turbo = false) :=
  ⟨(translateInputAction_turbo demoEvent demoStart demoSystem
      { key := vcsKeyIdxJSBtnTurbo demoStart, state := Action.PUSHED, turbo := false }).1
      (vcsKeyIdxJSBtnTurbo demoStart, vcsKeyIdxJSBtn demoStart) (by simp [turboKeys]) rfl,
   (translateInputAction_turbo demoEvent demoStart demoSystem
      { key := vcsKeyIdxSelect demoStart, state := Action.PUSHED, turbo := true }).2
      (by decide) (by decide)⟩

end A2600

namespace A2600

theorem packed_eq (h v : Nat) (hh : h < 256) : h ||| (v <<< 8) = 256 * v + h := by
  rw [Nat.shiftLeft_eq, Nat.or_comm]
  have := Nat.mul_add_lt_is_or (i := 8) (b := h) (by simpa using hh) v
  simp only [Nat.reducePow] at this
  rw [this, Nat.mul_comm]

theorem and_255 (x : Nat) : x &&& 255 = x % 256 := by
  have := Nat.and_pow_two_sub_one_eq_mod x 8
  simpa using this

theorem packed_low (h v : Nat) (hh : h < 256) : (h ||| (v <<< 8)) &&& 255 = h := by
  rw [packed_eq h v hh, and_255]
  omega

theorem packed_high (h v : Nat) (hh : h < 256) : (h ||| (v <<< 8)) >>> 8 = v := by
  rw [packed_eq h v hh, Nat.shiftRight_eq_div_pow]
  simp only [Nat.reducePow]
  omega

theorem toUnsigned_of_lt (x : Nat) (hx : x < 2 ^ 32) : toUnsigned x = x := by
  unfold toUnsigned
  exact Nat.mod_eq_of_lt hx

theorem toUnsigned_packed (h v : Nat) (hh : h < 256) (hv : v < 256) :
    toUnsigned (h ||| (v <<< 8)) = h ||| (v <<< 8) := by
  apply toUnsigned_of_lt
  rw [packed_eq h v hh]
  omega

theorem isPlain_iff (E : Event) (e : Nat) :
    E.isPlain e = true ↔ (e ≠ 0 ∧ e < 256 ∧ e ≠ E.Combo1 ∧ e ≠ E.Combo2 ∧ e ≠ E.Combo3 ∧
      ¬ (E.LeftKeyboard1 ≤ e ∧ e ≤ E.RightKeyboardPound)) := by
  unfold Event.isPlain
  rw [decide_eq_true_iff]

/-- The `default` branch of `handleInputAction` with the events `event1` and `event2`
as the low byte and the rest of the key. -/
theorem handleInputAction_default (E : Event) (sys : A2600System) (r : InputAction)
    (e1 : Nat) (h1 : r.key &&& 255 = e1) (hp : E.isPlain e1 = true) :
    sys.handleInputAction E r =
      if r.key >>> 8 ≠ 0 then
        { sys with
          ev := eventSet (eventSet sys.ev e1 (boolValue (r.state == Action.PUSHED)))
                  (r.key >>> 8) (boolValue (r.state == Action.PUSHED)) }
      else { sys with ev := eventSet sys.ev e1 (boolValue (r.state == Action.PUSHED)) } := by
  obtain ⟨-, -, c1, c2, c3, ck⟩ := (isPlain_iff E e1).1 hp
  unfold A2600System.handleInputAction
  simp only [h1, if_neg c1, if_neg c2, if_neg c3, if_neg ck]

theorem handleInputAction_packed (E : Event) (sys : A2600System) (r : InputAction)
    (h v : Nat) (hk : r.key = h ||| (v <<< 8)) (hp : E.isPlain h = true) (hv : v ≠ 0) :
    sys.handleInputAction E r =
      { sys with
        ev := eventSet (eventSet sys.ev h (boolValue (r.state == Action.PUSHED))) v
                (boolValue (r.state == Action.PUSHED)) } := by
  have hh : h < 256 := ((isPlain_iff E h).1 hp).2.1
  rw [handleInputAction_default E sys r h (by rw [hk]; exact packed_low h v hh) hp,
    hk, packed_high h v hh, if_pos hv]

theorem handleInputAction_single (E : Event) (sys : A2600System) (r : InputAction)
    (e : Nat) (hk : r.key = e) (hp : E.isPlain e = true) :
    sys.handleInputAction E r =
      { sys with ev := eventSet sys.ev e (boolValue (r.state == Action.PUSHED)) } := by
  have hh : e < 256 := ((isPlain_iff E e).1 hp).2.1
  have hlow : r.key &&& 255 = e := by rw [hk, and_255]; omega
  have hhigh : r.key >>> 8 = 0 := by
    rw [hk, Nat.shiftRight_eq_div_pow]; simp only [Nat.reducePow]; omega
  rw [handleInputAction_default E sys r e hlow hp, hhigh]
  simp

end A2600

namespace A2600

theorem diagonal_step (E : Event) (start : Nat) (sys : A2600System) (a : InputAction)
    (n h v : Nat) (hk : a.key = start + n)
    (ht : sys.translateKey E 0 n = some (toUnsigned (h ||| (v <<< 8)), false))
    (hp : E.isPlain h = true) (hv0 : v ≠ 0) (hv : v < 256) :
    ∃ r, sys.translateInputAction E start a = some r ∧
      r.key = h ||| (v <<< 8) ∧ r.state = a.state ∧
      r.key &&& 0xFF = h ∧ r.key >>> 8 = v ∧
      sys.handleInputAction E r =
        { sys with
          ev := eventSet (eventSet sys.ev h (boolValue (a.state == Action.PUSHED))) v
                  (boolValue (a.state == Action.PUSHED)) } := by
  have hh : h < 256 := ((isPlain_iff E h).1 hp).2.1
  rw [translateInputAction_shift E start sys a n hk, ht, toUnsigned_packed h v hh hv]
  refine ⟨_, rfl, rfl, rfl, packed_low h v hh, packed_high h v hh, ?_⟩
  exact handleInputAction_packed E sys _ h v rfl hp hv0

theorem plain_step (E : Event) (start : Nat) (sys : A2600System) (a : InputAction)
    (n e : Nat) (ts : Bool) (hk : a.key = start + n)
    (ht : sys.translateKey E 0 n = some (toUnsigned e, ts)) (hp : E.isPlain e = true) :
    ∃ r, sys.translateInputAction E start a = some r ∧ r.key = e ∧ r.state = a.state ∧
      r.key >>> 8 = 0 ∧
      sys.handleInputAction E r =
        { sys with ev := eventSet sys.ev e (boolValue (a.state == Action.PUSHED)) } := by
  have hh : e < 256 := ((isPlain_iff E e).1 hp).2.1
  rw [translateInputAction_shift E start sys a n hk, ht, toUnsigned_of_lt e (by omega)]
  refine ⟨_, rfl, rfl, rfl, ?_, ?_⟩
  · show e >>> 8 = 0
    rw [Nat.shiftRight_eq_div_pow]; simp only [Nat.reducePow]; omega
  · exact handleInputAction_single E sys _ e rfl hp

end A2600

/-! ## 2600.emu: the claims about the translated actions -/

namespace A2600

/-- Claim C12: diagonals round-trip through the packed key. For each of the eight
diagonal keys, with horizontal event `h` and vertical event `v` (`h` a non-zero code below
256 that is no combo and no keyboard event, `v` non-zero and below 256),
`translateInputAction` returns the key `h | (v << 8)`, whose low byte is `h` and whose
rest is `v`, and `handleInputAction` on that action sets exactly the events `h` and `v`
to the pushed state. For a joystick key that is no diagonal the rest of the translated
key is zero and `handleInputAction` sets the one event of the key only. -/
theorem diagonal_round_trip (E : Event) (start : Nat) (sys : A2600System) (a : InputAction) :
    (∀ d ∈ diagonalKeys E start, a.key = d.1 → E.isPlain d.2.1 = true → d.2.2 ≠ 0 →
      d.2.2 < 256 →
      ∃ r, sys.translateInputAction E start a = some r ∧
        r.key = d.2.1 ||| (d.2.2 <<< 8) ∧ r.state = a.state ∧
        r.key &&& 0xFF = d.2.1 ∧ r.key >>> 8 = d.2.2 ∧
        sys.handleInputAction E r =
          { sys with
            ev := eventSet (eventSet sys.ev d.2.1 (boolValue (a.state == Action.PUSHED)))
                    d.2.2 (boolValue (a.state == Action.PUSHED)) }) ∧
    (∀ k ∈ plainJoystickKeys E start sys, a.key = k.1 → E.isPlain k.2 = true →
      ∃ r, sys.translateInputAction E start a = some r ∧ r.key = k.2 ∧ r.state = a.state ∧
        r.key >>> 8 = 0 ∧
        sys.handleInputAction E r =
          { sys with ev := eventSet sys.ev k.2 (boolValue (a.state == Action.PUSHED)) }) := by
  constructor
  · intro d hd hk hp hv0 hv
    simp only [diagonalKeys, List.mem_cons, List.mem_singleton, List.not_mem_nil,
      or_false] at hd
    rcases hd with rfl | rfl | rfl | rfl | rfl | rfl | rfl | rfl
    · rw [vcsKeyIdxLeftUp_eq] at hk
      exact diagonal_step E start sys a 4 _ _ hk rfl hp hv0 hv
    · rw [vcsKeyIdxRightUp_eq] at hk
      exact diagonal_step E start sys a 5 _ _ hk rfl hp hv0 hv
    · rw [vcsKeyIdxRightDown_eq] at hk
      exact diagonal_step E start sys a 6 _ _ hk rfl hp hv0 hv
    · rw [vcsKeyIdxLeftDown_eq] at hk
      exact diagonal_step E start sys a 7 _ _ hk rfl hp hv0 hv
    · rw [vcsKeyIdxLeftUp2_eq] at hk
      exact diagonal_step E start sys a 16 _ _ hk rfl hp hv0 hv
    · rw [vcsKeyIdxRightUp2_eq] at hk
      exact diagonal_step E start sys a 17 _ _ hk rfl hp hv0 hv
    · rw [vcsKeyIdxRightDown2_eq] at hk
      exact diagonal_step E start sys a 18 _ _ hk rfl hp hv0 hv
    · rw [vcsKeyIdxLeftDown2_eq] at hk
      exact diagonal_step E start sys a 19 _ _ hk rfl hp hv0 hv
  · intro k hmem hk hp
    simp only [plainJoystickKeys, List.mem_cons, List.mem_singleton, List.not_mem_nil,
      or_false] at hmem
    rcases hmem with rfl | rfl | rfl | rfl | rfl | rfl | rfl | rfl | rfl | rfl | rfl | rfl |
      rfl | rfl | rfl | rfl
    · rw [vcsKeyIdxUp_eq] at hk
      exact plain_step E start sys a 0 _ _ hk rfl hp
    · rw [vcsKeyIdxRight_eq] at hk
      exact plain_step E start sys a 1 _ _ hk rfl hp
    · rw [vcsKeyIdxDown_eq] at hk
      exact plain_step E start sys a 2 _ _ hk rfl hp
    · rw [vcsKeyIdxLeft_eq] at hk
      exact plain_step E start sys a 3 _ _ hk rfl hp
    · rw [vcsKeyIdxJSBtn_eq] at hk
      exact plain_step E start sys a 8 _ _ hk rfl hp
    · rw [vcsKeyIdxJSBtnTurbo_eq] at hk
      exact plain_step E start sys a 9 _ _ hk rfl hp
    · rw [vcsKeyIdxJSBtnAlt_eq] at hk
      exact plain_step E start sys a 10 _ _ hk rfl hp
    · rw [vcsKeyIdxJSBtnAltTurbo_eq] at hk
      exact plain_step E start sys a 11 _ _ hk rfl hp
    · rw [vcsKeyIdxUp2_eq] at hk
      exact plain_step E start sys a 12 _ _ hk rfl hp
    · rw [vcsKeyIdxRight2_eq] at hk
      exact plain_step E start sys a 13 _ _ hk rfl hp
    · rw [vcsKeyIdxDown2_eq] at hk
      exact plain_step E start sys a 14 _ _ hk rfl hp
    · rw [vcsKeyIdxLeft2_eq] at hk
      exact plain_step E start sys a 15 _ _ hk rfl hp
    · rw [vcsKeyIdxJSBtn2_eq] at hk
      exact plain_step E start sys a 20 _ _ hk rfl hp
    · rw [vcsKeyIdxJSBtnTurbo2_eq] at hk
      exact plain_step E start sys a 21 _ _ hk rfl hp
    · rw [vcsKeyIdxJSBtnAlt2_eq] at hk
      exact plain_step E start sys a 22 _ _ hk rfl hp
    · rw [vcsKeyIdxJSBtnAltTurbo2_eq] at hk
      exact plain_step E start sys a 23 _ _ hk rfl hp

/-- Claim C12, on sample values: the key left-up of player 1, pushed, sets the events 15
and 13; the key up of player 1 sets the event 13 only. -/
theorem diagonal_round_trip_witness :
    (∃ r, demoSystem.translateInputAction demoEvent demoStart
        { key := vcsKeyIdxLeftUp demoStart, state := Action.PUSHED, turbo := false } = some r ∧
      r.key = 15 ||| (13 <<< 8) ∧ r.state = Action.PUSHED ∧
      r.key &&& 0xFF = 15 ∧ r.key >>> 8 = 13 ∧
      demoSystem.handleInputAction demoEvent r =
        { demoSystem with
          ev := eventSet (eventSet demoSystem.ev 15 (boolValue (Action.PUSHED == Action.PUSHED)))
                  13 (boolValue (Action.PUSHED == Action.PUSHED)) }) ∧
    (∃ r, demoSystem.translateInputAction demoEvent demoStart
        { key := vcsKeyIdxUp demoStart, state := Action.PUSHED, turbo := false } = some r ∧
      r.key = 13 ∧ r.state = Action.PUSHED ∧ r.key >>> 8 = 0 ∧
      demoSystem.handleInputAction demoEvent r =
        { demoSystem with
          ev := eventSet demoSystem.ev 13 (boolValue (Action.PUSHED == Action.PUSHED)) }) :=
  ⟨(diagonal_round_trip demoEvent demoStart demoSystem
      { key := vcsKeyIdxLeftUp demoStart, state := Action.PUSHED, turbo := false }).1
      (vcsKeyIdxLeftUp demoStart, 15, 13) (by simp [diagonalKeys, demoEvent]) rfl
      (by decide) (by decide) (by decide),
   (diagonal_round_trip demoEvent demoStart demoSystem
      { key := vcsKeyIdxUp demoStart, state := Action.PUSHED, turbo := false }).2
      (vcsKeyIdxUp demoStart, 13) (by simp [plainJoystickKeys, demoEvent]) rfl (by decide)⟩

end A2600

namespace A2600

theorem low_byte_of_lt (e : Nat) (h : e < 256) : e &&& 255 = e := by
  rw [and_255]; omega

/-- Claim C13: console switch toggles. With the three combo events below 256 and
pairwise different, the keys `vcsKeyIdxP1Diff`, `vcsKeyIdxP2Diff` and `vcsKeyIdxColorBW`
translate to `Combo1`, `Combo2` and `Combo3`; handling the translated action in the
state `PUSHED` flips the one switch `p1DiffB`, `p2DiffB` or `vcsColor`, sets its two
console events to the new value and its negation and leaves everything else as it was;
in any other state it changes nothing; two pushes restore the switch. -/
theorem console_switch_toggles (E : Event) (start : Nat) (sys : A2600System) (a : InputAction)
    (hlt : E.Combo1 < 256 ∧ E.Combo2 < 256 ∧ E.Combo3 < 256)
    (hne : E.Combo1 ≠ E.Combo2 ∧ E.Combo1 ≠ E.Combo3 ∧ E.Combo2 ≠ E.Combo3) :
    (a.key = vcsKeyIdxP1Diff start →
      ∃ r, sys.translateInputAction E start a = some r ∧ r.key = E.Combo1 ∧
        r.state = a.state ∧
        (a.state = Action.PUSHED →
          sys.handleInputAction E r =
            { sys with
              p1DiffB := !sys.p1DiffB
              ev := eventSet (eventSet sys.ev E.ConsoleLeftDiffB (boolValue (!sys.p1DiffB)))
                      E.ConsoleLeftDiffA (boolValue sys.p1DiffB) } ∧
          ((sys.handleInputAction E r).handleInputAction E r).p1DiffB = sys.p1DiffB) ∧
        (a.state ≠ Action.PUSHED → sys.handleInputAction E r = sys)) ∧
    (a.key = vcsKeyIdxP2Diff start →
      ∃ r, sys.translateInputAction E start a = some r ∧ r.key = E.Combo2 ∧
        r.state = a.state ∧
        (a.state = Action.PUSHED →
          sys.handleInputAction E r =
            { sys with
              p2DiffB := !sys.p2DiffB
              ev := eventSet (eventSet sys.ev E.ConsoleRightDiffB (boolValue (!sys.p2DiffB)))
                      E.ConsoleRightDiffA (boolValue sys.p2DiffB) } ∧
          ((sys.handleInputAction E r).handleInputAction E r).p2DiffB = sys.p2DiffB) ∧
        (a.state ≠ Action.PUSHED → sys.handleInputAction E r = sys)) ∧
    (a.key = vcsKeyIdxColorBW start →
      ∃ r, sys.translateInputAction E start a = some r ∧ r.key = E.Combo3 ∧
        r.state = a.state ∧
        (a.state = Action.PUSHED →
          sys.handleInputAction E r =
            { sys with
              vcsColor := !sys.vcsColor
              ev := eventSet (eventSet sys.ev E.ConsoleColor (boolValue (!sys.vcsColor)))
                      E.ConsoleBlackWhite (boolValue sys.vcsColor) } ∧
          ((sys.handleInputAction E r).handleInputAction E r).vcsColor = sys.vcsColor) ∧
        (a.state ≠ Action.PUSHED → sys.handleInputAction E r = sys)) := by
  obtain ⟨l1, l2, l3⟩ := hlt
  obtain ⟨n12, n13, n23⟩ := hne
  refine ⟨?_, ?_, ?_⟩
  · intro hk
    rw [vcsKeyIdxP1Diff_eq] at hk
    rw [translateInputAction_shift E start sys a 26 hk]
    refine ⟨_, rfl, toUnsigned_of_lt _ (by omega), rfl, ?_, ?_⟩
    · intro hs
      simp only [A2600System.handleInputAction, toUnsigned_of_lt E.Combo1 (by omega),
        low_byte_of_lt _ l1, hs]
      simp
    · intro hs
      simp only [A2600System.handleInputAction, toUnsigned_of_lt E.Combo1 (by omega),
        low_byte_of_lt _ l1]
      simp [hs]
  · intro hk
    rw [vcsKeyIdxP2Diff_eq] at hk
    rw [translateInputAction_shift E start sys a 27 hk]
    refine ⟨_, rfl, toUnsigned_of_lt _ (by omega), rfl, ?_, ?_⟩
    · intro hs
      simp only [A2600System.handleInputAction, toUnsigned_of_lt E.Combo2 (by omega),
        low_byte_of_lt _ l2, hs, if_neg (Ne.symm n12)]
      simp
    · intro hs
      simp only [A2600System.handleInputAction, toUnsigned_of_lt E.Combo2 (by omega),
        low_byte_of_lt _ l2, if_neg (Ne.symm n12)]
      simp [hs]
  · intro hk
    rw [vcsKeyIdxColorBW_eq] at hk
    rw [translateInputAction_shift E start sys a 28 hk]
    refine ⟨_, rfl, toUnsigned_of_lt _ (by omega), rfl, ?_, ?_⟩
    · intro hs
      simp only [A2600System.handleInputAction, toUnsigned_of_lt E.Combo3 (by omega),
        low_byte_of_lt _ l3, hs, if_neg (Ne.symm n13), if_neg (Ne.symm n23)]
      simp
    · intro hs
      simp only [A2600System.handleInputAction, toUnsigned_of_lt E.Combo3 (by omega),
        low_byte_of_lt _ l3, if_neg (Ne.symm n13), if_neg (Ne.symm n23)]
      simp [hs]

/-- Claim C13, on sample values: the key P1 difficulty, pushed, on a system with
`p1DiffB = true`. -/
theorem console_switch_toggles_witness :
    (demoEvent.Combo1 < 256 ∧ demoEvent.Combo2 < 256 ∧ demoEvent.Combo3 < 256) ∧
    (demoEvent.Combo1 ≠ demoEvent.Combo2 ∧ demoEvent.Combo1 ≠ demoEvent.Combo3 ∧
      demoEvent.Combo2 ≠ demoEvent.Combo3) ∧
    ∃ r, demoSystem.translateInputAction demoEvent demoStart
        { key := vcsKeyIdxP1Diff demoStart, state := Action.PUSHED, turbo := false } = some r ∧
      r.key = demoEvent.Combo1 ∧ r.state = Action.PUSHED ∧
      (Action.PUSHED = Action.PUSHED →
        demoSystem.handleInputAction demoEvent r =
          { demoSystem with
            p1DiffB := !demoSystem.p1DiffB
            ev := eventSet
                    (eventSet demoSystem.ev demoEvent.ConsoleLeftDiffB
                      (boolValue (!demoSystem.p1DiffB)))
                    demoEvent.ConsoleLeftDiffA (boolValue demoSystem.p1DiffB) } ∧
        ((demoSystem.handleInputAction demoEvent r).handleInputAction demoEvent r).p1DiffB =
          demoSystem.p1DiffB) ∧
      (Action.PUSHED ≠ Action.PUSHED → demoSystem.handleInputAction demoEvent r = demoSystem) :=
  ⟨by decide, by decide,
   (console_switch_toggles demoEvent demoStart demoSystem
      { key := vcsKeyIdxP1Diff demoStart, state := Action.PUSHED, turbo := false }
      (by decide) (by decide)).1 rfl⟩

end A2600

namespace A2600


theorem translateKey_none_of_gt (E : Event) (sys : A2600System) (n : Nat) (h : 52 < n) :
    sys.translateKey E 0 n = none := by
  have := translateKey_isSome E 0 sys n
  cases hk : sys.translateKey E 0 n with
  | none => rfl
  | some r =>
    rw [hk] at this
    have h2 := this.1 rfl
    omega

/-- Every key that the `switch` returns is a code of `translatedCodes`, a keyboard code,
or two codes of `translatedCodes` packed. -/
theorem translateKey_codes (E : Event) (sys : A2600System) (n key : Nat) (ts : Bool)
    (h : sys.translateKey E 0 n = some (key, ts)) :
    (∃ c ∈ translatedCodes E sys, key = toUnsigned c) ∨
    (∃ i, i < 12 ∧ (key = toUnsigned (E.LeftKeyboard1 + i) ∨
      key = toUnsigned (E.RightKeyboard1 + i))) ∨
    (∃ c ∈ translatedCodes E sys, ∃ d ∈ translatedCodes E sys,
      key = toUnsigned (c ||| (d <<< 8))) := by
  by_cases hn : 52 < n
  · rw [translateKey_none_of_gt E sys n hn] at h
    cases h
  · have hn' : n ≤ 52 := by omega
    have h' : some (key, ts) = sys.translateKey E 0 n := h.symm
    interval_cases n <;>
      (change some (key, ts) = some (_, _) at h'
       injection h' with h'
       injection h' with hkey hts
       first
       | (refine Or.inl ⟨_, ?_, hkey⟩
          simp [translatedCodes]
          done)
       | (refine Or.inr (Or.inr ⟨_, ?_, _, ?_, hkey⟩)
          · simp [translatedCodes]
          · simp [translatedCodes])
       | exact Or.inr (Or.inl ⟨_, by decide, Or.inl hkey⟩)
       | exact Or.inr (Or.inl ⟨_, by decide, Or.inr hkey⟩))

end A2600

namespace A2600

theorem handleInputAction_maps (E : Event) (sys : A2600System) (r : InputAction) :
    (sys.handleInputAction E r).jsFireMap = sys.jsFireMap ∧
    (sys.handleInputAction E r).jsLeftMap = sys.jsLeftMap ∧
    (sys.handleInputAction E r).jsRightMap = sys.jsRightMap := by
  unfold A2600System.handleInputAction
  simp only
  split_ifs <;> exact ⟨rfl, rfl, rfl⟩

theorem clearInputBuffers_inStep (E : Event) (sys : A2600System)
    (hnd : E.switchEvents.Nodup) : (sys.clearInputBuffers E).switchesInStep E := by
  simp only [Event.switchEvents, List.nodup_cons, List.mem_cons, List.mem_singleton,
    List.not_mem_nil, not_or, or_false, List.nodup_nil, and_true, not_false_eq_true] at hnd
  obtain ⟨⟨a1, a2, a3, a4, a5⟩, ⟨b1, b2, b3, b4⟩, ⟨c1, c2, c3⟩, ⟨d1, d2⟩, e1⟩ := hnd
  unfold A2600System.switchesInStep A2600System.clearInputBuffers eventSet
  simp only [if_true, if_neg a1, if_neg a2, if_neg a3, if_neg a4, if_neg a5, if_neg b1,
    if_neg b2, if_neg b3, if_neg b4, if_neg c1, if_neg c2, if_neg c3, if_neg d1, if_neg d2,
    if_neg e1, and_self]

theorem handleInputAction_inStep (E : Event) (sys : A2600System) (r : InputAction)
    (hnd : E.switchEvents.Nodup) (hinv : sys.switchesInStep E)
    (h1 : r.key &&& 255 ∉ E.switchEvents)
    (h2 : r.key >>> 8 = 0 ∨ r.key >>> 8 ∉ E.switchEvents) :
    (sys.handleInputAction E r).switchesInStep E := by
  simp only [Event.switchEvents, List.nodup_cons, List.mem_cons, List.mem_singleton,
    List.not_mem_nil, not_or, or_false, List.nodup_nil, and_true, not_false_eq_true] at hnd h1 h2
  obtain ⟨⟨a1, a2, a3, a4, a5⟩, ⟨b1, b2, b3, b4⟩, ⟨c1, c2, c3⟩, ⟨d1, d2⟩, e1⟩ := hnd
  obtain ⟨f1, f2, f3, f4, f5, f6⟩ := h1
  obtain ⟨i1, i2, i3, i4, i5, i6⟩ := hinv
  unfold A2600System.handleInputAction
  simp only
  split_ifs
  all_goals
    first
    | exact ⟨i1, i2, i3, i4, i5, i6⟩
    | (unfold A2600System.switchesInStep eventSet
       simp only [if_true, if_neg (Ne.symm a1), if_neg (Ne.symm a2), if_neg (Ne.symm a3),
         if_neg (Ne.symm a4), if_neg (Ne.symm a5), if_neg (Ne.symm b1), if_neg (Ne.symm b2),
         if_neg (Ne.symm b3), if_neg (Ne.symm b4), if_neg (Ne.symm c1), if_neg (Ne.symm c2),
         if_neg (Ne.symm c3), if_neg (Ne.symm d1), if_neg (Ne.symm d2), if_neg (Ne.symm e1),
         if_neg a1, if_neg a2, if_neg a3, if_neg a4, if_neg a5, if_neg b1,
         if_neg b2, if_neg b3, if_neg b4, if_neg c1, if_neg c2, if_neg c3, if_neg d1, if_neg d2,
         if_neg e1, if_neg (Ne.symm f1), if_neg (Ne.symm f2), if_neg (Ne.symm f3),
         if_neg (Ne.symm f4), if_neg (Ne.symm f5), if_neg (Ne.symm f6),
         i1, i2, i3, i4, i5, i6, and_self, Bool.not_not])
  rcases h2 with h0 | ⟨g1, g2, g3, g4, g5, g6⟩
  · exact absurd h0 (by assumption)
  · simp only [if_neg (Ne.symm g1), if_neg (Ne.symm g2), if_neg (Ne.symm g3),
      if_neg (Ne.symm g4), if_neg (Ne.symm g5), if_neg (Ne.symm g6), and_self]

/-- The key of a translated action has a low byte and a rest that are no console switch
events. -/
theorem translateInputAction_apart (E : Event) (start : Nat) (sys : A2600System)
    (a r : InputAction) (hE : E.SwitchesApart sys)
    (h : sys.translateInputAction E start a = some r) :
    r.key &&& 255 ∉ E.switchEvents ∧ (r.key >>> 8 = 0 ∨ r.key >>> 8 ∉ E.switchEvents) := by
  obtain ⟨-, hcodes, hkb⟩ := hE
  have hsome : (sys.translateInputAction E start a).isSome = true := by rw [h]; rfl
  rw [translateInputAction_isSome, translateKey_isSome] at hsome
  obtain ⟨n, hn⟩ := Nat.exists_eq_add_of_le hsome.1
  rw [translateInputAction_shift E start sys a n hn] at h
  cases ht : sys.translateKey E 0 n with
  | none => rw [ht] at h; cases h
  | some kt =>
    obtain ⟨key, ts⟩ := kt
    rw [ht] at h
    simp only [Option.some.injEq] at h
    have hkey : r.key = key := by rw [← h]
    rw [hkey]
    have single : ∀ c, c < 256 → c ∉ E.switchEvents → key = toUnsigned c →
        key &&& 255 ∉ E.switchEvents ∧ (key >>> 8 = 0 ∨ key >>> 8 ∉ E.switchEvents) := by
      intro c hc hs hk
      rw [hk, toUnsigned_of_lt c (by omega), low_byte_of_lt c hc]
      refine ⟨hs, Or.inl ?_⟩
      rw [Nat.shiftRight_eq_div_pow]; simp only [Nat.reducePow]; omega
    rcases translateKey_codes E sys n key ts ht with ⟨c, hc, hk⟩ | ⟨i, hi, hk | hk⟩ |
      ⟨c, hc, d, hd, hk⟩
    · exact single c (hcodes c hc).1 (hcodes c hc).2 hk
    · exact single _ (hkb i hi).1.1 (hkb i hi).1.2 hk
    · exact single _ (hkb i hi).2.1 (hkb i hi).2.2 hk
    · have hc' := hcodes c hc
      have hd' := hcodes d hd
      rw [hk, toUnsigned_packed c d hc'.1 hd'.1, packed_low c d hc'.1, packed_high c d hc'.1]
      exact ⟨hc'.2, Or.inr hd'.2⟩

theorem inputAction_inStep (E : Event) (start : Nat) (sys : A2600System) (a : InputAction)
    (hE : E.SwitchesApart sys) (hinv : sys.switchesInStep E) :
    (sys.inputAction E start a).switchesInStep E ∧ E.SwitchesApart (sys.inputAction E start a) := by
  unfold A2600System.inputAction
  cases h : sys.translateInputAction E start a with
  | none => exact ⟨hinv, hE⟩
  | some r =>
    obtain ⟨h1, h2⟩ := translateInputAction_apart E start sys a r hE h
    refine ⟨handleInputAction_inStep E sys r hE.1 hinv h1 h2, ?_⟩
    obtain ⟨m1, m2, m3⟩ := handleInputAction_maps E sys r
    unfold Event.SwitchesApart translatedCodes at hE ⊢
    simp only [m1, m2, m3]
    exact hE

theorem inputActions_inStep (E : Event) (start : Nat) (actions : List InputAction) :
    ∀ sys : A2600System, E.SwitchesApart sys → sys.switchesInStep E →
      (sys.inputActions E start actions).switchesInStep E := by
  induction actions with
  | nil => intro sys _ hinv; exact hinv
  | cons a rest ih =>
    intro sys hE hinv
    obtain ⟨h1, h2⟩ := inputAction_inStep E start sys a hE hinv
    exact ih _ h2 h1

end A2600

/-! ## 2600.emu: the console switch events -/

namespace A2600

/-- Claim C20: console switch events stay complementary and in step with the switches.
With the event enumeration as `SwitchesApart` describes it, after `clearInputBuffers`
and after any later sequence of input actions that go through `translateInputAction`
and `handleInputAction`, each of the six console switch events holds its switch or the
negation of its switch; `clearInputBuffers` itself leaves every other event at zero and
the three switches as they were. -/
theorem switch_events_in_step (E : Event) (start : Nat) (sys : A2600System)
    (actions : List InputAction) (hE : E.SwitchesApart sys) :
    ((sys.clearInputBuffers E).inputActions E start actions).switchesInStep E ∧
    (sys.clearInputBuffers E).switchesInStep E ∧
    (∀ t, t ∉ E.switchEvents → (sys.clearInputBuffers E).ev t = 0) ∧
    (sys.clearInputBuffers E).p1DiffB = sys.p1DiffB ∧
    (sys.clearInputBuffers E).p2DiffB = sys.p2DiffB ∧
    (sys.clearInputBuffers E).vcsColor = sys.vcsColor := by
  have hE' : E.SwitchesApart (sys.clearInputBuffers E) := hE
  have hclear := clearInputBuffers_inStep E sys hE.1
  refine ⟨inputActions_inStep E start actions _ hE' hclear, hclear, ?_, rfl, rfl, rfl⟩
  intro t ht
  simp only [Event.switchEvents, List.mem_cons, List.mem_singleton, List.not_mem_nil,
    not_or, or_false] at ht
  obtain ⟨t1, t2, t3, t4, t5, t6⟩ := ht
  unfold A2600System.clearInputBuffers eventSet
  simp only [if_neg t1, if_neg t2, if_neg t3, if_neg t4, if_neg t5, if_neg t6]

/-- Claim C20, on sample values: after clearing and the keys P1 difficulty, left-up and
colour pushed, the switch events are in step. -/
theorem switch_events_in_step_witness :
    demoEvent.SwitchesApart demoSystem ∧
    ((demoSystem.clearInputBuffers demoEvent).inputActions demoEvent demoStart
      [{ key := vcsKeyIdxP1Diff demoStart, state := Action.PUSHED, turbo := false },
       { key := vcsKeyIdxLeftUp demoStart, state := Action.PUSHED, turbo := false },
       { key := vcsKeyIdxColorBW demoStart, state := Action.PUSHED, turbo := false }]).switchesInStep
        demoEvent :=
  ⟨by decide,
   (switch_events_in_step demoEvent demoStart demoSystem
      [{ key := vcsKeyIdxP1Diff demoStart, state := Action.PUSHED, turbo := false },
       { key := vcsKeyIdxLeftUp demoStart, state := Action.PUSHED, turbo := false },
       { key := vcsKeyIdxColorBW demoStart, state := Action.PUSHED, turbo := false }]
      (by decide)).1⟩

end A2600

/-! ## Lemmas: the two loops of `extendKeySelection` -/

namespace EmuEx

theorem tableRead_some (kb : VControllerKeyboard) (y x : Int)
    (hy : 0 ≤ y ∧ y ≤ 3) (hx : 0 ≤ x ∧ x ≤ 19) :
    kb.tableRead y x = some (kb.tableAt y.toNat x.toNat) := by
  unfold VControllerKeyboard.tableRead KEY_ROWS VKEY_COLS
  rw [if_pos]
  push_cast
  omega

theorem tableRead_range (kb : VControllerKeyboard) (y x : Int) (k : Nat)
    (h : kb.tableRead y x = some k) : (0 ≤ y ∧ y ≤ 3) ∧ (0 ≤ x ∧ x ≤ 19) := by
  unfold VControllerKeyboard.tableRead KEY_ROWS VKEY_COLS at h
  split_ifs at h with hc
  push_cast at hc
  omega

/-- The first loop of `extendKeySelection`, started with at most `x` rounds on a column
`x` of the table: it reads inside the table only, moves `x` left over cells that hold
`key`, and ends when the rounds are used up or in front of a cell that differs. -/
theorem extendLeft_spec (kb : VControllerKeyboard) (y : Int) (key : Nat)
    (hy : 0 ≤ y ∧ y ≤ 3) :
    ∀ (n : Nat) (x : Int), (n : Int) ≤ x → x ≤ 19 →
      ∃ x1, kb.extendLeft y key n x = some x1 ∧ x - n ≤ x1 ∧ x1 ≤ x ∧
        (∀ c, x1 ≤ c → c < x → kb.tableRead y c = some key) ∧
        (x1 = x - n ∨ ∃ k, kb.tableRead y (x1 - 1) = some k ∧ k ≠ key) := by
  intro n
  induction n with
  | zero =>
    intro x _ _
    refine ⟨x, rfl, by simp, le_refl _, ?_, Or.inl (by simp)⟩
    intro c h1 h2
    omega
  | succ n ih =>
    intro x hn hx
    have hx1 : 0 ≤ x - 1 ∧ x - 1 ≤ 19 := by push_cast at hn; omega
    have hread := tableRead_some kb y (x - 1) hy hx1
    unfold VControllerKeyboard.extendLeft
    rw [hread]
    simp only
    by_cases hk : kb.tableAt y.toNat (x - 1).toNat = key
    · have hb : (kb.tableAt y.toNat (x - 1).toNat == key) = true := beq_iff_eq.2 hk
      rw [if_pos hb]
      obtain ⟨x1, e, l1, l2, hall, hmax⟩ := ih (x - 1) (by push_cast at hn; omega) (by omega)
      refine ⟨x1, e, by push_cast; omega, by omega, ?_, ?_⟩
      · intro c h1 h2
        by_cases hc : c < x - 1
        · exact hall c h1 hc
        · have : c = x - 1 := by omega
          rw [this, hread, hk]
      · rcases hmax with h | h
        · left; push_cast; omega
        · right; exact h
    · have hb : ¬ (kb.tableAt y.toNat (x - 1).toNat == key) = true := fun h => hk (beq_iff_eq.1 h)
      rw [if_neg hb]
      refine ⟨x, rfl, by push_cast; omega, le_refl _, ?_, Or.inr ⟨_, hread, hk⟩⟩
      intro c h1 h2
      omega

/-- The second loop of `extendKeySelection`, started with at most `19 - x2` rounds. -/
theorem extendRight_spec (kb : VControllerKeyboard) (y : Int) (key : Nat)
    (hy : 0 ≤ y ∧ y ≤ 3) :
    ∀ (n : Nat) (x2 : Int), 0 ≤ x2 → x2 + n ≤ 19 →
      ∃ x3, kb.extendRight y key n x2 = some x3 ∧ x2 ≤ x3 ∧ x3 ≤ x2 + n ∧
        (∀ c, x2 < c → c ≤ x3 → kb.tableRead y c = some key) ∧
        (x3 = x2 + n ∨ ∃ k, kb.tableRead y (x3 + 1) = some k ∧ k ≠ key) := by
  intro n
  induction n with
  | zero =>
    intro x2 _ _
    refine ⟨x2, rfl, le_refl _, by simp, ?_, Or.inl (by simp)⟩
    intro c h1 h2
    omega
  | succ n ih =>
    intro x2 h0 hn
    have hx1 : 0 ≤ x2 + 1 ∧ x2 + 1 ≤ 19 := by push_cast at hn; omega
    have hread := tableRead_some kb y (x2 + 1) hy hx1
    unfold VControllerKeyboard.extendRight
    rw [hread]
    simp only
    by_cases hk : kb.tableAt y.toNat (x2 + 1).toNat = key
    · have hb : (kb.tableAt y.toNat (x2 + 1).toNat == key) = true := beq_iff_eq.2 hk
      rw [if_pos hb]
      obtain ⟨x3, e, l1, l2, hall, hmax⟩ := ih (x2 + 1) (by omega) (by push_cast at hn; omega)
      refine ⟨x3, e, by omega, by push_cast; omega, ?_, ?_⟩
      · intro c h1 h2
        by_cases hc : x2 + 1 < c
        · exact hall c hc h2
        · have : c = x2 + 1 := by omega
          rw [this, hread, hk]
      · rcases hmax with h | h
        · left; push_cast; omega
        · right; exact h
    · have hb : ¬ (kb.tableAt y.toNat (x2 + 1).toNat == key) = true := fun h => hk (beq_iff_eq.1 h)
      rw [if_neg hb]
      refine ⟨x2, rfl, le_refl _, by push_cast; omega, ?_, Or.inr ⟨_, hread, hk⟩⟩
      intro c h1 h2
      omega

/-- What `extendKeySelection` returns on a rectangle inside the table. -/
theorem extendKeySelection_spec (kb : VControllerKeyboard) (sel : WindowRect)
    (hx : 0 ≤ sel.x ∧ sel.x ≤ sel.x2 ∧ sel.x2 ≤ 19) (hy : 0 ≤ sel.y ∧ sel.y ≤ 3) :
    ∃ r key, kb.extendKeySelection sel = some r ∧ kb.tableRead sel.y sel.x = some key ∧
      r.y = sel.y ∧ r.y2 = sel.y2 ∧ 0 ≤ r.x ∧ r.x ≤ sel.x ∧ sel.x2 ≤ r.x2 ∧ r.x2 ≤ 19 ∧
      (∀ c, r.x ≤ c → c ≤ sel.x → kb.tableRead sel.y c = some key) ∧
      (∀ c, sel.x2 < c → c ≤ r.x2 → kb.tableRead sel.y c = some key) ∧
      (r.x = 0 ∨ ∃ k, kb.tableRead sel.y (r.x - 1) = some k ∧ k ≠ key) ∧
      (r.x2 = 19 ∨ ∃ k, kb.tableRead sel.y (r.x2 + 1) = some k ∧ k ≠ key) := by
  have hread := tableRead_some kb sel.y sel.x hy ⟨hx.1, by omega⟩
  have et : ((sel.x.toNat : Nat) : Int) = sel.x := Int.toNat_of_nonneg hx.1
  have en : (((((VKEY_COLS : Nat) : Int) - 1) - sel.x2).toNat : Int) = 19 - sel.x2 := by
    unfold VKEY_COLS
    rw [Int.toNat_of_nonneg (by push_cast; omega)]
    push_cast
    ring
  obtain ⟨x1, e1, a1, a2, a3, a4⟩ :=
    extendLeft_spec kb sel.y (kb.tableAt sel.y.toNat sel.x.toNat) hy sel.x.toNat sel.x
      (by rw [et]) (by omega)
  obtain ⟨x3, e3, b1, b2, b3, b4⟩ :=
    extendRight_spec kb sel.y (kb.tableAt sel.y.toNat sel.x.toNat) hy
      (((VKEY_COLS : Int) - 1) - sel.x2).toNat sel.x2 (by omega) (by rw [en]; omega)
  rw [et] at a1 a4
  rw [en] at b2 b4
  have hx1 : 0 ≤ x1 := by linarith
  have hx3 : x3 ≤ 19 := by linarith
  refine ⟨{ sel with x := x1, x2 := x3 }, _, ?_, hread, rfl, rfl, hx1, a2, b1, hx3, ?_, b3,
    ?_, ?_⟩
  · unfold VControllerKeyboard.extendKeySelection VControllerKeyboard.currentKey
    rw [hread]
    simp only [e1, e3]
  · intro c h1 h2
    by_cases hc : c < sel.x
    · exact a3 c h1 hc
    · have : c = sel.x := le_antisymm h2 (not_lt.1 hc)
      rw [this, hread]
  · rcases a4 with h | h
    · left
      show x1 = 0
      linarith
    · right; exact h
  · rcases b4 with h | h
    · left
      show x3 = 19
      linarith
    · right; exact h

end EmuEx

/-! ## VControllerKeyboard: the claims about input and selection -/

namespace EmuEx

/-- Claim C14: `getInput` with key sizes of at least 1. Outside the bounds it returns -1;
inside it returns `col + 20 * row` with `col = min((c.x - bound.x) / keyXSize, 19)` and
`row = min((c.y - bound.y) / keyYSize, 3)`, a value from 0 to 79 for which
`translateInput` returns the key code of table cell `(row, col)`; so a non-negative
result is below 80. -/
theorem getInput_in_table (kb : VControllerKeyboard) (cx cy : Int)
    (hx : 1 ≤ kb.keyXSize) (hy : 1 ≤ kb.keyYSize) :
    (kb.bound.overlaps cx cy = false → kb.getInput cx cy = -1) ∧
    (kb.bound.overlaps cx cy = true →
      kb.getInput cx cy =
        min ((cx - kb.bound.x) / kb.keyXSize) 19 + 20 * min ((cy - kb.bound.y) / kb.keyYSize) 3 ∧
      0 ≤ min ((cx - kb.bound.x) / kb.keyXSize) 19 ∧
      0 ≤ min ((cy - kb.bound.y) / kb.keyYSize) 3 ∧
      0 ≤ kb.getInput cx cy ∧ kb.getInput cx cy < 80 ∧
      kb.translateInput (kb.getInput cx cy) =
        some (kb.tableAt (min ((cy - kb.bound.y) / kb.keyYSize) 3).toNat
          (min ((cx - kb.bound.x) / kb.keyXSize) 19).toNat)) ∧
    (0 ≤ kb.getInput cx cy → kb.getInput cx cy < 80) := by
  have hin : kb.bound.overlaps cx cy = true →
      kb.getInput cx cy =
        min ((cx - kb.bound.x) / kb.keyXSize) 19 + 20 * min ((cy - kb.bound.y) / kb.keyYSize) 3 ∧
      0 ≤ (cx - kb.bound.x) / kb.keyXSize ∧ 0 ≤ (cy - kb.bound.y) / kb.keyYSize := by
    intro ho
    unfold WindowRect.overlaps at ho
    rw [decide_eq_true_iff] at ho
    have h1 : 0 ≤ cx - kb.bound.x := by omega
    have h2 : 0 ≤ cy - kb.bound.y := by omega
    have ho' : kb.bound.overlaps cx cy = true := by
      unfold WindowRect.overlaps; rw [decide_eq_true_iff]; exact ho
    unfold VControllerKeyboard.getInput
    simp only [ho', Bool.not_true, Bool.false_eq_true, if_false, VKEY_COLS]
    rw [Int.tdiv_eq_ediv h1 (by omega), Int.tdiv_eq_ediv h2 (by omega)]
    refine ⟨?_, Int.ediv_nonneg h1 (by omega), Int.ediv_nonneg h2 (by omega)⟩
    push_cast
    ring
  refine ⟨?_, ?_, ?_⟩
  · intro ho
    unfold VControllerKeyboard.getInput
    simp [ho]
  · intro ho
    obtain ⟨h1, h2, h3⟩ := hin ho
    generalize (cx - kb.bound.x) / kb.keyXSize = qx at h1 h2 ⊢
    generalize (cy - kb.bound.y) / kb.keyYSize = qy at h1 h3 ⊢
    refine ⟨h1, by omega, by omega, by omega, by omega, ?_⟩
    rw [h1]
    unfold VControllerKeyboard.translateInput VControllerKeyboard.tableAt cell VKEY_COLS KEY_ROWS
    have e1 : (min qx 19 + 20 * min qy 3 < ((20 : Nat) : Int) * ((4 : Nat) : Int)) := by
      push_cast; omega
    have e2 : (0 : Int) ≤ min qx 19 + 20 * min qy 3 := by omega
    rw [if_pos e1, if_pos e2]
    congr 2
    omega
  · intro hnn
    cases ho : kb.bound.overlaps cx cy with
    | false =>
      have : kb.getInput cx cy = -1 := by
        unfold VControllerKeyboard.getInput
        simp [ho]
      omega
    | true =>
      obtain ⟨h1, h2, h3⟩ := hin ho
      generalize (cx - kb.bound.x) / kb.keyXSize = qx at h1 h2
      generalize (cy - kb.bound.y) / kb.keyYSize = qy at h1 h3
      omega

/-- Claim C14, at the point (25, 15) of a sample keyboard with keys of 10 by 10 pixels:
the point is inside the bounds and hits column 2 of row 1. -/
theorem getInput_in_table_witness :
    (demoKeyboard VControllerKbMode.LAYOUT_1).bound.overlaps 25 15 = true ∧
    (demoKeyboard VControllerKbMode.LAYOUT_1).getInput 25 15 = 22 ∧
    (demoKeyboard VControllerKbMode.LAYOUT_1).translateInput 22 =
      some ((demoKeyboard VControllerKbMode.LAYOUT_1).tableAt 1 2) :=
  ⟨by decide, by decide,
    ((getInput_in_table (demoKeyboard VControllerKbMode.LAYOUT_1) 25 15 (by decide)
      (by decide)).2.1 (by decide)).2.2.2.2.2⟩

/-- Claim C15: `selectKey(x, y)` returns the rectangle `(-1, -1, -1, -1)` exactly when
`x >= 20` or `y >= 4`; for a key in range it returns a rectangle of the single row `y`
with `0 <= rect.x <= x <= rect.x2 <= 19` whose columns all hold the key code of
`table[y][x]`. -/
theorem selectKey_in_range (kb : VControllerKeyboard) (x y : Nat) :
    (kb.selectKey x y = some { x := -1, y := -1, x2 := -1, y2 := -1 } ↔ (x ≥ 20 ∨ y ≥ 4)) ∧
    (x < 20 → y < 4 →
      ∃ r, kb.selectKey x y = some r ∧ r.y = y ∧ r.y2 = y ∧
        0 ≤ r.x ∧ r.x ≤ x ∧ (x : Int) ≤ r.x2 ∧ r.x2 ≤ 19 ∧
        ∀ c : Int, r.x ≤ c → c ≤ r.x2 → kb.tableRead y c = kb.tableRead y x) := by
  have hin : x < 20 → y < 4 →
      ∃ r, kb.selectKey x y = some r ∧ r.y = y ∧ r.y2 = y ∧
        0 ≤ r.x ∧ r.x ≤ x ∧ (x : Int) ≤ r.x2 ∧ r.x2 ≤ 19 ∧
        ∀ c : Int, r.x ≤ c → c ≤ r.x2 → kb.tableRead y c = kb.tableRead y x := by
    intro hx hy
    obtain ⟨r, key, e, hk, r1, r2, r3, r4, r5, r6, r7, r8, -, -⟩ :=
      extendKeySelection_spec kb { x := (x : Int), y := (y : Int), x2 := (x : Int), y2 := (y : Int) }
        (by simp only; omega) (by simp only; omega)
    simp only at hk r1 r2 r4 r5 r7 r8
    refine ⟨r, ?_, r1, r2, r3, r4, r5, r6, ?_⟩
    · unfold VControllerKeyboard.selectKey VKEY_COLS KEY_ROWS
      rw [if_neg (by omega)]
      exact e
    · intro c h1 h2
      rw [hk]
      by_cases hc : c ≤ (x : Int)
      · exact r7 c h1 hc
      · exact r8 c (not_le.1 hc) h2
  refine ⟨?_, hin⟩
  constructor
  · intro h
    by_contra hc
    obtain ⟨r, e, -, -, r3, -⟩ := hin (by omega) (by omega)
    rw [h] at e
    simp only [Option.some.injEq] at e
    rw [← e] at r3
    simp at r3
  · intro h
    unfold VControllerKeyboard.selectKey VKEY_COLS KEY_ROWS
    rw [if_pos h]

/-- Claim C15, at key (7, 1) of a sample keyboard. -/
theorem selectKey_in_range_witness :
    ∃ r, ((demoKeyboard VControllerKbMode.LAYOUT_1).applyMap demoVController demoMap).selectKey
        7 1 = some r ∧ r.y = ((1 : Nat) : Int) ∧ r.y2 = ((1 : Nat) : Int) ∧
      0 ≤ r.x ∧ r.x ≤ ((7 : Nat) : Int) ∧ ((7 : Nat) : Int) ≤ r.x2 ∧ r.x2 ≤ 19 ∧
      ∀ c : Int, r.x ≤ c → c ≤ r.x2 →
        ((demoKeyboard VControllerKbMode.LAYOUT_1).applyMap demoVController
            demoMap).tableRead ((1 : Nat) : Int) c =
          ((demoKeyboard VControllerKbMode.LAYOUT_1).applyMap demoVController
            demoMap).tableRead ((1 : Nat) : Int) ((7 : Nat) : Int) :=
  (selectKey_in_range
    ((demoKeyboard VControllerKbMode.LAYOUT_1).applyMap demoVController demoMap) 7 1).2
    (by decide) (by decide)

/-- Claim C19, as amended: on a rectangle with `0 <= x <= x2 <= 19` and `0 <= y <= 3`,
`extendKeySelection` reads inside the table only and returns a rectangle of the same
rows with `result.x <= x` and `result.x2 >= x2`; with `k = table[y][x]`, every column of
`result.x .. x` and every column of `x2 + 1 .. result.x2` holds `k`; the result is
maximal on both sides; and `extendKeySelection` returns its own result unchanged. -/
theorem extendKeySelection_whole_key (kb : VControllerKeyboard) (sel : WindowRect)
    (hx : 0 ≤ sel.x ∧ sel.x ≤ sel.x2 ∧ sel.x2 ≤ 19) (hy : 0 ≤ sel.y ∧ sel.y ≤ 3) :
    ∃ r k, kb.extendKeySelection sel = some r ∧ kb.tableRead sel.y sel.x = some k ∧
      r.y = sel.y ∧ r.y2 = sel.y2 ∧ 0 ≤ r.x ∧ r.x ≤ sel.x ∧ sel.x2 ≤ r.x2 ∧ r.x2 ≤ 19 ∧
      (∀ c, r.x ≤ c → c ≤ sel.x → kb.tableRead sel.y c = some k) ∧
      (∀ c, sel.x2 < c → c ≤ r.x2 → kb.tableRead sel.y c = some k) ∧
      (r.x = 0 ∨ ∃ k1, kb.tableRead sel.y (r.x - 1) = some k1 ∧ k1 ≠ k) ∧
      (r.x2 = 19 ∨ ∃ k1, kb.tableRead sel.y (r.x2 + 1) = some k1 ∧ k1 ≠ k) ∧
      kb.extendKeySelection r = some r := by
  obtain ⟨r, k, e, hk, r1, r2, r3, r4, r5, r6, r7, r8, r9, r10⟩ :=
    extendKeySelection_spec kb sel hx hy
  refine ⟨r, k, e, hk, r1, r2, r3, r4, r5, r6, r7, r8, r9, r10, ?_⟩
  obtain ⟨q, k2, e2, hk2, q1, q2, q3, q4, q5, q6, q7, q8, q9, q10⟩ :=
    extendKeySelection_spec kb r ⟨r3, by linarith [hx.2.1], r6⟩ (by rw [r1]; exact hy)
  rw [r1] at hk2 q7 q8 q9 q10
  have hkk : k2 = k := by
    have := r7 r.x (le_refl _) r4
    rw [hk2] at this
    exact Option.some.inj this
  rw [hkk] at q7 q8 q9 q10
  have hqx : q.x = r.x := by
    by_contra hne
    have hlt : q.x < r.x := lt_of_le_of_ne q4 hne
    have h1 := q7 (r.x - 1) (by omega) (by omega)
    rcases r9 with h0 | ⟨k1, hk1, hne1⟩
    · omega
    · rw [h1] at hk1
      exact hne1 (Option.some.inj hk1).symm
  have hqx2 : q.x2 = r.x2 := by
    by_contra hne
    have hlt : r.x2 < q.x2 := lt_of_le_of_ne q5 (Ne.symm hne)
    have h1 := q8 (r.x2 + 1) (by omega) (by omega)
    rcases r10 with h0 | ⟨k1, hk1, hne1⟩
    · omega
    · rw [h1] at hk1
      exact hne1 (Option.some.inj hk1).symm
  rw [e2]
  congr 1
  cases q
  cases r
  simp only at q1 q2 hqx hqx2
  simp only [WindowRect.mk.injEq]
  exact ⟨hqx, q1, hqx2, q2⟩

/-- Claim C19, amended, on the rectangle (5, 1)..(5, 1) of a sample keyboard. -/
theorem extendKeySelection_whole_key_witness :
    ∃ r k,
      ((demoKeyboard VControllerKbMode.LAYOUT_2).applyMap demoVController
        demoMap).extendKeySelection { x := 5, y := 1, x2 := 5, y2 := 1 } = some r ∧
      ((demoKeyboard VControllerKbMode.LAYOUT_2).applyMap demoVController
        demoMap).tableRead 1 5 = some k ∧
      r.y = 1 ∧ r.y2 = 1 ∧ 0 ≤ r.x ∧ r.x ≤ 5 ∧ 5 ≤ r.x2 ∧ r.x2 ≤ 19 ∧
      (∀ c, r.x ≤ c → c ≤ 5 →
        ((demoKeyboard VControllerKbMode.LAYOUT_2).applyMap demoVController
          demoMap).tableRead 1 c = some k) ∧
      (∀ c, 5 < c → c ≤ r.x2 →
        ((demoKeyboard VControllerKbMode.LAYOUT_2).applyMap demoVController
          demoMap).tableRead 1 c = some k) ∧
      (r.x = 0 ∨ ∃ k1,
        ((demoKeyboard VControllerKbMode.LAYOUT_2).applyMap demoVController
          demoMap).tableRead 1 (r.x - 1) = some k1 ∧ k1 ≠ k) ∧
      (r.x2 = 19 ∨ ∃ k1,
        ((demoKeyboard VControllerKbMode.LAYOUT_2).applyMap demoVController
          demoMap).tableRead 1 (r.x2 + 1) = some k1 ∧ k1 ≠ k) ∧
      ((demoKeyboard VControllerKbMode.LAYOUT_2).applyMap demoVController
        demoMap).extendKeySelection r = some r :=
  extendKeySelection_whole_key
    ((demoKeyboard VControllerKbMode.LAYOUT_2).applyMap demoVController demoMap)
    { x := 5, y := 1, x2 := 5, y2 := 1 } (by decide) (by decide)

/-- Claim C19 as stated fails for a rectangle that spans several keys: on the row
1, 1, 2, 2, 1, 1, ... the rectangle of the columns 0 to 3 is extended to the columns 0 to
5, and column `x2 = 3`, which lies in `x2 .. result.x2`, holds 2 and not
`k = table[0][0] = 1`. -/
theorem extendKeySelection_old_column :
    mixedKeyboard.extendKeySelection { x := 0, y := 0, x2 := 3, y2 := 0 } =
      some { x := 0, y := 0, x2 := 5, y2 := 0 } ∧
    mixedKeyboard.tableRead 0 0 = some 1 ∧
    mixedKeyboard.tableRead 0 3 = some 2 ∧
    ¬ (∀ c : Int, 3 ≤ c → c ≤ 5 → mixedKeyboard.tableRead 0 c = some 1) := by
  refine ⟨by decide, by decide, by decide, ?_⟩
  intro h
  exact absurd (h 3 (by decide) (by decide)) (by decide)

end EmuEx

/-! ## Lemmas: the recursion of `selectKeyRel` over blank keys -/

namespace EmuEx

/-- One call of `selectKeyRel` once the moved selection `sel2` is known to extend to
`r`, a key with the code `key`: a blank key makes the recursive call, any other key ends
the function. -/
theorem selectKeyRel_right (kb : VControllerKeyboard) (fuel : Nat) (r : WindowRect)
    (key : Nat)
    (he : kb.extendKeySelection
      { kb.selected with x2 := (kb.selected.x2 + 1) % 20, x := (kb.selected.x2 + 1) % 20 } =
        some r)
    (hk : kb.tableRead r.y r.x = some key) :
    kb.selectKeyRel (fuel + 1) 1 0 =
      if key = 0 then VControllerKeyboard.selectKeyRel { kb with selected := r } fuel 1 0
      else some { kb with selected := r } := by
  have hk2 : VControllerKeyboard.currentKey { kb with selected := r } r.x r.y = some key := hk
  rw [VControllerKeyboard.selectKeyRel]
  simp only [wrapMinMax, VKEY_COLS, KEY_ROWS]
  simp only [show (1 : Int) > 0 from by decide, if_true, ne_eq, not_true, if_false,
    Nat.cast_ofNat, sub_zero, zero_add, he, hk2, beq_iff_eq]

theorem selectKeyRel_left (kb : VControllerKeyboard) (fuel : Nat) (r : WindowRect)
    (key : Nat)
    (he : kb.extendKeySelection
      { kb.selected with x := (kb.selected.x + -1) % 20, x2 := (kb.selected.x + -1) % 20 } =
        some r)
    (hk : kb.tableRead r.y r.x = some key) :
    kb.selectKeyRel (fuel + 1) (-1) 0 =
      if key = 0 then VControllerKeyboard.selectKeyRel { kb with selected := r } fuel (-1) 0
      else some { kb with selected := r } := by
  have hk2 : VControllerKeyboard.currentKey { kb with selected := r } r.x r.y = some key := hk
  rw [VControllerKeyboard.selectKeyRel]
  simp only [wrapMinMax, VKEY_COLS, KEY_ROWS]
  simp only [show ¬ ((-1 : Int) > 0) from by decide, show (-1 : Int) < 0 from by decide,
    if_true, ne_eq, not_true, if_false,
    Nat.cast_ofNat, sub_zero, zero_add, he, hk2, beq_iff_eq]

theorem selectKeyRel_vertical (kb : VControllerKeyboard) (fuel : Nat) (dy : Int)
    (hdy : dy ≠ 0) (r : WindowRect) (key : Nat)
    (he : kb.extendKeySelection
      { kb.selected with y := (kb.selected.y2 + dy) % 4, y2 := (kb.selected.y2 + dy) % 4,
                         x2 := kb.selected.x } = some r)
    (hk : kb.tableRead r.y r.x = some key) :
    kb.selectKeyRel (fuel + 1) 0 dy =
      if key = 0 then VControllerKeyboard.selectKeyRel { kb with selected := r } fuel 0 dy
      else some { kb with selected := r } := by
  have hk2 : VControllerKeyboard.currentKey { kb with selected := r } r.x r.y = some key := hk
  rw [VControllerKeyboard.selectKeyRel]
  simp only [wrapMinMax, VKEY_COLS, KEY_ROWS]
  simp only [show ¬ ((0 : Int) > 0) from by decide, show ¬ ((0 : Int) < 0) from by decide,
    if_true, ne_eq, hdy, not_false_eq_true, if_false,
    Nat.cast_ofNat, sub_zero, zero_add, he, hk2, beq_iff_eq]

/-- Reads of the table do not depend on the selection. -/
theorem tableRead_selected (kb : VControllerKeyboard) (sel : WindowRect) (y x : Int) :
    VControllerKeyboard.tableRead { kb with selected := sel } y x = kb.tableRead y x := rfl

theorem extendLeft_selected (kb : VControllerKeyboard) (sel : WindowRect) (y : Int)
    (key : Nat) : ∀ (n : Nat) (x : Int),
      VControllerKeyboard.extendLeft { kb with selected := sel } y key n x =
        kb.extendLeft y key n x := by
  intro n
  induction n with
  | zero => intro x; rfl
  | succ n ih =>
    intro x
    simp only [VControllerKeyboard.extendLeft, tableRead_selected, ih]

theorem extendRight_selected (kb : VControllerKeyboard) (sel : WindowRect) (y : Int)
    (key : Nat) : ∀ (n : Nat) (x : Int),
      VControllerKeyboard.extendRight { kb with selected := sel } y key n x =
        kb.extendRight y key n x := by
  intro n
  induction n with
  | zero => intro x; rfl
  | succ n ih =>
    intro x
    simp only [VControllerKeyboard.extendRight, tableRead_selected, ih]

/-- The function `extendKeySelection` does not depend on the stored selection. -/
theorem extendKeySelection_selected (kb : VControllerKeyboard) (sel s : WindowRect) :
    VControllerKeyboard.extendKeySelection { kb with selected := sel } s =
      kb.extendKeySelection s := by
  simp only [VControllerKeyboard.extendKeySelection, VControllerKeyboard.currentKey,
    tableRead_selected, extendLeft_selected, extendRight_selected]

/-- Moving right over blank keys ends: with a key that is not blank in column `t` of the
selected row, `selectKeyRel(1, 0)` returns after at most as many calls as there are
columns from the one right of the selection round to `t`. -/
theorem selectKeyRel_right_loop (kb : VControllerKeyboard) (y y2 t : Int) (kt : Nat)
    (hy : 0 ≤ y ∧ y ≤ 3) (ht : kb.tableRead y t = some kt) (hkt : kt ≠ 0) :
    ∀ (n : Nat) (sel : WindowRect), sel.y = y → sel.y2 = y2 → 0 ≤ sel.x2 → sel.x2 ≤ 19 →
      ((t - (sel.x2 + 1)) % 20).toNat < n →
      ∃ r key,
        (∀ fuel, n ≤ fuel →
          VControllerKeyboard.selectKeyRel { kb with selected := sel } fuel 1 0 =
            some { kb with selected := r }) ∧
        r.y = y ∧ r.y2 = y2 ∧ 0 ≤ r.x ∧ r.x ≤ r.x2 ∧ r.x2 ≤ 19 ∧
        kb.tableRead r.y r.x = some key ∧ key ≠ 0 := by
  have htr := tableRead_range kb y t kt ht
  intro n
  induction n with
  | zero =>
    intro sel _ _ _ _ h
    omega
  | succ n ih =>
    intro sel e1 e2 h1 h2 hm
    obtain ⟨r, key, e, hk, r1, r2, r3, r4, r5, r6, r7, r8, -, -⟩ :=
      extendKeySelection_spec kb
        { sel with x2 := (sel.x2 + 1) % 20, x := (sel.x2 + 1) % 20 }
        (by simp only; omega) (by simp only; omega)
    simp only at hk r1 r2 r4 r5 r7 r8
    rw [e1] at r1 r7 r8
    rw [e2] at r2
    have hkr : kb.tableRead r.y r.x = some key := by
      rw [r1]
      exact r7 r.x le_rfl r4
    have hstep : ∀ f,
        VControllerKeyboard.selectKeyRel { kb with selected := sel } (f + 1) 1 0 =
          if key = 0 then VControllerKeyboard.selectKeyRel { kb with selected := r } f 1 0
          else some { kb with selected := r } :=
      fun f => selectKeyRel_right { kb with selected := sel } f r key
        ((extendKeySelection_selected kb sel _).trans e) hkr
    by_cases hz : key = 0
    · have hout : t < r.x ∨ r.x2 < t := by
        by_contra hc
        push_neg at hc
        have hthis : kb.tableRead y t = some key := by
          by_cases h : t ≤ (sel.x2 + 1) % 20
          · exact r7 t hc.1 h
          · exact r8 t (not_le.1 h) hc.2
        rw [ht] at hthis
        exact hkt ((Option.some.inj hthis).trans hz)
      obtain ⟨q, key2, hq, rest⟩ := ih r r1 r2 (by omega) r6 (by omega)
      refine ⟨q, key2, ?_, rest⟩
      intro fuel hf
      obtain ⟨f, rfl⟩ : ∃ f, fuel = f + 1 := ⟨fuel - 1, by omega⟩
      rw [hstep, if_pos hz]
      exact hq f (by omega)
    · refine ⟨r, key, ?_, r1, r2, r3, by omega, r6, hkr, hz⟩
      intro fuel hf
      obtain ⟨f, rfl⟩ : ∃ f, fuel = f + 1 := ⟨fuel - 1, by omega⟩
      rw [hstep, if_neg hz]

/-- Moving left over blank keys ends, as moving right does. -/
theorem selectKeyRel_left_loop (kb : VControllerKeyboard) (y y2 t : Int) (kt : Nat)
    (hy : 0 ≤ y ∧ y ≤ 3) (ht : kb.tableRead y t = some kt) (hkt : kt ≠ 0) :
    ∀ (n : Nat) (sel : WindowRect), sel.y = y → sel.y2 = y2 → 0 ≤ sel.x → sel.x ≤ 19 →
      (((sel.x - 1) - t) % 20).toNat < n →
      ∃ r key,
        (∀ fuel, n ≤ fuel →
          VControllerKeyboard.selectKeyRel { kb with selected := sel } fuel (-1) 0 =
            some { kb with selected := r }) ∧
        r.y = y ∧ r.y2 = y2 ∧ 0 ≤ r.x ∧ r.x ≤ r.x2 ∧ r.x2 ≤ 19 ∧
        kb.tableRead r.y r.x = some key ∧ key ≠ 0 := by
  have htr := tableRead_range kb y t kt ht
  intro n
  induction n with
  | zero =>
    intro sel _ _ _ _ h
    omega
  | succ n ih =>
    intro sel e1 e2 h1 h2 hm
    obtain ⟨r, key, e, hk, r1, r2, r3, r4, r5, r6, r7, r8, -, -⟩ :=
      extendKeySelection_spec kb
        { sel with x := (sel.x + -1) % 20, x2 := (sel.x + -1) % 20 }
        (by simp only; omega) (by simp only; omega)
    simp only at hk r1 r2 r4 r5 r7 r8
    rw [e1] at r1 r7 r8
    rw [e2] at r2
    have hkr : kb.tableRead r.y r.x = some key := by
      rw [r1]
      exact r7 r.x le_rfl r4
    have hstep : ∀ f,
        VControllerKeyboard.selectKeyRel { kb with selected := sel } (f + 1) (-1) 0 =
          if key = 0 then VControllerKeyboard.selectKeyRel { kb with selected := r } f (-1) 0
          else some { kb with selected := r } :=
      fun f => selectKeyRel_left { kb with selected := sel } f r key
        ((extendKeySelection_selected kb sel _).trans e) hkr
    by_cases hz : key = 0
    · have hout : t < r.x ∨ r.x2 < t := by
        by_contra hc
        push_neg at hc
        have hthis : kb.tableRead y t = some key := by
          by_cases h : t ≤ (sel.x + -1) % 20
          · exact r7 t hc.1 h
          · exact r8 t (not_le.1 h) hc.2
        rw [ht] at hthis
        exact hkt ((Option.some.inj hthis).trans hz)
      obtain ⟨q, key2, hq, rest⟩ := ih r r1 r2 r3 (by omega) (by omega)
      refine ⟨q, key2, ?_, rest⟩
      intro fuel hf
      obtain ⟨f, rfl⟩ : ∃ f, fuel = f + 1 := ⟨fuel - 1, by omega⟩
      rw [hstep, if_pos hz]
      exact hq f (by omega)
    · refine ⟨r, key, ?_, r1, r2, r3, by omega, r6, hkr, hz⟩
      intro fuel hf
      obtain ⟨f, rfl⟩ : ∃ f, fuel = f + 1 := ⟨fuel - 1, by omega⟩
      rw [hstep, if_neg hz]

/-- Moving up or down over blank keys ends on a table in which no column starts a blank
key in each of the rows 0, 2 and 3. The column of the selection never moves right; `j`
counts the rows visited since it last moved left, each of which starts a blank key in
that column. -/
theorem selectKeyRel_vertical_loop (kb : VControllerKeyboard) (dy : Int)
    (hd : dy = 1 ∨ dy = -1)
    (hcol : ∀ c, 0 ≤ c → c ≤ 19 →
      ¬ (kb.blankEdge 0 c ∧ kb.blankEdge 2 c ∧ kb.blankEdge 3 c)) :
    ∀ (n : Nat) (sel : WindowRect) (j : Nat), 0 ≤ sel.x → sel.x ≤ 19 → 0 ≤ sel.y2 →
      sel.y2 ≤ 3 → j ≤ 3 →
      (∀ i : Int, 0 ≤ i → i < j → kb.blankEdge ((sel.y2 - i * dy) % 4) sel.x) →
      4 * sel.x.toNat + (4 - j) < n →
      ∃ r key,
        (∀ fuel, n ≤ fuel →
          VControllerKeyboard.selectKeyRel { kb with selected := sel } fuel 0 dy =
            some { kb with selected := r }) ∧
        r.y = r.y2 ∧ 0 ≤ r.y ∧ r.y ≤ 3 ∧ 0 ≤ r.x ∧ r.x ≤ r.x2 ∧ r.x2 ≤ 19 ∧
        kb.tableRead r.y r.x = some key ∧ key ≠ 0 := by
  have hdy : dy ≠ 0 := by
    rcases hd with rfl | rfl <;> decide
  intro n
  induction n with
  | zero =>
    intro sel j _ _ _ _ _ _ h
    omega
  | succ n ih =>
    intro sel j h1 h2 h3 h4 hj hB hm
    have hrow : 0 ≤ (sel.y2 + dy) % 4 ∧ (sel.y2 + dy) % 4 ≤ 3 := by omega
    obtain ⟨r, key, e, hk, r1, r2, r3, r4, r5, r6, r7, r8, r9, -⟩ :=
      extendKeySelection_spec kb
        { sel with y := (sel.y2 + dy) % 4, y2 := (sel.y2 + dy) % 4, x2 := sel.x }
        (by simp only; omega) (by simp only; omega)
    simp only at hk r1 r2 r4 r5 r7 r8 r9
    have hkr : kb.tableRead r.y r.x = some key := by
      rw [r1]
      exact r7 r.x le_rfl r4
    have hstep : ∀ f,
        VControllerKeyboard.selectKeyRel { kb with selected := sel } (f + 1) 0 dy =
          if key = 0 then VControllerKeyboard.selectKeyRel { kb with selected := r } f 0 dy
          else some { kb with selected := r } :=
      fun f => selectKeyRel_vertical { kb with selected := sel } f dy hdy r key
        ((extendKeySelection_selected kb sel _).trans e) hkr
    have eS : ((sel.x.toNat : Nat) : Int) = sel.x := Int.toNat_of_nonneg h1
    have eR : ((r.x.toNat : Nat) : Int) = r.x := Int.toNat_of_nonneg r3
    generalize sel.x.toNat = a at hm eS
    by_cases hz : key = 0
    · have hnext : ∃ (j2 : Nat), j2 ≤ 3 ∧
          (∀ i : Int, 0 ≤ i → i < j2 → kb.blankEdge ((r.y2 - i * dy) % 4) r.x) ∧
          4 * r.x.toNat + (4 - j2) < n := by
        generalize r.x.toNat = b at eR
        by_cases hlt : r.x < sel.x
        · refine ⟨0, by omega, ?_, by omega⟩
          intro i hi1 hi2
          omega
        · have hrx : r.x = sel.x := le_antisymm r4 (not_lt.1 hlt)
          have hedge : kb.blankEdge ((sel.y2 + dy) % 4) sel.x := by
            refine ⟨by rw [hk, hz], ?_⟩
            rw [hrx, hz] at r9
            exact r9
          have hall : ∀ i : Int, -1 ≤ i → i < j →
              kb.blankEdge ((sel.y2 - i * dy) % 4) sel.x := by
            intro i hi1 hi2
            by_cases hi : i = -1
            · have erow : (sel.y2 - i * dy) % 4 = (sel.y2 + dy) % 4 := by
                rw [hi]
                congr 1
                ring
              rw [erow]
              exact hedge
            · exact hB i (by omega) hi2
          by_cases hj3 : j = 3
          · exfalso
            have hrows : ∀ ρ : Int, 0 ≤ ρ → ρ ≤ 3 → kb.blankEdge ρ sel.x := by
              intro ρ hρ1 hρ2
              have hex : ∃ i : Int, -1 ≤ i ∧ i < 3 ∧ (sel.y2 - i * dy) % 4 = ρ := by
                rcases hd with rfl | rfl
                · by_cases h : (sel.y2 - ρ) % 4 = 3
                  · exact ⟨-1, by omega, by omega, by omega⟩
                  · exact ⟨(sel.y2 - ρ) % 4, by omega, by omega, by omega⟩
                · by_cases h : (ρ - sel.y2) % 4 = 3
                  · exact ⟨-1, by omega, by omega, by omega⟩
                  · exact ⟨(ρ - sel.y2) % 4, by omega, by omega, by omega⟩
              obtain ⟨i, hi1, hi2, hi3⟩ := hex
              rw [← hi3]
              exact hall i hi1 (by rw [hj3]; exact_mod_cast hi2)
            exact hcol sel.x h1 h2
              ⟨hrows 0 (by omega) (by omega), hrows 2 (by omega) (by omega),
                hrows 3 (by omega) (by omega)⟩
          · refine ⟨j + 1, by omega, ?_, by omega⟩
            intro i hi1 hi2
            have erow : (r.y2 - i * dy) % 4 = (sel.y2 - (i - 1) * dy) % 4 := by
              rw [r2]
              rcases hd with rfl | rfl <;> omega
            rw [erow, hrx]
            exact hall (i - 1) (by omega) (by push_cast at hi2; omega)
      obtain ⟨j2, hj2, hB2, hm2⟩ := hnext
      obtain ⟨q, key2, hq, rest⟩ := ih r j2 r3 (by omega) (by omega) (by omega) hj2 hB2 hm2
      refine ⟨q, key2, ?_, rest⟩
      intro fuel hf
      obtain ⟨f, rfl⟩ : ∃ f, fuel = f + 1 := ⟨fuel - 1, by omega⟩
      rw [hstep, if_pos hz]
      exact hq f (by omega)
    · refine ⟨r, key, ?_, by rw [r1, r2], by omega, by omega, r3, by omega, r6, hkr, hz⟩
      intro fuel hf
      obtain ⟨f, rfl⟩ : ∃ f, fuel = f + 1 := ⟨fuel - 1, by omega⟩
      rw [hstep, if_neg hz]

/-- A read of the table `applyMap` builds, by the layout. -/
theorem tableRead_applyMap (vc : VController) (kb : VControllerKeyboard) (map : KbMap)
    (r c : Nat) (hr : r < 4) (hc : c < 20) :
    (kb.applyMap vc map).tableRead (r : Int) (c : Int) =
      some (specKeyLayout vc kb.mode_ map (r * 20 + c)) := by
  rw [tableRead_some _ _ _ (by omega) (by omega), Int.toNat_ofNat, Int.toNat_ofNat,
    tableAt_applyMap vc kb map r c hr hc]

/-- With `TOGGLE_KEYBOARD` and `CHANGE_KEYBOARD_MODE` not 0, no column of the table
`applyMap` builds starts a blank key in each of the rows 0, 2 and 3: in row 3 a blank
key can start at the columns 6, 14 and 17 only, in row 0 at even columns only, and in
row 2 neither at column 6 nor at column 14. -/
theorem applyMap_no_blank_column (vc : VController) (kb : VControllerKeyboard) (map : KbMap)
    (hT : vc.TOGGLE_KEYBOARD ≠ 0) (hC : vc.CHANGE_KEYBOARD_MODE ≠ 0) (c : Int)
    (h1 : 0 ≤ c) (h2 : c ≤ 19) :
    ¬ ((kb.applyMap vc map).blankEdge 0 c ∧ (kb.applyMap vc map).blankEdge 2 c ∧
      (kb.applyMap vc map).blankEdge 3 c) := by
  rintro ⟨⟨a0, a1⟩, ⟨b0, b1⟩, ⟨d0, d1⟩⟩
  lift c to Nat using h1
  have hc : c < 20 := by omega
  have e0 := tableRead_applyMap vc kb map 0 c (by omega) hc
  have e2 := tableRead_applyMap vc kb map 2 c (by omega) hc
  have e3 := tableRead_applyMap vc kb map 3 c (by omega) hc
  simp only [Nat.cast_ofNat, Nat.cast_zero] at e0 e2 e3
  rw [e0] at a0
  rw [e2] at b0
  rw [e3] at d0
  simp only [Option.some.injEq] at a0 b0 d0
  rcases c with _ | m
  · simp [specKeyLayout] at d0
    exact hT d0
  · have em : (((m + 1 : Nat) : Int)) - 1 = (m : Int) := by
      push_cast
      ring
    rw [em] at a1 b1 d1
    have f0 := tableRead_applyMap vc kb map 0 m (by omega) (by omega)
    have f2 := tableRead_applyMap vc kb map 2 m (by omega) (by omega)
    have f3 := tableRead_applyMap vc kb map 3 m (by omega) (by omega)
    simp only [Nat.cast_ofNat, Nat.cast_zero] at f0 f2 f3
    rw [f0] at a1
    rw [f2] at b1
    rw [f3] at d1
    have a2 : specKeyLayout vc kb.mode_ map (0 * 20 + m) ≠ 0 := by
      rcases a1 with h | ⟨k, hk, hk0⟩
      · exact absurd h (by push_cast; omega)
      · rw [Option.some.inj hk]
        exact hk0
    have b2 : specKeyLayout vc kb.mode_ map (2 * 20 + m) ≠ 0 := by
      rcases b1 with h | ⟨k, hk, hk0⟩
      · exact absurd h (by push_cast; omega)
      · rw [Option.some.inj hk]
        exact hk0
    have d2 : specKeyLayout vc kb.mode_ map (3 * 20 + m) ≠ 0 := by
      rcases d1 with h | ⟨k, hk, hk0⟩
      · exact absurd h (by push_cast; omega)
      · rw [Option.some.inj hk]
        exact hk0
    clear a1 b1 d1 e0 e2 e3 f0 f2 f3 em
    have hm : m < 19 := by omega
    clear hc h2
    interval_cases m <;> simp [specKeyLayout] at a0 a2 b0 b2 d0 d2 <;>
      first
      | exact hT d0
      | exact hC d0
      | exact d2 d0
      | exact a2 a0
      | exact b2 b0

end EmuEx

/-! ## VControllerKeyboard: the claim about `selectKeyRel` -/

namespace EmuEx

/-- Claim C18: on a table built by `applyMap` with `TOGGLE_KEYBOARD` and
`CHANGE_KEYBOARD_MODE` not 0, from every selection with `0 <= x <= x2 <= 19` and
`0 <= y = y2 <= 3` that lies on a key which is not blank, `selectKeyRel` by one step
left, right, up or down returns: with a recursion depth of 81 or more it yields the
same keyboard, whose table is unchanged and whose selection has `0 <= x <= x2 <= 19`,
`0 <= y = y2 <= 3` and a key code that is not 0. -/
theorem selectKeyRel_terminates (vc : VController) (kb : VControllerKeyboard) (map : KbMap)
    (sel : WindowRect) (dx dy : Int) (k : Nat)
    (hT : vc.TOGGLE_KEYBOARD ≠ 0) (hC : vc.CHANGE_KEYBOARD_MODE ≠ 0)
    (hx : 0 ≤ sel.x ∧ sel.x ≤ sel.x2 ∧ sel.x2 ≤ 19)
    (hy : 0 ≤ sel.y ∧ sel.y = sel.y2 ∧ sel.y ≤ 3)
    (hk : (kb.applyMap vc map).currentKey sel.x sel.y = some k) (hk0 : k ≠ 0)
    (hd : (dx = 1 ∧ dy = 0) ∨ (dx = -1 ∧ dy = 0) ∨ (dx = 0 ∧ dy = 1) ∨ (dx = 0 ∧ dy = -1)) :
    ∃ r key,
      (∀ fuel, 81 ≤ fuel →
        VControllerKeyboard.selectKeyRel { kb.applyMap vc map with selected := sel } fuel dx dy =
          some { kb.applyMap vc map with selected := r }) ∧
      0 ≤ r.x ∧ r.x ≤ r.x2 ∧ r.x2 ≤ 19 ∧ 0 ≤ r.y ∧ r.y = r.y2 ∧ r.y ≤ 3 ∧
      (kb.applyMap vc map).currentKey r.x r.y = some key ∧ key ≠ 0 := by
  have hk2 : (kb.applyMap vc map).tableRead sel.y sel.x = some k := hk
  rcases hd with ⟨rfl, rfl⟩ | ⟨rfl, rfl⟩ | ⟨rfl, rfl⟩ | ⟨rfl, rfl⟩
  · obtain ⟨r, key, hr, q1, q2, q3, q4, q5, q6, q7⟩ :=
      selectKeyRel_right_loop (kb.applyMap vc map) sel.y sel.y2 sel.x k ⟨hy.1, hy.2.2⟩ hk2 hk0
        20 sel rfl rfl (by omega) hx.2.2 (by omega)
    exact ⟨r, key, fun fuel hf => hr fuel (by omega), q3, q4, q5, by omega, by omega,
      by omega, q6, q7⟩
  · obtain ⟨r, key, hr, q1, q2, q3, q4, q5, q6, q7⟩ :=
      selectKeyRel_left_loop (kb.applyMap vc map) sel.y sel.y2 sel.x k ⟨hy.1, hy.2.2⟩ hk2 hk0
        20 sel rfl rfl hx.1 (by omega) (by omega)
    exact ⟨r, key, fun fuel hf => hr fuel (by omega), q3, q4, q5, by omega, by omega,
      by omega, q6, q7⟩
  · have eS : ((sel.x.toNat : Nat) : Int) = sel.x := Int.toNat_of_nonneg hx.1
    obtain ⟨r, key, hr, q1, q2, q3, q4, q5, q6, q7, q8⟩ :=
      selectKeyRel_vertical_loop (kb.applyMap vc map) 1 (Or.inl rfl)
        (applyMap_no_blank_column vc kb map hT hC) 81 sel 0 hx.1 (by omega) (by omega)
        (by omega) (by omega) (fun i h1 h2 => absurd h2 (by push_cast; omega))
        (by generalize sel.x.toNat = a at eS; omega)
    exact ⟨r, key, hr, q4, q5, q6, q2, q1, q3, q7, q8⟩
  · have eS : ((sel.x.toNat : Nat) : Int) = sel.x := Int.toNat_of_nonneg hx.1
    obtain ⟨r, key, hr, q1, q2, q3, q4, q5, q6, q7, q8⟩ :=
      selectKeyRel_vertical_loop (kb.applyMap vc map) (-1) (Or.inr rfl)
        (applyMap_no_blank_column vc kb map hT hC) 81 sel 0 hx.1 (by omega) (by omega)
        (by omega) (by omega) (fun i h1 h2 => absurd h2 (by push_cast; omega))
        (by generalize sel.x.toNat = a at eS; omega)
    exact ⟨r, key, hr, q4, q5, q6, q2, q1, q3, q7, q8⟩

/-- Claim C18, for a step down from the key in the columns 6 and 7 of row 0, on a key map
whose entries 13 to 39 are blank: the blank keys of the rows 1 and 2 are skipped and
the selection ends on a key that is not blank. -/
theorem selectKeyRel_terminates_witness :
    ∃ r key,
      (∀ fuel, 81 ≤ fuel →
        VControllerKeyboard.selectKeyRel
          { (demoKeyboard VControllerKbMode.LAYOUT_2).applyMap demoVController sparseMap with
            selected := { x := 6, y := 0, x2 := 7, y2 := 0 } } fuel 0 1 =
          some { (demoKeyboard VControllerKbMode.LAYOUT_2).applyMap demoVController sparseMap with
            selected := r }) ∧
      0 ≤ r.x ∧ r.x ≤ r.x2 ∧ r.x2 ≤ 19 ∧ 0 ≤ r.y ∧ r.y = r.y2 ∧ r.y ≤ 3 ∧
      ((demoKeyboard VControllerKbMode.LAYOUT_2).applyMap demoVController
        sparseMap).currentKey r.x r.y = some key ∧ key ≠ 0 :=
  selectKeyRel_terminates demoVController (demoKeyboard VControllerKbMode.LAYOUT_2) sparseMap
    { x := 6, y := 0, x2 := 7, y2 := 0 } 0 1 103 (by decide) (by decide) (by decide)
    (by decide) (by decide) (by decide) (by decide)

end EmuEx

/-! ## FSPicker: the title `setPath` gives the file table -/

namespace IG

/-- Dropping as many characters as a string has leaves the empty string. -/
theorem drop_length (s : String) : s.drop s.length = "" := by
  rw [String.drop_eq]
  show (⟨s.1.drop s.1.length⟩ : String) = ""
  rw [List.drop_length]

/-- The root info `setPath` works with on a path that is not a URI: the given one,
with the length set to 0 when it is greater than the length of the path. -/
theorem setPath_fields (ctx : ApplicationContext) (p : FSPicker) (path : String)
    (rootInfo : FS.RootPathInfo) (keyEvent : Bool)
    (hne : path.length ≠ 0) (huri : ctx.isUri path = false) (ri : FS.RootPathInfo)
    (hri : ri = if rootInfo.length != 0 && decide (rootInfo.length > path.length)
      then { rootInfo with length := 0 } else rootInfo) :
    (p.setPath ctx path rootInfo keyEvent).tableName =
        (if ri.length != 0 then
          (if path.length > ri.length then ri.name ++ path.drop ri.length else ri.name)
        else path) ∧
      (p.setPath ctx path rootInfo keyEvent).rootInfo =
        (if ri.length != 0 then ri else { name := "", length := 0 }) ∧
      (p.setPath ctx path rootInfo keyEvent).rootPath = path := by
  have hb : (path.length == 0) = false := by simpa using hne
  unfold FSPicker.setPath
  simp only [hb, Bool.false_eq_true, if_false, huri, Bool.and_false, ← hri]
  refine ⟨trivial, ?_, ?_⟩
  · split <;> rfl
  · split <;> rfl

/-- Claim C16: `setPath` on a non-empty path that is not a URI. With
`0 < rootInfo.length <= length of the path` the title of the file table is
`rootInfo.name` followed by the path without its first `rootInfo.length` characters
(just `rootInfo.name` when the lengths are equal) and the root info is stored; with
`rootInfo.length` 0 or greater than the length of the path the title is the path itself
and the stored root info is empty; in every case the stored root path is the path. -/
theorem setPath_rooted_title (ctx : ApplicationContext) (p : FSPicker) (path : String)
    (rootInfo : FS.RootPathInfo) (keyEvent : Bool)
    (hne : path.length ≠ 0) (huri : ctx.isUri path = false) :
    (0 < rootInfo.length → rootInfo.length ≤ path.length →
      (p.setPath ctx path rootInfo keyEvent).tableName =
          rootInfo.name ++ path.drop rootInfo.length ∧
        (rootInfo.length = path.length →
          (p.setPath ctx path rootInfo keyEvent).tableName = rootInfo.name) ∧
        (p.setPath ctx path rootInfo keyEvent).rootInfo = rootInfo) ∧
    ((rootInfo.length = 0 ∨ path.length < rootInfo.length) →
      (p.setPath ctx path rootInfo keyEvent).tableName = path ∧
        (p.setPath ctx path rootInfo keyEvent).rootInfo = { name := "", length := 0 }) ∧
    (p.setPath ctx path rootInfo keyEvent).rootPath = path := by
  obtain ⟨ht, hi, hp⟩ := setPath_fields ctx p path rootInfo keyEvent hne huri _ rfl
  refine ⟨?_, ?_, hp⟩
  · intro h0 hle
    have h1 : (rootInfo.length != 0 && decide (rootInfo.length > path.length)) = false := by
      simp
      omega
    have h2 : (rootInfo.length != 0) = true := by
      simp
      omega
    rw [h1] at ht hi
    simp only [Bool.false_eq_true, if_false, h2, if_true] at ht hi
    refine ⟨?_, ?_, hi⟩
    · rw [ht]
      by_cases hg : path.length > rootInfo.length
      · rw [if_pos hg]
      · have he : rootInfo.length = path.length := by omega
        rw [if_neg hg, he, drop_length]
        simp
    · intro he
      rw [ht, if_neg (by omega)]
  · intro h
    rcases h with h | h
    · have h1 : (rootInfo.length != 0 && decide (rootInfo.length > path.length)) = false := by
        simp [h]
      rw [h1] at ht hi
      simp only [Bool.false_eq_true, if_false, h, bne_self_eq_false] at ht hi
      exact ⟨ht, hi⟩
    · have h1 : (rootInfo.length != 0 && decide (rootInfo.length > path.length)) = true := by
        simp
        omega
      rw [h1] at ht hi
      simp only [if_true, bne_self_eq_false, Bool.false_eq_true, if_false] at ht hi
      exact ⟨ht, hi⟩

/-- Claim C16, for the path `/sd/roms` under the root `/sd` shown as `Card`. -/
theorem setPath_rooted_title_witness :
    (demoPicker.setPath demoContext "/sd/roms" { name := "Card", length := 3 }
        false).tableName = "Card" ++ "/sd/roms".drop 3 :=
  ((setPath_rooted_title demoContext demoPicker "/sd/roms" { name := "Card", length := 3 }
    false (by decide) rfl).1 (by decide) (by decide)).1

end IG

/-! ## Swan.emu: the claim about the user name input -/

namespace Swan

/-- Claim C17: the handler of the user-name input. For a string longer than
`userName.max_size()` it posts "Name is too long", returns false and leaves the system,
with the stored user name, and the menu item unchanged; for every other string it
stores exactly that string as the user name, shows it in the menu item, posts nothing
and returns true. -/
theorem onNameInput_validated (v : CustomSystemOptionView) (str : String) :
    (str.length > v.system.userNameMaxSize →
      (v.onNameInput str).2 = false ∧
      (v.onNameInput str).1.errorMessage = some "Name is too long" ∧
      (v.onNameInput str).1.system = v.system ∧
      (v.onNameInput str).1.nameSecond = v.nameSecond) ∧
    (str.length ≤ v.system.userNameMaxSize →
      (v.onNameInput str).2 = true ∧
      (v.onNameInput str).1.system.userName = str ∧
      (v.onNameInput str).1.system.userNameMaxSize = v.system.userNameMaxSize ∧
      (v.onNameInput str).1.nameSecond = str ∧
      (v.onNameInput str).1.errorMessage = v.errorMessage) := by
  constructor
  · intro h
    simp only [CustomSystemOptionView.onNameInput, if_pos h]
    exact ⟨trivial, trivial, trivial, trivial⟩
  · intro h
    simp only [CustomSystemOptionView.onNameInput, if_neg (not_lt.2 h)]
    exact ⟨trivial, trivial, trivial, trivial, trivial⟩

/-- Claim C17, for a name of 17 characters and for the empty name, with a capacity of
16. -/
theorem onNameInput_validated_witness :
    ((demoView.onNameInput "abcdefghijklmnopq").2 = false ∧
      (demoView.onNameInput "abcdefghijklmnopq").1.errorMessage = some "Name is too long" ∧
      (demoView.onNameInput "abcdefghijklmnopq").1.system = demoView.system ∧
      (demoView.onNameInput "abcdefghijklmnopq").1.nameSecond = demoView.nameSecond) ∧
    ((demoView.onNameInput "").2 = true ∧
      (demoView.onNameInput "").1.system.userName = "" ∧
      (demoView.onNameInput "").1.system.userNameMaxSize = demoView.system.userNameMaxSize ∧
      (demoView.onNameInput "").1.nameSecond = "" ∧
      (demoView.onNameInput "").1.errorMessage = demoView.errorMessage) :=
  ⟨(onNameInput_validated demoView "abcdefghijklmnopq").1 (by decide),
   (onNameInput_validated demoView "").2 (by decide)⟩

end Swan

/-! ## Lemmas: the pixel rectangle of `EmuVideoLayer::place` -/

namespace EmuEx

/-- The quotient of two `int` with a divisor that is not 0 is finite. -/
theorem floatDiv_finite (a b : Int) (hb : b ≠ 0) :
    floatDiv a b = FloatValue.finite ((a : ℚ) / (b : ℚ)) := by
  unfold floatDiv
  rw [if_neg hb]

/-- The adjusted content size of positive content is positive. -/
theorem specGameSize_pos (content base : WP) (hx : 0 < content.x) (hy : 0 < content.y)
    (hb : 0 ≤ base.x ∧ 0 ≤ base.y) :
    0 < (specGameSize content base).1 ∧ 0 < (specGameSize content base).2 := by
  unfold specGameSize
  simp only
  have h1 : 0 < (if base.x ≠ 0 ∧ content.x > base.x then content.x / 2 else content.x) := by
    split_ifs with h
    · omega
    · exact hx
  have h2 : 0 < (if base.y ≠ 0 ∧ content.y > base.y then content.y / 2 else content.y) := by
    split_ifs with h
    · omega
    · exact hy
  split_ifs <;> constructor <;> simp only <;> omega

/-- What the pixel part of `place` computes in integer-only zoom for content of positive
size: the adjusted content size times the scale factor of the axis that the comparison
of the two aspect ratios picks. -/
theorem placePixelRect_integer (opt : ImageZoomOptions) (layer : EmuVideoLayer)
    (dw dh : Int) (sys : EmuSystem) (hc : sys.hasContent = true)
    (hz : layer.zoom_ = opt.optionImageZoomIntegerOnly ∨
      layer.zoom_ = opt.optionImageZoomIntegerOnlyY)
    (hx : 0 < layer.contentSize.x) (hy : 0 < layer.contentSize.y)
    (hb : 0 ≤ sys.multiresVideoBaseSize.x ∧ 0 ≤ sys.multiresVideoBaseSize.y) :
    layer.placePixelRect opt dw dh sys =
      some { layer with
        gameRect_ :=
          { x := 0, y := 0,
            x2 := (specGameSize layer.contentSize sys.multiresVideoBaseSize).1 *
              (if (floatDiv (specGameSize layer.contentSize sys.multiresVideoBaseSize).1
                  (specGameSize layer.contentSize sys.multiresVideoBaseSize).2).gt
                    (floatDiv dw dh)
                then max 1 (dw.tdiv (specGameSize layer.contentSize sys.multiresVideoBaseSize).1)
                else max 1 (dh.tdiv (specGameSize layer.contentSize sys.multiresVideoBaseSize).2)),
            y2 := (specGameSize layer.contentSize sys.multiresVideoBaseSize).2 *
              (if (floatDiv (specGameSize layer.contentSize sys.multiresVideoBaseSize).1
                  (specGameSize layer.contentSize sys.multiresVideoBaseSize).2).gt
                    (floatDiv dw dh)
                then max 1 (dw.tdiv (specGameSize layer.contentSize sys.multiresVideoBaseSize).1)
                else max 1 (dh.tdiv (specGameSize layer.contentSize sys.multiresVideoBaseSize).2)) } } := by
  obtain ⟨hp1, hp2⟩ := specGameSize_pos layer.contentSize sys.multiresVideoBaseSize hx hy hb
  generalize hcs : layer.contentSize = content at *
  generalize hbs : sys.multiresVideoBaseSize = base at *
  have hzb : (layer.zoom_ == opt.optionImageZoomIntegerOnly ||
      layer.zoom_ == opt.optionImageZoomIntegerOnlyY) = true := by
    rcases hz with h | h <;> simp [h]
  have hx0 : (content.x != 0) = true := by
    simp
    omega
  -- the two halvings
  have e1 : (if (base.x != 0 && decide (content.x > base.x)) = true then content.x.tdiv 2
      else content.x) = (if base.x ≠ 0 ∧ content.x > base.x then content.x / 2 else content.x) := by
    rw [Int.tdiv_eq_ediv (le_of_lt hx) (by decide)]
    simp
  have e2 : (if (base.y != 0 && decide (content.y > base.y)) = true then content.y.tdiv 2
      else content.y) = (if base.y ≠ 0 ∧ content.y > base.y then content.y / 2 else content.y) := by
    rw [Int.tdiv_eq_ediv (le_of_lt hy) (by decide)]
    simp
  unfold EmuVideoLayer.placePixelRect
  simp only [hc, if_true, hcs, hbs, hzb, hx0, Bool.and_self, e1, e2]
  unfold specGameSize at hp1 hp2 ⊢
  simp only at hp1 hp2 ⊢
  generalize (if base.x ≠ 0 ∧ content.x > base.x then content.x / 2 else content.x) = gx at *
  generalize (if base.y ≠ 0 ∧ content.y > base.y then content.y / 2 else content.y) = gy at *
  have hgy : 0 < gy := by
    split_ifs at hp2 <;> simp only at hp2 <;> omega
  have hgx : 0 < gx := by
    split_ifs at hp1 <;> simp only at hp1 <;> omega
  rw [floatDiv_finite gx gy (by omega)]
  simp only [FloatValue.geConst, FloatValue.ltConst, decide_eq_true_eq]
  by_cases h2 : (gx : ℚ) / (gy : ℚ) ≥ 2
  · simp only [h2, if_true]
    have hn : gx ≠ 0 := by omega
    have hm : gy * 2 ≠ 0 := by omega
    simp only [hn, hm, if_false]
    split_ifs <;> rfl
  · simp only [h2, if_false]
    by_cases h8 : (gx : ℚ) / (gy : ℚ) < 4 / 5
    · simp only [h8, if_true]
      have hn : gx * 2 ≠ 0 := by omega
      have hm : gy ≠ 0 := by omega
      simp only [hn, hm, if_false]
      split_ifs <;> rfl
    · simp only [h8, if_false]
      have hn : gx ≠ 0 := by omega
      have hm : gy ≠ 0 := by omega
      rw [floatDiv_finite gx gy hm]
      simp only [hn, hm, if_false]
      split_ifs <;> rfl

end EmuEx

/-! ## EmuVideoLayer: the claims about integer-only zoom -/

namespace EmuEx

/-- Claim C21: integer-only zoom in `EmuVideoLayer::place`, for content of positive width
and height and multires base sizes that are not negative. The pixel rectangle computed
before positioning is `(0, 0)` to `(gameX * k, gameY * k)` for one integer `k >= 1`,
which is `max(1, displayWidth / gameX)` or `max(1, displayHeight / gameY)`, whatever the
display size; `gameX` and `gameY` are the content width and height, each halved when it
exceeds a non-zero multires base size, then with the height doubled when
`gameX / gameY >= 2` or the width doubled when `gameX / gameY < 0.8`. -/
theorem placePixelRect_scale (opt : ImageZoomOptions) (layer : EmuVideoLayer)
    (dw dh : Int) (sys : EmuSystem) (hc : sys.hasContent = true)
    (hz : layer.zoom_ = opt.optionImageZoomIntegerOnly ∨
      layer.zoom_ = opt.optionImageZoomIntegerOnlyY)
    (hx : 0 < layer.contentSize.x) (hy : 0 < layer.contentSize.y)
    (hb : 0 ≤ sys.multiresVideoBaseSize.x ∧ 0 ≤ sys.multiresVideoBaseSize.y) :
    ∃ k : Int, 1 ≤ k ∧
      (k = max 1 (dw.tdiv (specGameSize layer.contentSize sys.multiresVideoBaseSize).1) ∨
        k = max 1 (dh.tdiv (specGameSize layer.contentSize sys.multiresVideoBaseSize).2)) ∧
      layer.placePixelRect opt dw dh sys =
        some { layer with
          gameRect_ :=
            { x := 0, y := 0,
              x2 := (specGameSize layer.contentSize sys.multiresVideoBaseSize).1 * k,
              y2 := (specGameSize layer.contentSize sys.multiresVideoBaseSize).2 * k } } := by
  have h := placePixelRect_integer opt layer dw dh sys hc hz hx hy hb
  by_cases hg : (floatDiv (specGameSize layer.contentSize sys.multiresVideoBaseSize).1
      (specGameSize layer.contentSize sys.multiresVideoBaseSize).2).gt (floatDiv dw dh) = true
  · simp only [hg, if_true] at h
    exact ⟨_, le_max_left _ _, Or.inl rfl, h⟩
  · simp only [hg, if_false] at h
    exact ⟨_, le_max_left _ _, Or.inr rfl, h⟩

/-- Claim C21, for a video of 512 by 224 pixels with a multires base size of 256 by 224
on a display of 1920 by 1080 pixels. -/
theorem placePixelRect_scale_witness :
    ∃ k : Int, 1 ≤ k ∧
      (k = max 1 (Int.tdiv 1920
          (specGameSize demoVideoLayer.contentSize demoEmuSystem.multiresVideoBaseSize).1) ∨
        k = max 1 (Int.tdiv 1080
          (specGameSize demoVideoLayer.contentSize demoEmuSystem.multiresVideoBaseSize).2)) ∧
      demoVideoLayer.placePixelRect demoZoomOptions 1920 1080 demoEmuSystem =
        some { demoVideoLayer with
          gameRect_ :=
            { x := 0, y := 0,
              x2 := (specGameSize demoVideoLayer.contentSize
                demoEmuSystem.multiresVideoBaseSize).1 * k,
              y2 := (specGameSize demoVideoLayer.contentSize
                demoEmuSystem.multiresVideoBaseSize).2 * k } } :=
  placePixelRect_scale demoZoomOptions demoVideoLayer 1920 1080 demoEmuSystem rfl
    (Or.inl rfl) (by decide) (by decide) (by decide)

/-- Claim C22: in integer-only zoom, with content of positive size and the aspect ratios
compared exactly, on a display at least `gameX` wide and `gameY` high the scaled
rectangle fits the display: `gameX * k <= displayWidth` and
`gameY * k <= displayHeight`, whichever axis the scale factor `k` is taken from. -/
theorem placePixelRect_fits (opt : ImageZoomOptions) (layer : EmuVideoLayer)
    (dw dh : Int) (sys : EmuSystem) (hc : sys.hasContent = true)
    (hz : layer.zoom_ = opt.optionImageZoomIntegerOnly ∨
      layer.zoom_ = opt.optionImageZoomIntegerOnlyY)
    (hx : 0 < layer.contentSize.x) (hy : 0 < layer.contentSize.y)
    (hb : 0 ≤ sys.multiresVideoBaseSize.x ∧ 0 ≤ sys.multiresVideoBaseSize.y)
    (hdw : (specGameSize layer.contentSize sys.multiresVideoBaseSize).1 ≤ dw)
    (hdh : (specGameSize layer.contentSize sys.multiresVideoBaseSize).2 ≤ dh) :
    ∃ r, layer.placePixelRect opt dw dh sys = some r ∧
      r.gameRect_.x = 0 ∧ r.gameRect_.y = 0 ∧
      (∃ k : Int, 1 ≤ k ∧
        r.gameRect_.x2 = (specGameSize layer.contentSize sys.multiresVideoBaseSize).1 * k ∧
        r.gameRect_.y2 = (specGameSize layer.contentSize sys.multiresVideoBaseSize).2 * k) ∧
      r.gameRect_.x2 ≤ dw ∧ r.gameRect_.y2 ≤ dh := by
  have h := placePixelRect_integer opt layer dw dh sys hc hz hx hy hb
  obtain ⟨hp1, hp2⟩ := specGameSize_pos layer.contentSize sys.multiresVideoBaseSize hx hy hb
  generalize (specGameSize layer.contentSize sys.multiresVideoBaseSize).1 = gx at *
  generalize (specGameSize layer.contentSize sys.multiresVideoBaseSize).2 = gy at *
  have hdw0 : 0 < dw := lt_of_lt_of_le hp1 hdw
  have hdh0 : 0 < dh := lt_of_lt_of_le hp2 hdh
  rw [floatDiv_finite gx gy (by omega), floatDiv_finite dw dh (by omega)] at h
  simp only [FloatValue.gt, decide_eq_true_eq] at h
  have hkx : 1 ≤ dw / gx := (Int.le_ediv_iff_mul_le hp1).2 (by omega)
  have hky : 1 ≤ dh / gy := (Int.le_ediv_iff_mul_le hp2).2 (by omega)
  have hmx : gx * (dw / gx) ≤ dw := Int.mul_ediv_self_le (by omega)
  have hmy : gy * (dh / gy) ≤ dh := Int.mul_ediv_self_le (by omega)
  have qgy : (0 : ℚ) < (gy : ℚ) := by exact_mod_cast hp2
  have qdh : (0 : ℚ) < (dh : ℚ) := by exact_mod_cast hdh0
  rw [Int.tdiv_eq_ediv (le_of_lt hdw0) (le_of_lt hp1),
    Int.tdiv_eq_ediv (le_of_lt hdh0) (le_of_lt hp2), max_eq_right hkx, max_eq_right hky] at h
  by_cases hg : (gx : ℚ) / (gy : ℚ) > (dw : ℚ) / (dh : ℚ)
  · simp only [hg, if_true] at h
    refine ⟨_, h, rfl, rfl, ⟨dw / gx, hkx, rfl, rfl⟩, hmx, ?_⟩
    show gy * (dw / gx) ≤ dh
    have hcross : dw * gy < gx * dh := by
      have := (div_lt_div_iff₀ qdh qgy).1 hg
      exact_mod_cast this
    by_contra hcon
    push_neg at hcon
    nlinarith
  · simp only [hg, if_false] at h
    refine ⟨_, h, rfl, rfl, ⟨dh / gy, hky, rfl, rfl⟩, ?_, hmy⟩
    show gx * (dh / gy) ≤ dw
    have hcross : gx * dh ≤ dw * gy := by
      have := (div_le_div_iff₀ qgy qdh).1 (not_lt.1 hg)
      exact_mod_cast this
    by_contra hcon
    push_neg at hcon
    nlinarith

/-- Claim C22, for a video of 512 by 224 pixels with a multires base size of 256 by 224
on a display of 1920 by 1080 pixels. -/
theorem placePixelRect_fits_witness :
    ∃ r, demoVideoLayer.placePixelRect demoZoomOptions 1920 1080 demoEmuSystem = some r ∧
      r.gameRect_.x = 0 ∧ r.gameRect_.y = 0 ∧
      (∃ k : Int, 1 ≤ k ∧
        r.gameRect_.x2 =
          (specGameSize demoVideoLayer.contentSize demoEmuSystem.multiresVideoBaseSize).1 * k ∧
        r.gameRect_.y2 =
          (specGameSize demoVideoLayer.contentSize demoEmuSystem.multiresVideoBaseSize).2 * k) ∧
      r.gameRect_.x2 ≤ 1920 ∧ r.gameRect_.y2 ≤ 1080 :=
  placePixelRect_fits demoZoomOptions demoVideoLayer 1920 1080 demoEmuSystem rfl
    (Or.inl rfl) (by decide) (by decide) (by decide)
    (by norm_num [specGameSize, demoVideoLayer, demoEmuSystem, EmuVideoLayer.contentSize])
    (by norm_num [specGameSize, demoVideoLayer, demoEmuSystem, EmuVideoLayer.contentSize])

end EmuEx

/-! ## FSPicker: single-directory mode and the order of the list -/

namespace IG

/-- Two ranges neither of which is less than the other by
`std::lexicographical_compare` have the same keys, position by position. -/
theorem lexicographical_compare_equiv {α β : Type} [LinearOrder β] (key : α → β)
    (comp : α → α → Bool) (hc : ∀ a b, comp a b = true ↔ key a < key b) :
    ∀ s t : List α,
      (Std_.lexicographical_compare comp s t = false ∧
        Std_.lexicographical_compare comp t s = false) ↔ s.map key = t.map key := by
  intro s
  induction s with
  | nil => intro t; cases t <;> simp [Std_.lexicographical_compare]
  | cons a s ih =>
    intro t
    cases t with
    | nil => simp [Std_.lexicographical_compare]
    | cons b t =>
      simp only [Std_.lexicographical_compare, hc, List.map_cons, List.cons.injEq]
      rcases lt_trichotomy (key a) (key b) with hab | hab | hab
      · simp [hab, ne_of_lt hab]
      · simp only [hab, lt_irrefl, if_false, true_and]
        exact ih t
      · simp [hab, not_lt_of_lt hab, ne_of_gt hab]

/-- Neither of two strings is less than the other by `stringNoCaseLexCompare` exactly
when they are equal up to letter case. -/
theorem stringNoCaseLexCompare_equiv (s t : String) :
    (stringNoCaseLexCompare s t = false ∧ stringNoCaseLexCompare t s = false) ↔
      s.data.map Char.toLower = t.data.map Char.toLower := by
  unfold stringNoCaseLexCompare
  exact lexicographical_compare_equiv (fun c : Char => c.toLower) _
    (fun a b => by simp) s.data t.data

/-- Neither of two file entries is less than the other exactly when they are of the
same kind and their paths are equal up to letter case. -/
theorem fileEntryLess_equiv (a b : FileEntry) :
    (fileEntryLess a b = false ∧ fileEntryLess b a = false) ↔
      (a.isDir = b.isDir ∧ a.path.data.map Char.toLower = b.path.data.map Char.toLower) := by
  unfold fileEntryLess
  cases ha : a.isDir <;> cases hb : b.isDir <;> simp
  · exact stringNoCaseLexCompare_equiv a.path b.path
  · exact stringNoCaseLexCompare_equiv a.path b.path

/-- Claim C23: single-directory mode. An entry of the list after `listDirectory` has the
directory flag only if it had it before the call or the listed file is a directory; in
`Mode::FILE_IN_DIR`, on a list without directory entries (the worker starts on a cleared
list), `listDirectory` puts no directory entry into the list and gives no entry the
handler that asserts `!isSingleDirectoryMode()`; and `pushFileLocationsView` pushes
no view in that mode. -/
theorem listDirectory_single_directory (p : FSPicker) (src : DirStream) (stop : Nat → Bool)
    (host : LocationsHost) :
    (∀ e ∈ (p.listDirectory src stop).dir, e.isDir = true →
      (∃ e0 ∈ p.dir, e0.isDir = true ∧ e0.path = e.path) ∨
      ∃ entry ∈ src.entries, entry.type = FS.file_type.directory ∧
        e.path = entry.path ∧ e.name = entry.name) ∧
    (p.mode_ = Mode.FILE_IN_DIR →
      (∀ e0 ∈ p.dir, e0.isDir = false ∧ e0.onSelect ≠ OnSelect.enterDir) →
      (∀ e ∈ (p.listDirectory src stop).dir,
        e.isDir = false ∧ e.onSelect ≠ OnSelect.enterDir) ∧
      p.isSingleDirectoryMode = true ∧ p.pushFileLocationsView host = none) := by
  constructor
  · intro e he hd
    rcases mem_listDirectory p src stop e he with ⟨e0, h0, h⟩ | ⟨en, hen, -, h⟩
    · left
      refine ⟨e0, h0, ?_⟩
      rcases h with rfl | rfl
      · exact ⟨hd, rfl⟩
      · rw [setOnSelect_isDir] at hd
        exact ⟨hd, (setOnSelect_path e0).symm⟩
    · right
      refine ⟨en, hen, ?_⟩
      rcases h with rfl | rfl
      · refine ⟨?_, rfl, rfl⟩
        simpa [FileEntry.ofEntry, FileEntry.isDir] using hd
      · rw [setOnSelect_isDir] at hd
        refine ⟨?_, setOnSelect_path _, setOnSelect_name _⟩
        simpa [FileEntry.ofEntry, FileEntry.isDir] using hd
  · intro hm hold
    have hkeep : ∀ d : FileEntry, d.isDir = false → d.onSelect ≠ OnSelect.enterDir →
        (setOnSelect d).isDir = false ∧ (setOnSelect d).onSelect ≠ OnSelect.enterDir := by
      intro d h1 _
      refine ⟨by rw [setOnSelect_isDir]; exact h1, ?_⟩
      unfold setOnSelect
      rw [h1]
      simp
    have hnew : ∀ en : FS.directory_entry, specAccepted p en = true →
        (FileEntry.ofEntry en).isDir = false ∧
          (FileEntry.ofEntry en).onSelect ≠ OnSelect.enterDir := by
      intro en hacc
      unfold specAccepted at hacc
      simp only [hm, Bool.and_eq_true] at hacc
      refine ⟨?_, by simp [FileEntry.ofEntry]⟩
      simpa [FileEntry.ofEntry, FileEntry.isDir] using hacc.1.1
    refine ⟨?_, ?_, ?_⟩
    · intro e he
      rcases mem_listDirectory p src stop e he with ⟨e0, h0, h⟩ | ⟨en, -, hacc, h⟩
      · rcases h with rfl | rfl
        · exact hold e h0
        · exact hkeep e0 (hold e0 h0).1 (hold e0 h0).2
      · rcases h with rfl | rfl
        · exact hnew en hacc
        · exact hkeep _ (hnew en hacc).1 (hnew en hacc).2
    · simp [FSPicker.isSingleDirectoryMode, hm]
    · simp [FSPicker.pushFileLocationsView, FSPicker.isSingleDirectoryMode, hm]

/-- Claim C23, for a picker in single-directory mode listing a directory with two
sub-directories. -/
theorem listDirectory_single_directory_witness :
    (∀ e ∈ (singleDirPicker.listDirectory demoDir neverStop).dir,
      e.isDir = false ∧ e.onSelect ≠ OnSelect.enterDir) ∧
    singleDirPicker.isSingleDirectoryMode = true ∧
    singleDirPicker.pushFileLocationsView demoHost = none :=
  (listDirectory_single_directory singleDirPicker demoDir neverStop demoHost).2 rfl
    (by decide)

/-- Claim C24: the comparison that sorts the directory list is a strict weak ordering.
It is irreflexive and transitive; neither of two entries is less than the other exactly
when they are of the same kind and their paths are equal up to letter case; and that
relation is transitive. -/
theorem fileEntryLess_strict_weak_order :
    (∀ a : FileEntry, fileEntryLess a a = false) ∧
    (∀ a b c : FileEntry, fileEntryLess a b = true → fileEntryLess b c = true →
      fileEntryLess a c = true) ∧
    (∀ a b : FileEntry,
      (fileEntryLess a b = false ∧ fileEntryLess b a = false) ↔
        (a.isDir = b.isDir ∧
          a.path.data.map Char.toLower = b.path.data.map Char.toLower)) ∧
    (∀ a b c : FileEntry,
      (fileEntryLess a b = false ∧ fileEntryLess b a = false) →
      (fileEntryLess b c = false ∧ fileEntryLess c b = false) →
      (fileEntryLess a c = false ∧ fileEntryLess c a = false)) := by
  refine ⟨?_, fileEntryLess_trans, fileEntryLess_equiv, ?_⟩
  · intro a
    cases h : fileEntryLess a a with
    | false => rfl
    | true =>
      have := fileEntryLess_asymm a a h
      rw [h] at this
      exact this
  · intro a b c h1 h2
    rw [fileEntryLess_equiv] at h1 h2 ⊢
    exact ⟨h1.1.trans h2.1, h1.2.trans h2.2⟩

end IG

/-! ## 2600.emu: the paddle remapping -/

namespace A2600

/-- The key code that the lambda of `translateInputAction` computes does not depend on the
joystick event maps for a key that is none of the left, right and fire keys. -/
theorem translateKey_maps_free (E : Event) (start : Nat) (sys1 sys2 : A2600System) (k : Nat)
    (h1 : k ≠ vcsKeyIdxRight start) (h2 : k ≠ vcsKeyIdxLeft start)
    (h3 : k ≠ vcsKeyIdxJSBtnTurbo start) (h4 : k ≠ vcsKeyIdxJSBtn start)
    (h5 : k ≠ vcsKeyIdxRight2 start) (h6 : k ≠ vcsKeyIdxLeft2 start)
    (h7 : k ≠ vcsKeyIdxJSBtnTurbo2 start) (h8 : k ≠ vcsKeyIdxJSBtn2 start) :
    sys1.translateKey E start k = sys2.translateKey E start k := by
  unfold A2600System.translateKey
  simp only [if_neg h1, if_neg h2, if_neg h3, if_neg h4, if_neg h5, if_neg h6, if_neg h7,
    if_neg h8]

/-- The maps after `updateJoytickMapping` with a type other than `Paddles`. -/
theorem updateJoytickMapping_other (E : Event) (sys : A2600System) (type : ControllerType)
    (h : type ≠ ControllerType.Paddles) :
    (sys.updateJoytickMapping E type).jsFireMap = (E.LeftJoystickFire, E.RightJoystickFire) ∧
    (sys.updateJoytickMapping E type).jsLeftMap = (E.LeftJoystickLeft, E.RightJoystickLeft) ∧
    (sys.updateJoytickMapping E type).jsRightMap =
      (E.LeftJoystickRight, E.RightJoystickRight) := by
  unfold A2600System.updateJoytickMapping
  rw [if_neg h]
  exact ⟨rfl, rfl, rfl⟩

/-- What `translateInputAction` returns for the left, right and fire keys, from the three
maps of the system. -/
theorem translateInputAction_mapped (E : Event) (start : Nat) (sys : A2600System)
    (a : InputAction) :
    (a.key = vcsKeyIdxLeft start → sys.translateInputAction E start a =
      some { key := toUnsigned sys.jsLeftMap.1, state := a.state, turbo := false }) ∧
    (a.key = vcsKeyIdxRight start → sys.translateInputAction E start a =
      some { key := toUnsigned sys.jsRightMap.1, state := a.state, turbo := false }) ∧
    (a.key = vcsKeyIdxJSBtn start → sys.translateInputAction E start a =
      some { key := toUnsigned sys.jsFireMap.1, state := a.state, turbo := a.turbo }) ∧
    (a.key = vcsKeyIdxJSBtnTurbo start → sys.translateInputAction E start a =
      some { key := toUnsigned sys.jsFireMap.1, state := a.state, turbo := true }) ∧
    (a.key = vcsKeyIdxLeft2 start → sys.translateInputAction E start a =
      some { key := toUnsigned sys.jsLeftMap.2, state := a.state, turbo := false }) ∧
    (a.key = vcsKeyIdxRight2 start → sys.translateInputAction E start a =
      some { key := toUnsigned sys.jsRightMap.2, state := a.state, turbo := false }) ∧
    (a.key = vcsKeyIdxJSBtn2 start → sys.translateInputAction E start a =
      some { key := toUnsigned sys.jsFireMap.2, state := a.state, turbo := a.turbo }) ∧
    (a.key = vcsKeyIdxJSBtnTurbo2 start → sys.translateInputAction E start a =
      some { key := toUnsigned sys.jsFireMap.2, state := a.state, turbo := true }) := by
  refine ⟨?_, ?_, ?_, ?_, ?_, ?_, ?_, ?_⟩
  · intro hk
    rw [vcsKeyIdxLeft_eq] at hk
    rw [translateInputAction_shift E start sys a 3 hk]
    rfl
  · intro hk
    rw [vcsKeyIdxRight_eq] at hk
    rw [translateInputAction_shift E start sys a 1 hk]
    rfl
  · intro hk
    rw [vcsKeyIdxJSBtn_eq] at hk
    rw [translateInputAction_shift E start sys a 8 hk]
    rfl
  · intro hk
    rw [vcsKeyIdxJSBtnTurbo_eq] at hk
    rw [translateInputAction_shift E start sys a 9 hk]
    rfl
  · intro hk
    rw [vcsKeyIdxLeft2_eq] at hk
    rw [translateInputAction_shift E start sys a 15 hk]
    rfl
  · intro hk
    rw [vcsKeyIdxRight2_eq] at hk
    rw [translateInputAction_shift E start sys a 13 hk]
    rfl
  · intro hk
    rw [vcsKeyIdxJSBtn2_eq] at hk
    rw [translateInputAction_shift E start sys a 20 hk]
    rfl
  · intro hk
    rw [vcsKeyIdxJSBtnTurbo2_eq] at hk
    rw [translateInputAction_shift E start sys a 21 hk]
    rfl

/-- The action `translateInputAction` returns does not depend on the joystick event maps
for a key that is none of the left, right and fire keys. -/
theorem translateInputAction_maps_free (E : Event) (start : Nat) (sys1 sys2 : A2600System)
    (a : InputAction)
    (h1 : a.key ≠ vcsKeyIdxRight start) (h2 : a.key ≠ vcsKeyIdxLeft start)
    (h3 : a.key ≠ vcsKeyIdxJSBtnTurbo start) (h4 : a.key ≠ vcsKeyIdxJSBtn start)
    (h5 : a.key ≠ vcsKeyIdxRight2 start) (h6 : a.key ≠ vcsKeyIdxLeft2 start)
    (h7 : a.key ≠ vcsKeyIdxJSBtnTurbo2 start) (h8 : a.key ≠ vcsKeyIdxJSBtn2 start) :
    sys1.translateInputAction E start a = sys2.translateInputAction E start a := by
  have hk : (if (!isJoystickButton start a.key) = true then a.setTurboFlag false
      else a).key = a.key := by
    split_ifs <;> rfl
  unfold A2600System.translateInputAction
  simp only [hk]
  rw [translateKey_maps_free E start sys1 sys2 a.key h1 h2 h3 h4 h5 h6 h7 h8]

end A2600

/-! ## 2600.emu: the claim about the paddle remapping -/

namespace A2600

/-- Claim C25: paddle remapping. After `updateJoytickMapping` with type `Paddles` the
left, right and fire keys of player 1 translate to `LeftPaddleAIncrease`,
`LeftPaddleADecrease` and `LeftPaddleAFire` and those of player 2 to
`LeftPaddleBIncrease`, `LeftPaddleBDecrease` and `LeftPaddleBFire`; after
`updateJoytickMapping` with any other type they translate to the left and right
joystick's `Left`, `Right` and `Fire` events; and the translation of every other key is
the same after `updateJoytickMapping` with any two types. The fire keys are the button
and its turbo key, which sets the turbo flag. -/
theorem translateInputAction_paddles (E : Event) (start : Nat) (sys : A2600System)
    (a : InputAction) :
    ((a.key = vcsKeyIdxLeft start →
        (sys.updateJoytickMapping E ControllerType.Paddles).translateInputAction E start a =
          some { key := toUnsigned E.LeftPaddleAIncrease, state := a.state, turbo := false }) ∧
      (a.key = vcsKeyIdxRight start →
        (sys.updateJoytickMapping E ControllerType.Paddles).translateInputAction E start a =
          some { key := toUnsigned E.LeftPaddleADecrease, state := a.state, turbo := false }) ∧
      (a.key = vcsKeyIdxJSBtn start →
        (sys.updateJoytickMapping E ControllerType.Paddles).translateInputAction E start a =
          some { key := toUnsigned E.LeftPaddleAFire, state := a.state, turbo := a.turbo }) ∧
      (a.key = vcsKeyIdxJSBtnTurbo start →
        (sys.updateJoytickMapping E ControllerType.Paddles).translateInputAction E start a =
          some { key := toUnsigned E.LeftPaddleAFire, state := a.state, turbo := true }) ∧
      (a.key = vcsKeyIdxLeft2 start →
        (sys.updateJoytickMapping E ControllerType.Paddles).translateInputAction E start a =
          some { key := toUnsigned E.LeftPaddleBIncrease, state := a.state, turbo := false }) ∧
      (a.key = vcsKeyIdxRight2 start →
        (sys.updateJoytickMapping E ControllerType.Paddles).translateInputAction E start a =
          some { key := toUnsigned E.LeftPaddleBDecrease, state := a.state, turbo := false }) ∧
      (a.key = vcsKeyIdxJSBtn2 start →
        (sys.updateJoytickMapping E ControllerType.Paddles).translateInputAction E start a =
          some { key := toUnsigned E.LeftPaddleBFire, state := a.state, turbo := a.turbo }) ∧
      (a.key = vcsKeyIdxJSBtnTurbo2 start →
        (sys.updateJoytickMapping E ControllerType.Paddles).translateInputAction E start a =
          some { key := toUnsigned E.LeftPaddleBFire, state := a.state, turbo := true })) ∧
    (∀ type : ControllerType, type ≠ ControllerType.Paddles →
      (a.key = vcsKeyIdxLeft start →
        (sys.updateJoytickMapping E type).translateInputAction E start a =
          some { key := toUnsigned E.LeftJoystickLeft, state := a.state, turbo := false }) ∧
      (a.key = vcsKeyIdxRight start →
        (sys.updateJoytickMapping E type).translateInputAction E start a =
          some { key := toUnsigned E.LeftJoystickRight, state := a.state, turbo := false }) ∧
      (a.key = vcsKeyIdxJSBtn start →
        (sys.updateJoytickMapping E type).translateInputAction E start a =
          some { key := toUnsigned E.LeftJoystickFire, state := a.state, turbo := a.turbo }) ∧
      (a.key = vcsKeyIdxJSBtnTurbo start →
        (sys.updateJoytickMapping E type).translateInputAction E start a =
          some { key := toUnsigned E.LeftJoystickFire, state := a.state, turbo := true }) ∧
      (a.key = vcsKeyIdxLeft2 start →
        (sys.updateJoytickMapping E type).translateInputAction E start a =
          some { key := toUnsigned E.RightJoystickLeft, state := a.state, turbo := false }) ∧
      (a.key = vcsKeyIdxRight2 start →
        (sys.updateJoytickMapping E type).translateInputAction E start a =
          some { key := toUnsigned E.RightJoystickRight, state := a.state, turbo := false }) ∧
      (a.key = vcsKeyIdxJSBtn2 start →
        (sys.updateJoytickMapping E type).translateInputAction E start a =
          some { key := toUnsigned E.RightJoystickFire, state := a.state, turbo := a.turbo }) ∧
      (a.key = vcsKeyIdxJSBtnTurbo2 start →
        (sys.updateJoytickMapping E type).translateInputAction E start a =
          some { key := toUnsigned E.RightJoystickFire, state := a.state, turbo := true })) ∧
    (a.key ≠ vcsKeyIdxRight start → a.key ≠ vcsKeyIdxLeft start →
      a.key ≠ vcsKeyIdxJSBtnTurbo start → a.key ≠ vcsKeyIdxJSBtn start →
      a.key ≠ vcsKeyIdxRight2 start → a.key ≠ vcsKeyIdxLeft2 start →
      a.key ≠ vcsKeyIdxJSBtnTurbo2 start → a.key ≠ vcsKeyIdxJSBtn2 start →
      ∀ type1 type2 : ControllerType,
        (sys.updateJoytickMapping E type1).translateInputAction E start a =
          (sys.updateJoytickMapping E type2).translateInputAction E start a) := by
  refine ⟨?_, ?_, ?_⟩
  · exact translateInputAction_mapped E start
      (sys.updateJoytickMapping E ControllerType.Paddles) a
  · intro type ht
    obtain ⟨m1, m2, m3⟩ := updateJoytickMapping_other E sys type ht
    have h := translateInputAction_mapped E start (sys.updateJoytickMapping E type) a
    rw [m1, m2, m3] at h
    exact h
  · intro h1 h2 h3 h4 h5 h6 h7 h8 type1 type2
    exact translateInputAction_maps_free E start _ _ a h1 h2 h3 h4 h5 h6 h7 h8

/-- Claim C25, for the left key of player 1 after a change to paddles. -/
theorem translateInputAction_paddles_witness :
    (demoSystem.updateJoytickMapping demoEvent ControllerType.Paddles).translateInputAction
        demoEvent demoStart
        { key := vcsKeyIdxLeft demoStart, state := Action.PUSHED, turbo := false } =
      some { key := toUnsigned demoEvent.LeftPaddleAIncrease, state := Action.PUSHED,
             turbo := false } :=
  (translateInputAction_paddles demoEvent demoStart demoSystem
    { key := vcsKeyIdxLeft demoStart, state := Action.PUSHED, turbo := false }).1.1 rfl

end A2600

/-! ## Lemmas: `keyInput` with no key selected -/

namespace EmuEx

/-- When the cells 0 to 2 of row 3 hold one key code and cell 3 holds another,
`selectKey(0, 3)` selects the columns 0 to 2 of row 3. -/
theorem selectKey_first_key (K : VControllerKeyboard) (a b : Nat) (hab : a ≠ b)
    (t0 : K.tableRead 3 0 = some a) (t1 : K.tableRead 3 1 = some a)
    (t2 : K.tableRead 3 2 = some a) (t3 : K.tableRead 3 3 = some b) :
    K.selectKey 0 3 = some { x := 0, y := 3, x2 := 2, y2 := 3 } := by
  obtain ⟨r, key, e, hk, r1, r2, r3, r4, r5, r6, r7, r8, r9, r10⟩ :=
    extendKeySelection_spec K { x := 0, y := 3, x2 := 0, y2 := 3 } (by decide) (by decide)
  simp only at hk r1 r2 r4 r5 r7 r8 r9 r10
  rw [t0] at hk
  have hkey : key = a := (Option.some.inj hk).symm
  have hx : r.x = 0 := le_antisymm r4 r3
  have hle : r.x2 ≤ 2 := by
    by_contra hc
    have h3 := r8 3 (by decide) (by omega)
    rw [t3, hkey] at h3
    exact hab (Option.some.inj h3).symm
  have hge : 2 ≤ r.x2 := by
    rcases r10 with h | ⟨k1, hk1, hk2⟩
    · omega
    · by_contra hc
      have hcases : r.x2 = 0 ∨ r.x2 = 1 := by omega
      rcases hcases with h | h
      · rw [h] at hk1
        norm_num at hk1
        rw [t1] at hk1
        exact hk2 ((Option.some.inj hk1).symm.trans hkey.symm)
      · rw [h] at hk1
        norm_num at hk1
        rw [t2] at hk1
        exact hk2 ((Option.some.inj hk1).symm.trans hkey.symm)
  have hx2 : r.x2 = 2 := le_antisymm hle hge
  unfold VControllerKeyboard.selectKey VKEY_COLS KEY_ROWS
  rw [if_neg (by omega)]
  have e2 : K.extendKeySelection
      { x := ((0 : Nat) : Int), y := ((3 : Nat) : Int), x2 := ((0 : Nat) : Int),
        y2 := ((3 : Nat) : Int) } = some r := e
  rw [e2]
  congr 1
  cases r
  simp only at hx hx2 r1 r2
  simp only [WindowRect.mk.injEq]
  exact ⟨hx, r1, hx2, r2⟩

/-- The cells 0 to 3 of row 3 of a table built by `applyMap`. -/
theorem applyMap_toggle_cells (vc : VController) (kb : VControllerKeyboard) (map : KbMap) :
    (kb.applyMap vc map).tableRead 3 0 = some vc.TOGGLE_KEYBOARD ∧
    (kb.applyMap vc map).tableRead 3 1 = some vc.TOGGLE_KEYBOARD ∧
    (kb.applyMap vc map).tableRead 3 2 = some vc.TOGGLE_KEYBOARD ∧
    (kb.applyMap vc map).tableRead 3 3 = some vc.CHANGE_KEYBOARD_MODE := by
  have t0 := tableRead_applyMap vc kb map 3 0 (by omega) (by omega)
  have t1 := tableRead_applyMap vc kb map 3 1 (by omega) (by omega)
  have t2 := tableRead_applyMap vc kb map 3 2 (by omega) (by omega)
  have t3 := tableRead_applyMap vc kb map 3 3 (by omega) (by omega)
  generalize kb.applyMap vc map = K at *
  have s0 : specKeyLayout vc kb.mode_ map (3 * 20 + 0) = vc.TOGGLE_KEYBOARD := by
    simp [specKeyLayout]
  have s1 : specKeyLayout vc kb.mode_ map (3 * 20 + 1) = vc.TOGGLE_KEYBOARD := by
    simp [specKeyLayout]
  have s2 : specKeyLayout vc kb.mode_ map (3 * 20 + 2) = vc.TOGGLE_KEYBOARD := by
    simp [specKeyLayout]
  have s3 : specKeyLayout vc kb.mode_ map (3 * 20 + 3) = vc.CHANGE_KEYBOARD_MODE := by
    simp [specKeyLayout]
  rw [s0] at t0
  rw [s1] at t1
  rw [s2] at t2
  rw [s3] at t3
  exact ⟨t0, t1, t2, t3⟩

/-- The first branch of `keyInput`, taken when no key is selected. -/
theorem keyInput_unselected (vc : VController) (keyboardMap : VControllerKbMode → KbMap)
    (fuel : Nat) (K : VControllerKeyboard) (sel r : WindowRect) (e : KeyEvent)
    (hs : sel.x = -1) (hsel : K.selectKey 0 3 = some r) :
    ((e.pushedConfirm = true ∨ e.pushedDirection = true) →
      VControllerKeyboard.keyInput vc keyboardMap fuel { K with selected := sel } e =
        some ({ K with selected := r }, [], true)) ∧
    (e.pushedConfirm = false → e.pushedDirection = false →
      VControllerKeyboard.keyInput vc keyboardMap fuel { K with selected := sel } e =
        some ({ K with selected := sel }, [], false)) := by
  have hsel2 : VControllerKeyboard.selectKey { K with selected := sel } 0 3 = some r := by
    rw [← hsel]
    unfold VControllerKeyboard.selectKey
    rw [extendKeySelection_selected]
  constructor
  · intro hp
    have hb : (e.pushedConfirm || e.pushedDirection) = true := by
      rcases hp with h | h <;> simp [h]
    unfold VControllerKeyboard.keyInput
    simp only [hs, if_true, hb, hsel2]
  · intro h1 h2
    unfold VControllerKeyboard.keyInput
    simp only [hs, if_true, h1, h2, Bool.or_self, Bool.false_eq_true, if_false]

end EmuEx

/-! ## VControllerKeyboard: the claim about entering the keyboard -/

namespace EmuEx

/-- Claim C26: `keyInput` with no key selected (`selected.x = -1`) on a table built by
`applyMap`, `TOGGLE_KEYBOARD` being different from `CHANGE_KEYBOARD_MODE`. On a pushed
confirm or direction key it returns true, makes no call on the controller and selects
exactly the columns 0 to 2 of row 3, which hold `TOGGLE_KEYBOARD` while column 3 does
not; on every other key event it returns false and leaves the keyboard, with its
selection, mode and table, as it was. -/
theorem keyInput_enters_keyboard (vc : VController) (kb : VControllerKeyboard) (map : KbMap)
    (keyboardMap : VControllerKbMode → KbMap) (fuel : Nat) (sel : WindowRect) (e : KeyEvent)
    (hs : sel.x = -1) (hne : vc.TOGGLE_KEYBOARD ≠ vc.CHANGE_KEYBOARD_MODE) :
    ((e.pushedConfirm = true ∨ e.pushedDirection = true) →
      VControllerKeyboard.keyInput vc keyboardMap fuel
          { kb.applyMap vc map with selected := sel } e =
        some ({ kb.applyMap vc map with selected := { x := 0, y := 3, x2 := 2, y2 := 3 } },
          [], true)) ∧
    (e.pushedConfirm = false → e.pushedDirection = false →
      VControllerKeyboard.keyInput vc keyboardMap fuel
          { kb.applyMap vc map with selected := sel } e =
        some ({ kb.applyMap vc map with selected := sel }, [], false)) ∧
    ((kb.applyMap vc map).tableRead 3 0 = some vc.TOGGLE_KEYBOARD ∧
      (kb.applyMap vc map).tableRead 3 1 = some vc.TOGGLE_KEYBOARD ∧
      (kb.applyMap vc map).tableRead 3 2 = some vc.TOGGLE_KEYBOARD ∧
      (kb.applyMap vc map).tableRead 3 3 ≠ some vc.TOGGLE_KEYBOARD) :=
  have ht := applyMap_toggle_cells vc kb map
  have hk := keyInput_unselected vc keyboardMap fuel (kb.applyMap vc map) sel
    { x := 0, y := 3, x2 := 2, y2 := 3 } e hs
    (selectKey_first_key (kb.applyMap vc map) vc.TOGGLE_KEYBOARD vc.CHANGE_KEYBOARD_MODE hne
      ht.1 ht.2.1 ht.2.2.1 ht.2.2.2)
  ⟨hk.1, hk.2, ht.1, ht.2.1, ht.2.2.1,
    fun h => hne (Option.some.inj (ht.2.2.2.symm.trans h)).symm⟩

/-- Claim C26, for a pushed confirm key on a sample keyboard with nothing selected. -/
theorem keyInput_enters_keyboard_witness :
    VControllerKeyboard.keyInput demoVController (fun _ => demoMap) 81
        { (demoKeyboard VControllerKbMode.LAYOUT_1).applyMap demoVController demoMap with
          selected := { x := -1, y := -1, x2 := -1, y2 := -1 } } confirmKeyEvent =
      some ({ (demoKeyboard VControllerKbMode.LAYOUT_1).applyMap demoVController demoMap with
          selected := { x := 0, y := 3, x2 := 2, y2 := 3 } }, [], true) :=
  (keyInput_enters_keyboard demoVController (demoKeyboard VControllerKbMode.LAYOUT_1) demoMap
    (fun _ => demoMap) 81 { x := -1, y := -1, x2 := -1, y2 := -1 } confirmKeyEvent rfl
    (by decide)).1 (Or.inl rfl)

end EmuEx
